import Mathlib

/-!
Verification of the RESP codec and command layer of a small Redis-style
server, against its Rust sources.

Modelling conventions:
* Rust `BytesMut` buffers and Rust byte slices are modelled as `List Nat`
  (each element a byte value).  `advance n` is `List.drop n`, `split_to n`
  returns `List.take n` and leaves `List.drop n`.
* A Rust decoder `fn decode(buf: &mut BytesMut) -> Result<T, RespError>`
  becomes a function `List Nat → Except RespError T × List Nat`, returning
  the post-call buffer in both the success and the error case (the Rust
  function mutates the buffer in place, so callers observe it after errors
  too).
* Rust `String` values are modelled by the list of their UTF-8 bytes.
  `String::from_utf8_lossy` is modelled byte-exactly (`utf8Lossy`), following
  the documented replacement of maximal invalid subparts by U+FFFD.
* `i64` / `usize` are modelled as `Int` / `Nat` with the overflow checks of
  Rust string-to-integer parsing made explicit.
* `f64` payloads are modelled abstractly: a decoded double is the exact
  rational value of the decimal text (constructor `DoubleV.fin`), `inf` and
  `nan` are separate constructors.  IEEE-754 rounding is not modelled.  The
  encoder's float formatting (Rust `format!` on `f64`) is an external
  standard-library function; it is a parameter `fmt` of the encoder, and
  theorems that need its behaviour assume Rust's documented round-trip
  contract for exactly the double values occurring in the frame at hand.
* The recursive frame decoder is defined with a fuel parameter (structural
  recursion); the public entry point supplies `buf.length + 1` fuel, which
  can never be exhausted because every recursion step consumes at least four
  buffer bytes.  Theorems quantify over all fuel values where possible.
-/

set_option maxHeartbeats 1000000

namespace SimpleRedis

/-- Bytes of a buffer, a Rust `Vec<u8>` / `BytesMut` / `&[u8]`. -/
abbrev Bytes := List Nat

/-- The terminator bytes `\r\n`. -/
def CRLF : Bytes := [13, 10]

/-- Model of `RespError` (`src/resp/mod.rs`); the `String` / numeric payloads
of the Rust variants are dropped, only the variant tag is kept. -/
inductive RespError where
  | InvalidFrame
  | InvalidFrameType
  | InvalidFrameLength
  | NotComplete
  | ParseIntError
  | Utf8Error
  | ParseFloatError
deriving DecidableEq, Repr

/-- Index of the first `\r\n` pair, as scanned by the loop in
`extract_simpe_frame_data` (`src/resp/decode.rs`): positions `i` with
`buf[i] = '\r'` and `buf[i+1] = '\n'`; a lone trailing `\r` does not match. -/
def crlfPos : Bytes → Option Nat
  | 13 :: 10 :: _ => some 0
  | _ :: rest => (crlfPos rest).map (· + 1)
  | [] => none

/-- Model of `extract_simpe_frame_data(buf, prefix)` (`src/resp/decode.rs`):
reject buffers shorter than 3 bytes, check the tag prefix, then find the
first CRLF; `end == 0` (no CRLF found, or CRLF at position 0) is
`NotComplete`. The function only reads the buffer. -/
def extractSimpleFrameData (buf : Bytes) (pfx : Bytes) : Except RespError Nat :=
  if buf.length < 3 then .error .NotComplete
  else if pfx.isPrefixOf buf then
    let e := (crlfPos buf).getD 0
    if e = 0 then .error .NotComplete else .ok e
  else .error .InvalidFrameType

/-- Decoder result: the Rust return value paired with the post-call buffer. -/
abbrev DecRes (α : Type) := Except RespError α × Bytes

/-- Model of `extract_fixed_data(buf, expect, expect_type)`
(`src/resp/mod.rs`): length check, byte-equality check against `expect`
(`InvalidFrame` on mismatch), the dead `starts_with` re-check
(`InvalidFrameType`), then advance by `expect.len()`. -/
def extractFixedData (buf expect : Bytes) : DecRes Unit :=
  if buf.length < expect.length then (.error .NotComplete, buf)
  else if buf.take expect.length = expect then
    if expect.isPrefixOf buf then (.ok (), buf.drop expect.length)
    else (.error .InvalidFrameType, buf)
  else (.error .InvalidFrame, buf)

/-- ASCII decimal digit test. -/
def isDigitB (b : Nat) : Bool := decide (48 ≤ b ∧ b ≤ 57)

/-- ASCII digits of `n`, most significant first, with explicit fuel
(`fuel ≥ n` suffices); models the digits Rust `Display` emits for an
unsigned integer. -/
def natToBytesAux : Nat → Nat → Bytes
  | 0, _ => []
  | _ + 1, 0 => []
  | fuel + 1, n + 1 => natToBytesAux fuel ((n + 1) / 10) ++ [(n + 1) % 10 + 48]

/-- ASCII decimal representation of a `Nat`, as Rust `Display` prints it. -/
def natToBytes (n : Nat) : Bytes := if n = 0 then [48] else natToBytesAux n n

/-- ASCII decimal representation of an `Int`, as Rust `Display` prints an
`i64`: a `-` sign for negatives, bare digits otherwise. -/
def intToBytes (n : Int) : Bytes :=
  if n < 0 then 45 :: natToBytes (-n).toNat else natToBytes n.toNat

/-- The sign-and-digits payload an `i64` encodes between `:` and CRLF
(`src/resp/integer.rs`): an explicit `+` for non-negatives, the `-` of
`Display` for negatives. -/
def intPayload (n : Int) : Bytes := (if n < 0 then [] else [43]) ++ intToBytes n

/-- Accumulating value of a digit string; `none` on any non-digit byte.
Models the digit loop of Rust `from_str_radix` (base 10). -/
def digitsValAux (acc : Nat) : Bytes → Option Nat
  | [] => some acc
  | b :: rest => if isDigitB b then digitsValAux (acc * 10 + (b - 48)) rest else none

/-- A nonempty digit string valued and checked against an inclusive upper
bound; the digit body shared by the unsigned and signed integer parse
models.  Checking the final value against the bound is equivalent to Rust's
per-step checked arithmetic because the accumulated value only grows as
digits are read. -/
def parseDigitsBounded (bound : Nat) (t : Bytes) : Option Nat :=
  match t with
  | [] => none
  | _ =>
    match digitsValAux 0 t with
    | some v => if v ≤ bound then some v else none
    | none => none

/-- Model of `str::parse::<usize>`: optional leading `+`, then a nonempty
digit string; overflow past `usize::MAX` (64-bit) is a parse error. -/
def parseUsize (s : Bytes) : Option Nat :=
  match s with
  | 43 :: rest => parseDigitsBounded (2 ^ 64 - 1) rest
  | _ => parseDigitsBounded (2 ^ 64 - 1) s

/-- Model of `str::parse::<i64>`: optional sign, nonempty digits, overflow
checked against the `i64` range. -/
def parseI64 (s : Bytes) : Option Int :=
  match s with
  | 45 :: rest => (parseDigitsBounded (2 ^ 63) rest).map (fun v => -(v : Int))
  | 43 :: rest => (parseDigitsBounded (2 ^ 63 - 1) rest).map (fun v => (v : Int))
  | _ => (parseDigitsBounded (2 ^ 63 - 1) s).map (fun v => (v : Int))

/-- UTF-8 continuation byte test (`0x80..=0xBF`). -/
def isCont (b : Nat) : Bool := decide (128 ≤ b ∧ b ≤ 191)

/-- UTF-8 bytes of U+FFFD REPLACEMENT CHARACTER. -/
def fffd : Bytes := [239, 191, 189]

/-- Byte-exact model of `String::from_utf8_lossy` (an external standard
library function used by the decoders): well-formed UTF-8 sequences pass
through unchanged; each maximal invalid subpart is replaced by one U+FFFD,
per the WHATWG ranges Rust documents (`E0: A0..BF`, `ED: 80..9F`,
`F0: 90..BF`, `F4: 80..8F`, other continuations `80..BF`). -/
def utf8Lossy : Bytes → Bytes
  | [] => []
  | b :: rest =>
    if b ≤ 127 then b :: utf8Lossy rest
    else if 194 ≤ b ∧ b ≤ 223 then
      match rest with
      | [] => fffd
      | c :: rest2 =>
        if isCont c then b :: c :: utf8Lossy rest2
        else fffd ++ utf8Lossy (c :: rest2)
    else if 224 ≤ b ∧ b ≤ 239 then
      let lo : Nat := if b = 224 then 160 else 128
      let hi : Nat := if b = 237 then 159 else 191
      match rest with
      | [] => fffd
      | c :: rest2 =>
        if lo ≤ c ∧ c ≤ hi then
          match rest2 with
          | [] => fffd
          | d :: rest3 =>
            if isCont d then b :: c :: d :: utf8Lossy rest3
            else fffd ++ utf8Lossy (d :: rest3)
        else fffd ++ utf8Lossy (c :: rest2)
    else if 240 ≤ b ∧ b ≤ 244 then
      let lo : Nat := if b = 240 then 144 else 128
      let hi : Nat := if b = 244 then 143 else 191
      match rest with
      | [] => fffd
      | c :: rest2 =>
        if lo ≤ c ∧ c ≤ hi then
          match rest2 with
          | [] => fffd
          | d :: rest3 =>
            if isCont d then
              match rest3 with
              | [] => fffd
              | e :: rest4 =>
                if isCont e then b :: c :: d :: e :: utf8Lossy rest4
                else fffd ++ utf8Lossy (e :: rest4)
            else fffd ++ utf8Lossy (d :: rest3)
        else fffd ++ utf8Lossy (c :: rest2)
    else fffd ++ utf8Lossy rest

/-- Model of the payload of a Rust `f64` produced by the decoder: the exact
rational value of the parsed decimal text, or an infinity, or NaN.  IEEE-754
rounding to binary64 is deliberately not modelled. -/
inductive DoubleV where
  | fin (q : ℚ)
  | inf (neg : Bool)
  | nan
deriving DecidableEq, Repr

/-- Lower-case a byte as `u8::to_ascii_lowercase` does. -/
def lowerByte (b : Nat) : Nat := if 65 ≤ b ∧ b ≤ 90 then b + 32 else b

/-- Model of `str::parse::<f64>` up to rounding: the accepted strings follow
the grammar Rust documents (optional sign; `inf`, `infinity` or `nan`
case-insensitively; or `Digits [. Digits?] | . Digits`, with an optional
`e|E [sign] Digits` exponent); the value is the exact decimal rational. -/
def parseF64 (s : Bytes) : Option DoubleV :=
  let signed : Bool × Bytes :=
    match s with
    | 45 :: rest => (true, rest)
    | 43 :: rest => (false, rest)
    | _ => (false, s)
  let neg := signed.1
  let t := signed.2
  let tl := t.map lowerByte
  if tl = [105, 110, 102] ∨ tl = [105, 110, 102, 105, 110, 105, 116, 121] then
    some (.inf neg)
  else if tl = [110, 97, 110] then
    some .nan
  else
    let intPart := t.takeWhile isDigitB
    let afterInt := t.dropWhile isDigitB
    let fracWork : Option (Bytes × Bytes) :=
      match afterInt with
      | 46 :: rest =>
        let fr := rest.takeWhile isDigitB
        if intPart = [] ∧ fr = [] then none
        else some (fr, rest.dropWhile isDigitB)
      | _ => if intPart = [] then none else some ([], afterInt)
    match fracWork with
    | none => none
    | some (fracPart, afterFrac) =>
      let expWork : Option Int :=
        match afterFrac with
        | [] => some 0
        | eb :: rest =>
          if eb = 101 ∨ eb = 69 then
            let esigned : Bool × Bytes :=
              match rest with
              | 45 :: r2 => (true, r2)
              | 43 :: r2 => (false, r2)
              | _ => (false, rest)
            match esigned.2 with
            | [] => none
            | _ =>
              match digitsValAux 0 esigned.2 with
              | some ev => some (if esigned.1 then -(ev : Int) else (ev : Int))
              | none => none
          else none
      match expWork with
      | none => none
      | some e =>
        match digitsValAux 0 (intPart ++ fracPart) with
        | none => none
        | some m =>
          let q : ℚ := (m : ℚ) * (10 : ℚ) ^ (e - (fracPart.length : Int))
          some (.fin (if neg then -q else q))

/-- Model of `RespFrame` (`src/resp/mod.rs`): the closed tagged union of
frame variants.  Strings are UTF-8 byte lists, the map is the ordered
key-value list of the Rust `BTreeMap` (ascending key order is a
well-formedness invariant, below). -/
inductive RespFrame where
  | SimpleString (s : Bytes)
  | Error (s : Bytes)
  | Integer (n : Int)
  | BulkString (b : Bytes)
  | NullBulkString
  | Array (xs : List RespFrame)
  | NullArray
  | Null
  | Boolean (b : Bool)
  | Double (d : DoubleV)
  | Map (entries : List (Bytes × RespFrame))
  | Set (xs : List RespFrame)

/-- Lexicographic byte-order on byte lists; this is the `Ord` a Rust
`BTreeMap<String, _>` uses for its `String` keys. -/
def blt : Bytes → Bytes → Bool
  | [], [] => false
  | [], _ :: _ => true
  | _ :: _, [] => false
  | a :: l1, b :: l2 => if a < b then true else if b < a then false else blt l1 l2

/-- Model of `BTreeMap::insert` on the ordered entry list: ordered insertion,
replacing the value when the key is already present. -/
def mapInsert : List (Bytes × RespFrame) → Bytes → RespFrame → List (Bytes × RespFrame)
  | [], k, v => [(k, v)]
  | (k0, v0) :: rest, k, v =>
    if blt k k0 then (k, v) :: (k0, v0) :: rest
    else if blt k0 k then (k0, v0) :: mapInsert rest k v
    else (k0, v) :: rest

/-- The payload bytes `data[1..end]` of a line frame, where `data` is the
`split_to(end + 2)` part of the buffer. -/
def lineSlice (buf : Bytes) (e : Nat) : Bytes :=
  ((buf.take (e + 2)).drop 1).take (e - 1)

/-- Model of `SimpleString::decode` / `SimpleError::decode`
(`src/resp/simple_string.rs`, `src/resp/simple_error.rs`), shared body:
find the frame end, split the buffer, lossily decode bytes `[1, end)`. -/
def simpleDecode (pfxByte : Nat) (buf : Bytes) : DecRes Bytes :=
  match extractSimpleFrameData buf [pfxByte] with
  | .error e => (.error e, buf)
  | .ok e => (.ok (utf8Lossy (lineSlice buf e)), buf.drop (e + 2))

/-- `SimpleString::decode`, tag byte `+`. -/
def simpleStringDecode (buf : Bytes) : DecRes Bytes := simpleDecode 43 buf

/-- `SimpleError::decode`, tag byte `-`. -/
def simpleErrorDecode (buf : Bytes) : DecRes Bytes := simpleDecode 45 buf

/-- Model of `i64::decode` (`src/resp/integer.rs`): note the buffer is split
before the integer parse, so a parse failure has already consumed the line. -/
def i64Decode (buf : Bytes) : DecRes Int :=
  match extractSimpleFrameData buf [58] with
  | .error e => (.error e, buf)
  | .ok e =>
    match parseI64 (utf8Lossy (lineSlice buf e)) with
    | some n => (.ok n, buf.drop (e + 2))
    | none => (.error .ParseIntError, buf.drop (e + 2))

/-- Model of `f64::decode` (`src/resp/double.rs`), same shape as `i64`. -/
def f64Decode (buf : Bytes) : DecRes DoubleV :=
  match extractSimpleFrameData buf [44] with
  | .error e => (.error e, buf)
  | .ok e =>
    match parseF64 (utf8Lossy (lineSlice buf e)) with
    | some d => (.ok d, buf.drop (e + 2))
    | none => (.error .ParseFloatError, buf.drop (e + 2))

/-- Model of `parse_length(buf, prefix)` (`src/resp/decode.rs`): frame end
plus the `usize` value of the length line; purely reading. -/
def parseLength (buf : Bytes) (pfx : Bytes) : Except RespError (Nat × Nat) :=
  match extractSimpleFrameData buf pfx with
  | .error e => .error e
  | .ok e =>
    match parseUsize (utf8Lossy ((buf.drop pfx.length).take (e - pfx.length))) with
    | some n => .ok (e, n)
    | none => .error .ParseIntError

/-- Model of `BulkString::decode` (`src/resp/bulk_string.rs`): after the
length line, require `len + 2` buffered body bytes, advance past the length
line, split off `len + 2` bytes and keep the first `len` (the two trailing
bytes are never inspected). -/
def bulkStringDecode (buf : Bytes) : DecRes Bytes :=
  match parseLength buf [36] with
  | .error e => (.error e, buf)
  | .ok (e, len) =>
    if (buf.drop (e + 2)).length < len + 2 then (.error .NotComplete, buf)
    else
      let b1 := buf.drop (e + 2)
      let data := b1.take (len + 2)
      (.ok (data.take len), b1.drop (len + 2))

/-- Model of `bool::decode` (`src/resp/bool.rs`): try the `#t\r\n` literal,
on any error try `#f\r\n`, propagating the second error. -/
def boolDecode (buf : Bytes) : DecRes Bool :=
  match extractFixedData buf [35, 116, 13, 10] with
  | (.ok _, b1) => (.ok true, b1)
  | (.error _, _) =>
    match extractFixedData buf [35, 102, 13, 10] with
    | (.ok _, b1) => (.ok false, b1)
    | (.error e, _) => (.error e, buf)

/-- The element loop of `RespArray::decode` / `RespSet::decode`
(`src/resp/array.rs`, `src/resp/set.rs`): decode `n` frames in sequence on
the cloned buffer, mapping every inner error to `NotComplete`. -/
def decodeList (dec : Bytes → DecRes RespFrame) :
    Nat → Bytes → Except RespError (List RespFrame × Bytes)
  | 0, b => .ok ([], b)
  | n + 1, b =>
    match dec b with
    | (.ok f, b1) =>
      match decodeList dec n b1 with
      | .ok (fs, b2) => .ok (f :: fs, b2)
      | .error e => .error e
    | (.error _, _) => .error .NotComplete

/-- Model of `RespArray::decode` (`src/resp/array.rs`): parse the length
line, run the element loop on the clone advanced past the length line, and
on success advance the real buffer by the consumed difference. -/
def respArrayDecode (dec : Bytes → DecRes RespFrame) (buf : Bytes) :
    DecRes (List RespFrame) :=
  match parseLength buf [42] with
  | .error e => (.error e, buf)
  | .ok (e, len) =>
    match decodeList dec len (buf.drop (e + 2)) with
    | .error e2 => (.error e2, buf)
    | .ok (frames, bend) => (.ok frames, buf.drop (buf.length - bend.length))

/-- Model of `RespSet::decode` (`src/resp/set.rs`), identical to the array
decoder up to the `~` tag. -/
def respSetDecode (dec : Bytes → DecRes RespFrame) (buf : Bytes) :
    DecRes (List RespFrame) :=
  match parseLength buf [126] with
  | .error e => (.error e, buf)
  | .ok (e, len) =>
    match decodeList dec len (buf.drop (e + 2)) with
    | .error e2 => (.error e2, buf)
    | .ok (frames, bend) => (.ok frames, buf.drop (buf.length - bend.length))

/-- The pair loop of `RespMap::decode` (`src/resp/map.rs`): each key is
decoded with `SimpleString::decode`, each value with the frame decoder, and
every inner error is mapped to `NotComplete`; pairs are inserted into the
map as they arrive. -/
def decodePairs (dec : Bytes → DecRes RespFrame) :
    Nat → Bytes → List (Bytes × RespFrame) →
    Except RespError (List (Bytes × RespFrame) × Bytes)
  | 0, b, acc => .ok (acc, b)
  | n + 1, b, acc =>
    match simpleStringDecode b with
    | (.ok k, b1) =>
      match dec b1 with
      | (.ok v, b2) => decodePairs dec n b2 (mapInsert acc k v)
      | (.error _, _) => .error .NotComplete
    | (.error _, _) => .error .NotComplete

/-- Model of `RespMap::decode` (`src/resp/map.rs`). -/
def respMapDecode (dec : Bytes → DecRes RespFrame) (buf : Bytes) :
    DecRes (List (Bytes × RespFrame)) :=
  match parseLength buf [37] with
  | .error e => (.error e, buf)
  | .ok (e, len) =>
    match decodePairs dec len (buf.drop (e + 2)) [] with
    | .error e2 => (.error e2, buf)
    | .ok (m, bend) => (.ok m, buf.drop (buf.length - bend.length))

/-- Model of `RespFrame::decode` (`src/resp/decode.rs`): dispatch on the
peeked first byte; for `$` and `*` first try the 5-byte null literal,
forwarding `NotComplete` and falling through to the non-null decoder on any
other error.  `fuel` bounds the recursion depth; the public entry point
supplies `length + 1` fuel, which is never exhausted because each recursion
level consumes at least four bytes of the buffer. -/
def respFrameDecodeF : Nat → Bytes → DecRes RespFrame
  | 0, buf => (.error .NotComplete, buf)
  | fuel + 1, buf =>
    match buf.head? with
    | none => (.error .NotComplete, buf)
    | some 43 =>
      match simpleStringDecode buf with
      | (.ok s, r) => (.ok (.SimpleString s), r)
      | (.error e, r) => (.error e, r)
    | some 45 =>
      match simpleErrorDecode buf with
      | (.ok s, r) => (.ok (.Error s), r)
      | (.error e, r) => (.error e, r)
    | some 58 =>
      match i64Decode buf with
      | (.ok n, r) => (.ok (.Integer n), r)
      | (.error e, r) => (.error e, r)
    | some 36 =>
      match extractFixedData buf [36, 45, 49, 13, 10] with
      | (.ok _, b1) => (.ok .NullBulkString, b1)
      | (.error .NotComplete, _) => (.error .NotComplete, buf)
      | (.error _, _) =>
        match bulkStringDecode buf with
        | (.ok b, r) => (.ok (.BulkString b), r)
        | (.error e, r) => (.error e, r)
    | some 42 =>
      match extractFixedData buf [42, 45, 49, 13, 10] with
      | (.ok _, b1) => (.ok .NullArray, b1)
      | (.error .NotComplete, _) => (.error .NotComplete, buf)
      | (.error _, _) =>
        match respArrayDecode (respFrameDecodeF fuel) buf with
        | (.ok xs, r) => (.ok (.Array xs), r)
        | (.error e, r) => (.error e, r)
    | some 95 =>
      match extractFixedData buf [95, 13, 10] with
      | (.ok _, b1) => (.ok .Null, b1)
      | (.error e, _) => (.error e, buf)
    | some 35 =>
      match boolDecode buf with
      | (.ok b, r) => (.ok (.Boolean b), r)
      | (.error e, r) => (.error e, r)
    | some 44 =>
      match f64Decode buf with
      | (.ok d, r) => (.ok (.Double d), r)
      | (.error e, r) => (.error e, r)
    | some 37 =>
      match respMapDecode (respFrameDecodeF fuel) buf with
      | (.ok m, r) => (.ok (.Map m), r)
      | (.error e, r) => (.error e, r)
    | some 126 =>
      match respSetDecode (respFrameDecodeF fuel) buf with
      | (.ok xs, r) => (.ok (.Set xs), r)
      | (.error e, r) => (.error e, r)
    | some _ => (.error .InvalidFrameType, buf)

/-- Public decoding entry point, `RespFrame::decode`. -/
def respFrameDecode (buf : Bytes) : DecRes RespFrame :=
  respFrameDecodeF (buf.length + 1) buf

mutual

/-- Model of `RespEncode::encode` (`src/resp/*.rs`).  The float formatting of
the `Double` case is Rust `format!` on `f64`, an external standard-library
function, taken as the parameter `fmt`; theorems assume of it only the
round-trip contract Rust documents, and only at the double values that occur
in the frame being encoded. -/
def encFrame (fmt : DoubleV → Bytes) : RespFrame → Bytes
  | .SimpleString s => 43 :: s ++ CRLF
  | .Error s => 45 :: s ++ CRLF
  | .Integer n => 58 :: (intPayload n ++ CRLF)
  | .BulkString b => 36 :: (natToBytes b.length ++ CRLF ++ b ++ CRLF)
  | .NullBulkString => [36, 45, 49, 13, 10]
  | .Array xs => 42 :: (natToBytes xs.length ++ CRLF ++ encFrameList fmt xs)
  | .NullArray => [42, 45, 49, 13, 10]
  | .Null => [95, 13, 10]
  | .Boolean b => 35 :: ((if b then [116] else [102]) ++ CRLF)
  | .Double d => 44 :: (fmt d ++ CRLF)
  | .Map es => 37 :: (natToBytes es.length ++ CRLF ++ encEntries fmt es)
  | .Set xs => 126 :: (natToBytes xs.length ++ CRLF ++ encFrameList fmt xs)

/-- Concatenated encodings of the elements of an array or set. -/
def encFrameList (fmt : DoubleV → Bytes) : List RespFrame → Bytes
  | [] => []
  | x :: xs => encFrame fmt x ++ encFrameList fmt xs

/-- Concatenated encodings of map entries: each key as a SimpleString frame,
then the value frame (`src/resp/map.rs`). -/
def encEntries (fmt : DoubleV → Bytes) : List (Bytes × RespFrame) → Bytes
  | [] => []
  | (k, v) :: es => (43 :: k ++ CRLF) ++ encFrame fmt v ++ encEntries fmt es

end

/-- Strictly ascending chain of keys under byte-lexicographic order. -/
def sortedChain : List Bytes → Bool
  | [] => true
  | [_] => true
  | a :: b :: rest => blt a b && sortedChain (b :: rest)

/-- Well-formedness of a string payload held in a Rust `String`: valid UTF-8
(stated as being a fixpoint of `utf8Lossy`, which is extensionally the same
thing) and free of the CR and LF bytes (the exclusion the spec makes for
Simple* payloads). -/
def wfText (s : Bytes) : Bool :=
  (utf8Lossy s == s) && !(decide (13 ∈ s)) && !(decide (10 ∈ s))

mutual

/-- Frames representable by the Rust types and within the exclusions of the
spec's round-trip statement: Simple* payloads are CRLF-free valid UTF-8
(Rust `String` guarantees the latter), integers are in the `i64` range,
lengths fit a `usize`, map keys are CRLF-free valid UTF-8 and strictly
ascending (a Rust `BTreeMap` guarantees order), and NaN doubles are
excluded (Rust `f64` NaN is not equal to itself, so no decode result can
be equal to a NaN-containing frame). -/
def wfFrame : RespFrame → Bool
  | .SimpleString s => wfText s
  | .Error s => wfText s
  | .Integer n => decide (-(2 ^ 63) ≤ n ∧ n < 2 ^ 63)
  | .BulkString b => decide (b.length < 2 ^ 64)
  | .Array xs => decide (xs.length < 2 ^ 64) && wfFrameList xs
  | .NullBulkString => true
  | .NullArray => true
  | .Null => true
  | .Boolean _ => true
  | .Double (.fin _) => true
  | .Double (.inf _) => true
  | .Double .nan => false
  | .Map es => decide (es.length < 2 ^ 64) && sortedChain (es.map Prod.fst) && wfEntriesList es
  | .Set xs => decide (xs.length < 2 ^ 64) && wfFrameList xs

/-- Well-formedness of every frame of a list. -/
def wfFrameList : List RespFrame → Bool
  | [] => true
  | x :: xs => wfFrame x && wfFrameList xs

/-- Well-formedness of every entry of a map. -/
def wfEntriesList : List (Bytes × RespFrame) → Bool
  | [] => true
  | (k, v) :: es => wfText k && wfFrame v && wfEntriesList es

end

mutual

/-- Whether the last frame in encoding order, descending through trailing
composites, is an empty Array.  The encoding of such a frame ends with the
four bytes `*0\r\n`; `RespFrame::decode` cannot finish on them because the
null-array pre-check demands five buffered bytes. -/
def teaFrame : RespFrame → Bool
  | .Array [] => true
  | .Array (x :: xs) => teaLast x xs
  | .Map (e :: es) => teaLastEntry e es
  | .Set (x :: xs) => teaLast x xs
  | _ => false
termination_by F => sizeOf F

/-- `teaFrame` of the last element of a nonempty list. -/
def teaLast : RespFrame → List RespFrame → Bool
  | x, [] => teaFrame x
  | _, y :: ys => teaLast y ys
termination_by x xs => sizeOf x + sizeOf xs

/-- `teaFrame` of the value of the last entry of a nonempty entry list. -/
def teaLastEntry : (Bytes × RespFrame) → List (Bytes × RespFrame) → Bool
  | (_, v), [] => teaFrame v
  | _, e :: es => teaLastEntry e es
termination_by e es => sizeOf e + sizeOf es

end

/-- `teaFrame` of the last frame of a list; `false` for the empty list. -/
def listTea : List RespFrame → Bool
  | [] => false
  | x :: t => teaLast x t

/-- `teaFrame` of the last value of an entry list; `false` when empty. -/
def entriesTea : List (Bytes × RespFrame) → Bool
  | [] => false
  | e :: es => teaLastEntry e es

/-- Fold the decoded map entries into the accumulator the way the decode
loop of `RespMap::decode` inserts them. -/
def insertAll (acc : List (Bytes × RespFrame)) :
    List (Bytes × RespFrame) → List (Bytes × RespFrame)
  | [] => acc
  | (k, v) :: es => insertAll (mapInsert acc k v) es

mutual

/-- Structural weight of a frame: an upper bound for the recursion depth the
decoder needs, and the induction measure of the main proofs. -/
def wFrame : RespFrame → Nat
  | .Array xs => 1 + wFrameList xs
  | .Set xs => 1 + wFrameList xs
  | .Map es => 1 + wEntriesList es
  | _ => 1

/-- Summed weight of a frame list. -/
def wFrameList : List RespFrame → Nat
  | [] => 0
  | x :: xs => wFrame x + wFrameList xs

/-- Summed weight of the values of an entry list. -/
def wEntriesList : List (Bytes × RespFrame) → Nat
  | [] => 0
  | (_, v) :: es => wFrame v + wEntriesList es

end

mutual

/-- All double payloads occurring in a frame. -/
def doublesIn : RespFrame → List DoubleV
  | .Double d => [d]
  | .Array xs => doublesInList xs
  | .Set xs => doublesInList xs
  | .Map es => doublesInEntries es
  | _ => []

/-- All double payloads occurring in a frame list. -/
def doublesInList : List RespFrame → List DoubleV
  | [] => []
  | x :: xs => doublesIn x ++ doublesInList xs

/-- All double payloads occurring in the values of an entry list. -/
def doublesInEntries : List (Bytes × RespFrame) → List DoubleV
  | [] => []
  | (_, v) :: es => doublesIn v ++ doublesInEntries es

end

/-- Contract of Rust float formatting, assumed only at the doubles occurring
in the frame at hand: the output contains no CR byte and parses back to the
same double (Rust guarantees that `Display` and `LowerExp` output round-trips
through `parse`). -/
def FmtOkOn (fmt : DoubleV → Bytes) (F : RespFrame) : Prop :=
  ∀ d ∈ doublesIn F, 13 ∉ fmt d ∧ parseF64 (utf8Lossy (fmt d)) = some d

/-- The bundle of decoding facts proved about every well-formed frame by one
simultaneous induction: (1) decoding the encoding plus any residue either
succeeds exactly or reports `NotComplete` leaving the buffer untouched,
(2) with enough fuel and either a nonempty residue or no trailing empty
Array, it succeeds exactly, (3) with an empty residue and a trailing empty
Array it reports `NotComplete`, (4) every strict prefix of the encoding
decodes to `NotComplete` leaving the buffer untouched. -/
def DecProps (fmt : DoubleV → Bytes) (F : RespFrame) : Prop :=
  (∀ fuel rest, respFrameDecodeF fuel (encFrame fmt F ++ rest) = (.ok F, rest)
      ∨ respFrameDecodeF fuel (encFrame fmt F ++ rest)
        = (.error .NotComplete, encFrame fmt F ++ rest))
  ∧ (∀ fuel rest, wFrame F ≤ fuel → (rest ≠ [] ∨ teaFrame F = false) →
      respFrameDecodeF fuel (encFrame fmt F ++ rest) = (.ok F, rest))
  ∧ (∀ fuel, teaFrame F = true →
      respFrameDecodeF fuel (encFrame fmt F) = (.error .NotComplete, encFrame fmt F))
  ∧ (∀ fuel p, p <+: encFrame fmt F → p ≠ encFrame fmt F →
      respFrameDecodeF fuel p = (.error .NotComplete, p))

/- ------------------------------------------------------------------ -/
/- The command layer (src/cmd) and its backend.                        -/
/- ------------------------------------------------------------------ -/

/-- Model of `CommandError` (`src/cmd/mod.rs`), payloads dropped. -/
inductive CommandError where
  | InvalidCommand
  | InvalidArgument
  | RespErr (e : RespError)
  | Utf8Error
deriving DecidableEq, Repr

/-- Model of `Command` (`src/cmd/mod.rs`).  Keys and fields are the UTF-8
bytes of the Rust `String`s; `HGetAll` carries the `sort` flag of
`src/cmd/hmap.rs`. -/
inductive Command where
  | Get (key : Bytes)
  | Set (key : Bytes) (value : RespFrame)
  | HGet (key field : Bytes)
  | HSet (key field : Bytes) (value : RespFrame)
  | HGetAll (key : Bytes) (sort : Bool)
  | Unrecognized

/-- Association-list lookup, first binding wins. -/
def alistGet {α : Type} : List (Bytes × α) → Bytes → Option α
  | [], _ => none
  | (k0, v) :: rest, k => if k0 = k then some v else alistGet rest k

/-- Association-list insert-or-replace, keeping the position of an existing
binding and appending a new one. -/
def alistPut {α : Type} : List (Bytes × α) → Bytes → α → List (Bytes × α)
  | [], k, v => [(k, v)]
  | (k0, v0) :: rest, k, v =>
    if k0 = k then (k0, v) :: rest else (k0, v0) :: alistPut rest k v

/-- Modelled from the spec: the `Backend` store (spec section 4.4) whose
source file is not under `src/`.  Two namespaces: `kv` maps keys to frames,
`hmap` maps keys to field-to-frame tables.  The concurrent-map sharding is
irrelevant to sequential semantics and is modelled by plain association
lists. -/
structure Backend where
  kv : List (Bytes × RespFrame)
  hmap : List (Bytes × List (Bytes × RespFrame))

/-- Modelled from the spec: `Backend::new()`, the empty store. -/
def Backend.empty : Backend := ⟨[], []⟩

/-- Modelled from the spec: `get(key)` returns a clone of the stored frame. -/
def backendGet (b : Backend) (k : Bytes) : Option RespFrame := alistGet b.kv k

/-- Modelled from the spec: `set(key, frame)` inserts or replaces. -/
def backendSet (b : Backend) (k : Bytes) (v : RespFrame) : Backend :=
  { b with kv := alistPut b.kv k v }

/-- Modelled from the spec: `hget(key, field)`. -/
def backendHGet (b : Backend) (k f : Bytes) : Option RespFrame :=
  (alistGet b.hmap k).bind (fun m => alistGet m f)

/-- Modelled from the spec: `hset(key, field, frame)`, creating the hash on
its first field. -/
def backendHSet (b : Backend) (k f : Bytes) (v : RespFrame) : Backend :=
  { b with hmap := alistPut b.hmap k (alistPut ((alistGet b.hmap k).getD []) f v) }

/-- Modelled from the spec: `hgetall(key)`. -/
def backendHGetAll (b : Backend) (k : Bytes) :
    Option (List (Bytes × RespFrame)) := alistGet b.hmap k

/-- The process-wide `RESP_OK` constant, `SimpleString("OK")`. -/
def RESPOK : RespFrame := .SimpleString [79, 75]

/-- Flatten hash entries into the alternating field/value frame list
`HGetAll` replies with (`src/cmd/hmap.rs`). -/
def flattenPairs : List (Bytes × RespFrame) → List RespFrame
  | [] => []
  | (k, v) :: rest => .BulkString k :: v :: flattenPairs rest

/-- Sort hash entries ascending by field, the `sort_by` of
`HGetAll::execute` (`src/cmd/hmap.rs`); simple insertion sort under the
byte-lexicographic order. -/
def sortEntriesIns : List (Bytes × RespFrame) → List (Bytes × RespFrame)
  | [] => []
  | e :: rest => insertSorted e (sortEntriesIns rest)
where
  insertSorted (e : Bytes × RespFrame) :
      List (Bytes × RespFrame) → List (Bytes × RespFrame)
    | [] => [e]
    | f :: fs => if blt f.1 e.1 then f :: insertSorted e fs else e :: f :: fs

/-- Model of `CommandExecutor::execute` (`src/cmd/map.rs`,
`src/cmd/hmap.rs`, `src/cmd/mod.rs` for `Unrecognized`): the reply frame
paired with the backend after the call. -/
def executeCommand : Command → Backend → RespFrame × Backend
  | .Get key, b => ((backendGet b key).getD .Null, b)
  | .Set key v, b => (RESPOK, backendSet b key v)
  | .HGet k f, b => ((backendHGet b k f).getD .Null, b)
  | .HSet k f v, b => (RESPOK, backendHSet b k f v)
  | .HGetAll k srt, b =>
    match backendHGetAll b k with
    | some m => (.Array (flattenPairs (if srt then sortEntriesIns m else m)), b)
    | none => (.Array [], b)
  | .Unrecognized, b => (RESPOK, b)

/-- Lower-case a byte string, `to_ascii_lowercase`. -/
def lowerBytes (s : Bytes) : Bytes := s.map lowerByte

/-- The name-checking loop of `validate_command` (`src/cmd/mod.rs`):
position `i` of the array must hold a BulkString whose lower-cased bytes
equal the expected name.  The index is always in range because the arity was
checked first; the out-of-range default `.Null` falls into the non-BulkString
arm, as the Rust panic path is unreachable. -/
def checkNames (value : List RespFrame) : List Bytes → Nat → Except CommandError Unit
  | [], _ => .ok ()
  | name :: rest, i =>
    match value.getD i .Null with
    | .BulkString cmd =>
      if lowerBytes cmd = name then checkNames value rest (i + 1)
      else .error .InvalidCommand
    | _ => .error .InvalidArgument

/-- Model of `validate_command(value, names, n_args)` (`src/cmd/mod.rs`). -/
def validateCommand (value : List RespFrame) (names : List Bytes) (nArgs : Nat) :
    Except CommandError Unit :=
  if value.length = nArgs + 1 then checkNames value names 0
  else .error .InvalidArgument

/-- Model of `extract_args(value, start)` (`src/cmd/mod.rs`). -/
def extractArgs (value : List RespFrame) (start : Nat) : List RespFrame :=
  value.drop start

/-- Model of `String::from_utf8` for key and field arguments: succeeds
exactly on valid UTF-8 (fixpoints of `utf8Lossy`). -/
def parseUtf8Key (k : Bytes) : Except CommandError Bytes :=
  if utf8Lossy k == k then .ok k else .error .Utf8Error

/-- Model of `TryFrom<RespArray> for Get` (`src/cmd/map.rs`). -/
def getTryFrom (value : List RespFrame) : Except CommandError Command :=
  match validateCommand value [[103, 101, 116]] 1 with
  | .error e => .error e
  | .ok _ =>
    match (extractArgs value 1).getD 0 .Null with
    | .BulkString key => (parseUtf8Key key).map .Get
    | _ => .error .InvalidArgument

/-- Model of `TryFrom<RespArray> for Set` (`src/cmd/map.rs`): key then an
arbitrary value frame. -/
def setTryFrom (value : List RespFrame) : Except CommandError Command :=
  match validateCommand value [[115, 101, 116]] 2 with
  | .error e => .error e
  | .ok _ =>
    match (extractArgs value 1).head?, (extractArgs value 1).drop 1 |>.head? with
    | some (.BulkString key), some v => (parseUtf8Key key).map (fun k => .Set k v)
    | _, _ => .error .InvalidArgument

/-- Model of `TryFrom<RespArray> for HGet` (`src/cmd/hmap.rs`). -/
def hgetTryFrom (value : List RespFrame) : Except CommandError Command :=
  match validateCommand value [[104, 103, 101, 116]] 2 with
  | .error e => .error e
  | .ok _ =>
    match (extractArgs value 1).head?, (extractArgs value 1).drop 1 |>.head? with
    | some (.BulkString key), some (.BulkString f) =>
      match parseUtf8Key key with
      | .error e => .error e
      | .ok k =>
        match parseUtf8Key f with
        | .error e => .error e
        | .ok fd => .ok (.HGet k fd)
    | _, _ => .error .InvalidArgument

/-- Model of `TryFrom<RespArray> for HSet` (`src/cmd/hmap.rs`). -/
def hsetTryFrom (value : List RespFrame) : Except CommandError Command :=
  match validateCommand value [[104, 115, 101, 116]] 3 with
  | .error e => .error e
  | .ok _ =>
    match (extractArgs value 1).head?, (extractArgs value 1).drop 1 |>.head?,
        (extractArgs value 1).drop 2 |>.head? with
    | some (.BulkString key), some (.BulkString f), some v =>
      match parseUtf8Key key with
      | .error e => .error e
      | .ok k =>
        match parseUtf8Key f with
        | .error e => .error e
        | .ok fd => .ok (.HSet k fd v)
    | _, _, _ => .error .InvalidArgument

/-- Model of `TryFrom<RespArray> for HGetAll` (`src/cmd/hmap.rs`); the
`sort` flag is initialised to `false`. -/
def hgetallTryFrom (value : List RespFrame) : Except CommandError Command :=
  match validateCommand value [[104, 103, 101, 116, 97, 108, 108]] 1 with
  | .error e => .error e
  | .ok _ =>
    match (extractArgs value 1).getD 0 .Null with
    | .BulkString key => (parseUtf8Key key).map (fun k => .HGetAll k false)
    | _ => .error .InvalidArgument

/-- Model of `TryFrom<RespArray> for Command` (`src/cmd/mod.rs`): dispatch
on the exact bytes of the first element; the byte-literal match arms
(`b"get"` and so on) compare case-sensitively; anything else is
`Unrecognized`, and a missing or non-BulkString head is `InvalidCommand`. -/
def tryFromCommand (value : List RespFrame) : Except CommandError Command :=
  match value.head? with
  | some (.BulkString cmd) =>
    if cmd = [103, 101, 116] then getTryFrom value
    else if cmd = [115, 101, 116] then setTryFrom value
    else if cmd = [104, 103, 101, 116] then hgetTryFrom value
    else if cmd = [104, 115, 101, 116] then hsetTryFrom value
    else if cmd = [104, 103, 101, 116, 97, 108, 108] then hgetallTryFrom value
    else .ok .Unrecognized
  | _ => .error .InvalidCommand

/- ------------------------------------------------------------------ -/
/- The float-encoding branch condition (src/resp/double.rs).           -/
/- ------------------------------------------------------------------ -/

/-- Exact rational value of the Rust `f64` literal `1e+8`: the integer
`10^8` is below `2^53` and hence exactly representable. -/
def f64E8 : ℚ := 100000000

/-- Exact rational value of the Rust `f64` literal `1e-8`: `10^-8` lies in
`[2^-27, 2^-26)`, so the nearest binary64 is `round(2^79 / 10^8) * 2^-79 =
6044629098073146 * 2^-79`, whose 53-bit mantissa is in range. -/
def f64Em8 : ℚ := 6044629098073146 / 604462909807314587353088

/-- The branch condition of `RespEncode for f64` (`src/resp/double.rs`):
`self.abs() > 1e+8 || self.abs() < 1e-8` selects the `{:+e}` exponential
form.  Finite doubles are compared through their exact rational values,
which is faithful because binary64 comparison agrees with rational
comparison of the represented values. -/
def usesExpForm (q : ℚ) : Bool := decide (f64E8 < |q|) || decide (|q| < f64Em8)

/-- Modelled from the spec sentence on double canonicality: exponential form
exactly when `|x| > 10^8` or `0 < |x| < 10^-8`; the spec's decimal bounds
denote the same `f64` constants the code compares against, and the spec
additionally demands `0 < |x|`, which excludes zero from the exponential
branch. -/
def specUsesExpForm (q : ℚ) : Bool :=
  decide (f64E8 < |q|) || (decide (0 < |q|) && decide (|q| < f64Em8))

/- ------------------------------------------------------------------ -/
/- Helper lemmas: CRLF scanning.                                       -/
/- ------------------------------------------------------------------ -/

theorem crlfPos_cons (b : Nat) (l : Bytes) (hb : b ≠ 13) :
    crlfPos (b :: l) = (crlfPos l).map (· + 1) := by
  rw [crlfPos.eq_def]
  split
  · next h => cases h; exact absurd rfl hb
  · next h =>
    injection h with h1 h2
    rw [h2]
  · next h => cases h

theorem crlfPos_append (a t : Bytes) (h : 13 ∉ a) :
    crlfPos (a ++ t) = (crlfPos t).map (· + a.length) := by
  induction a with
  | nil =>
    rw [List.nil_append]
    cases htt : crlfPos t <;> simp
  | cons b a ih =>
    have hb : b ≠ 13 := fun hb => h (hb ▸ List.mem_cons_self b a)
    have ha : 13 ∉ a := fun ha => h (List.mem_cons_of_mem b ha)
    rw [List.cons_append, crlfPos_cons b (a ++ t) hb, ih ha]
    cases htt : crlfPos t <;> simp
    omega

theorem crlfPos_found (a r : Bytes) (h : 13 ∉ a) :
    crlfPos (a ++ 13 :: 10 :: r) = some a.length := by
  rw [crlfPos_append a _ h]
  simp [crlfPos]

theorem crlfPos_missing_nil (a : Bytes) (h : 13 ∉ a) : crlfPos a = none := by
  have := crlfPos_append a [] h
  simpa using this

theorem crlfPos_missing_cr (a : Bytes) (h : 13 ∉ a) : crlfPos (a ++ [13]) = none := by
  rw [crlfPos_append a [13] h]; rfl

/- ------------------------------------------------------------------ -/
/- Helper lemmas: digits and integer parsing.                          -/
/- ------------------------------------------------------------------ -/

theorem natToBytesAux_digits (fuel n : Nat) :
    ∀ b ∈ natToBytesAux fuel n, 48 ≤ b ∧ b ≤ 57 := by
  induction fuel generalizing n with
  | zero => intro b hb; cases hb
  | succ fuel ih =>
    intro b hb
    cases n with
    | zero => cases hb
    | succ m =>
      rw [natToBytesAux] at hb
      rcases List.mem_append.1 hb with h | h
      · exact ih _ b h
      · rcases List.mem_singleton.1 h with rfl
        constructor
        · omega
        · have := Nat.mod_lt (m + 1) (show 0 < 10 by omega)
          omega

theorem natToBytes_digits (n : Nat) : ∀ b ∈ natToBytes n, 48 ≤ b ∧ b ≤ 57 := by
  intro b hb
  rw [natToBytes] at hb
  by_cases h : n = 0
  · simp [h] at hb; omega
  · simp [h] at hb; exact natToBytesAux_digits n n b hb

theorem digitsValAux_append (acc : Nat) (l1 l2 : Bytes) :
    digitsValAux acc (l1 ++ l2) =
      (digitsValAux acc l1).bind (fun v => digitsValAux v l2) := by
  induction l1 generalizing acc with
  | nil => rfl
  | cons b l1 ih =>
    rw [List.cons_append, digitsValAux, digitsValAux]
    by_cases hd : isDigitB b
    · simp only [hd, if_true]; exact ih _
    · simp [hd]

theorem natToBytesAux_val (fuel : Nat) :
    ∀ n, n ≤ fuel → ∀ acc, digitsValAux acc (natToBytesAux fuel n) =
      some (acc * 10 ^ (natToBytesAux fuel n).length + n) := by
  induction fuel with
  | zero =>
    intro n hn acc
    have h0 : n = 0 := Nat.le_zero.mp hn
    subst h0
    simp [natToBytesAux, digitsValAux]
  | succ fuel ih =>
    intro n hn acc
    cases n with
    | zero => simp [natToBytesAux, digitsValAux]
    | succ m =>
      rw [natToBytesAux, digitsValAux_append]
      have hdiv : (m + 1) / 10 ≤ fuel := by
        have := Nat.div_lt_self (show 0 < m + 1 by omega) (show 1 < 10 by omega)
        omega
      rw [ih _ hdiv acc]
      have hdig : isDigitB ((m + 1) % 10 + 48) = true := by
        rw [isDigitB, decide_eq_true_iff]
        have := Nat.mod_lt (m + 1) (show 0 < 10 by omega)
        omega
      have hlen : (natToBytesAux fuel ((m + 1) / 10) ++ [(m + 1) % 10 + 48]).length
          = (natToBytesAux fuel ((m + 1) / 10)).length + 1 := by simp
      rw [hlen]
      show digitsValAux (acc * 10 ^ (natToBytesAux fuel ((m + 1) / 10)).length
        + (m + 1) / 10) [(m + 1) % 10 + 48] = _
      rw [digitsValAux]
      simp only [hdig, if_true]
      rw [digitsValAux]
      have hmod : (m + 1) % 10 + 48 - 48 = (m + 1) % 10 := by omega
      rw [hmod]
      congr 1
      have hdm := Nat.div_add_mod (m + 1) 10
      rw [pow_succ]
      set L := (10 : Nat) ^ (natToBytesAux fuel ((m + 1) / 10)).length with hL
      ring_nf
      omega

theorem digitsValAux_natToBytes (n : Nat) :
    digitsValAux 0 (natToBytes n) = some n := by
  rw [natToBytes]
  by_cases h : n = 0
  · simp [h, digitsValAux, isDigitB]
  · simp only [h, if_false]
    have := natToBytesAux_val n n (le_refl n) 0
    simpa using this

theorem natToBytes_ne_nil (n : Nat) : natToBytes n ≠ [] := by
  rw [natToBytes]
  by_cases h : n = 0
  · simp [h]
  · simp only [h, if_false]
    cases n with
    | zero => exact absurd rfl h
    | succ m =>
      rw [natToBytesAux]
      simp

theorem parseDigitsBounded_natToBytes (bound n : Nat) (hn : n ≤ bound) :
    parseDigitsBounded bound (natToBytes n) = some n := by
  cases hnb : natToBytes n with
  | nil => exact absurd hnb (natToBytes_ne_nil n)
  | cons b t =>
    show (match digitsValAux 0 (b :: t) with
      | some v => if v ≤ bound then some v else none
      | none => none) = some n
    rw [← hnb, digitsValAux_natToBytes n]
    simp [hn]

theorem parseUsize_natToBytes (n : Nat) (hn : n < 2 ^ 64) :
    parseUsize (natToBytes n) = some n := by
  rw [parseUsize.eq_def]
  split
  · next rest heq =>
    have := natToBytes_digits n 43 (by rw [heq]; exact List.mem_cons_self _ _)
    omega
  · exact parseDigitsBounded_natToBytes _ n (by omega)

theorem utf8Lossy_ascii (l : Bytes) (h : ∀ b ∈ l, b ≤ 127) : utf8Lossy l = l := by
  induction l with
  | nil => rfl
  | cons b rest ih =>
    have hb : b ≤ 127 := h b (List.mem_cons_self _ _)
    rw [utf8Lossy.eq_def]
    simp only []
    rw [if_pos hb, ih (fun x hx => h x (List.mem_cons_of_mem b hx))]

theorem utf8Lossy_digits (l : Bytes) (h : ∀ b ∈ l, 48 ≤ b ∧ b ≤ 57) :
    utf8Lossy l = l :=
  utf8Lossy_ascii l (fun b hb => by have := h b hb; omega)

theorem natToBytes_not13 (n : Nat) : 13 ∉ natToBytes n := by
  intro h
  have := natToBytes_digits n 13 h
  omega

theorem intPayload_bounds (n : Int) : ∀ b ∈ intPayload n, 43 ≤ b ∧ b ≤ 127 := by
  intro b hb
  rw [intPayload, intToBytes] at hb
  by_cases hneg : n < 0
  · simp only [hneg, if_true] at hb
    rcases List.mem_cons.1 (by simpa using hb) with h | h
    · omega
    · have := natToBytes_digits _ b h; omega
  · simp only [hneg, if_false] at hb
    rcases List.mem_append.1 hb with h | h
    · rcases List.mem_singleton.1 h with rfl; omega
    · have := natToBytes_digits _ b h; omega

theorem intPayload_ascii (n : Int) : ∀ b ∈ intPayload n, b ≤ 127 :=
  fun b hb => (intPayload_bounds n b hb).2

theorem intPayload_not13 (n : Int) : 13 ∉ intPayload n := by
  intro h
  have := intPayload_bounds n 13 h
  omega

theorem parseI64_intPayload (n : Int) (h1 : -(2 ^ 63) ≤ n) (h2 : n < 2 ^ 63) :
    parseI64 (intPayload n) = some n := by
  rw [intPayload, intToBytes]
  by_cases hneg : n < 0
  · simp only [hneg, if_true, List.nil_append]
    show (parseDigitsBounded (2 ^ 63) (natToBytes (-n).toNat)).map (fun v => -(v : Int))
      = some n
    rw [parseDigitsBounded_natToBytes _ _ (by omega)]
    show some (-(((-n).toNat : Nat) : Int)) = some n
    congr 1
    omega
  · simp only [hneg, if_false, List.singleton_append]
    show (parseDigitsBounded (2 ^ 63 - 1) (natToBytes n.toNat)).map (fun v => (v : Int))
      = some n
    rw [parseDigitsBounded_natToBytes _ _ (by omega)]
    show some ((n.toNat : Nat) : Int) = some n
    congr 1
    omega

/- ------------------------------------------------------------------ -/
/- Helper lemmas: the line-extraction primitives.                      -/
/- ------------------------------------------------------------------ -/

theorem isPrefixOf_cons_self (c : Nat) (l : Bytes) : [c].isPrefixOf (c :: l) = true := by
  simp [List.isPrefixOf]

theorem esfd_ok (c : Nat) (body r : Bytes) (hc : c ≠ 13) (hbody : 13 ∉ body) :
    extractSimpleFrameData (c :: (body ++ 13 :: 10 :: r)) [c] = .ok (body.length + 1) := by
  have hmem : 13 ∉ c :: body := by
    intro h
    rcases List.mem_cons.1 h with h | h
    · exact hc h.symm
    · exact hbody h
  have hfound : crlfPos (c :: (body ++ 13 :: 10 :: r)) = some (body.length + 1) := by
    have := crlfPos_found (c :: body) r hmem
    simpa using this
  rw [extractSimpleFrameData]
  have hlen : ¬ (c :: (body ++ 13 :: 10 :: r)).length < 3 := by
    simp only [List.length_cons, List.length_append]
    omega
  rw [if_neg hlen, if_pos (isPrefixOf_cons_self c _)]
  simp [hfound]

theorem esfd_nc_of_none (buf pfx : Bytes) (hp : pfx.isPrefixOf buf)
    (h : crlfPos buf = none) :
    extractSimpleFrameData buf pfx = .error .NotComplete := by
  rw [extractSimpleFrameData]
  by_cases h3 : buf.length < 3
  · rw [if_pos h3]
  · rw [if_neg h3, if_pos hp]
    simp [h]

theorem esfd_nc_short (buf pfx : Bytes) (h3 : buf.length < 3) :
    extractSimpleFrameData buf pfx = .error .NotComplete := by
  rw [extractSimpleFrameData, if_pos h3]

/- ------------------------------------------------------------------ -/
/- Helper lemmas: success of each primitive decoder on its encoding.   -/
/- ------------------------------------------------------------------ -/

theorem enc_line_split (c : Nat) (body r : Bytes) :
    c :: (body ++ 13 :: 10 :: r) = (c :: (body ++ [13, 10])) ++ r := by simp

theorem enc_line_length (c : Nat) (body : Bytes) :
    (c :: (body ++ [13, 10])).length = body.length + 1 + 2 := by
  simp only [List.length_cons, List.length_append, List.length_nil]

theorem take_enc_line (c : Nat) (body r : Bytes) :
    (c :: (body ++ 13 :: 10 :: r)).take (body.length + 1 + 2) = c :: (body ++ [13, 10]) := by
  rw [enc_line_split, ← enc_line_length c body, List.take_left]

theorem drop_enc_line (c : Nat) (body r : Bytes) :
    (c :: (body ++ 13 :: 10 :: r)).drop (body.length + 1 + 2) = r := by
  rw [enc_line_split, ← enc_line_length c body, List.drop_left]

theorem lineSlice_enc (c : Nat) (body r : Bytes) :
    lineSlice (c :: (body ++ 13 :: 10 :: r)) (body.length + 1) = body := by
  rw [lineSlice, take_enc_line]
  simp only [List.drop_succ_cons, List.drop_zero, Nat.add_sub_cancel]
  exact List.take_left body [13, 10]

theorem simpleDecode_enc (c : Nat) (s r : Bytes) (hc : c ≠ 13) (hs : 13 ∉ s) :
    simpleDecode c (c :: (s ++ 13 :: 10 :: r)) = (.ok (utf8Lossy s), r) := by
  rw [simpleDecode, esfd_ok c s r hc hs]
  show (Except.ok (utf8Lossy (lineSlice (c :: (s ++ 13 :: 10 :: r)) (s.length + 1))),
    (c :: (s ++ 13 :: 10 :: r)).drop (s.length + 1 + 2)) = (.ok (utf8Lossy s), r)
  rw [lineSlice_enc, drop_enc_line]

theorem i64Decode_enc (p r : Bytes) (v : Int) (hp : 13 ∉ p)
    (hv : parseI64 (utf8Lossy p) = some v) :
    i64Decode (58 :: (p ++ 13 :: 10 :: r)) = (.ok v, r) := by
  rw [i64Decode, esfd_ok 58 p r (by omega) hp]
  show (match parseI64 (utf8Lossy (lineSlice (58 :: (p ++ 13 :: 10 :: r)) (p.length + 1))) with
    | some n => ((Except.ok n : Except RespError Int),
        (58 :: (p ++ 13 :: 10 :: r)).drop (p.length + 1 + 2))
    | none => (.error .ParseIntError,
        (58 :: (p ++ 13 :: 10 :: r)).drop (p.length + 1 + 2))) = (.ok v, r)
  rw [lineSlice_enc, hv, drop_enc_line]

theorem f64Decode_enc (p r : Bytes) (d : DoubleV) (hp : 13 ∉ p)
    (hd : parseF64 (utf8Lossy p) = some d) :
    f64Decode (44 :: (p ++ 13 :: 10 :: r)) = (.ok d, r) := by
  rw [f64Decode, esfd_ok 44 p r (by omega) hp]
  show (match parseF64 (utf8Lossy (lineSlice (44 :: (p ++ 13 :: 10 :: r)) (p.length + 1))) with
    | some x => ((Except.ok x : Except RespError DoubleV),
        (44 :: (p ++ 13 :: 10 :: r)).drop (p.length + 1 + 2))
    | none => (.error .ParseFloatError,
        (44 :: (p ++ 13 :: 10 :: r)).drop (p.length + 1 + 2))) = (.ok d, r)
  rw [lineSlice_enc, hd, drop_enc_line]

theorem extractFixedData_ok (expect r : Bytes) :
    extractFixedData (expect ++ r) expect = (.ok (), r) := by
  rw [extractFixedData]
  have hlen : ¬ (expect ++ r).length < expect.length := by
    simp only [List.length_append]; omega
  rw [if_neg hlen, if_pos (List.take_left expect r)]
  rw [if_pos (by rw [List.isPrefixOf_iff_prefix]; exact List.prefix_append _ _)]
  rw [List.drop_left]

theorem extractFixedData_short (buf expect : Bytes) (h : buf.length < expect.length) :
    extractFixedData buf expect = (.error .NotComplete, buf) := by
  rw [extractFixedData, if_pos h]

theorem extractFixedData_mismatch (buf expect : Bytes)
    (hlen : ¬ buf.length < expect.length) (h : buf.take expect.length ≠ expect) :
    extractFixedData buf expect = (.error .InvalidFrame, buf) := by
  rw [extractFixedData, if_neg hlen, if_neg h]

theorem parseLength_enc (c : Nat) (n : Nat) (r : Bytes) (hc : c ≠ 13)
    (hn : n < 2 ^ 64) :
    parseLength (c :: (natToBytes n ++ 13 :: 10 :: r)) [c]
      = .ok ((natToBytes n).length + 1, n) := by
  rw [parseLength, esfd_ok c _ r hc (natToBytes_not13 n)]
  simp only [List.length_singleton, List.drop_succ_cons, List.drop_zero,
    Nat.add_sub_cancel]
  have htake : (natToBytes n ++ 13 :: 10 :: r).take (natToBytes n).length = natToBytes n :=
    List.take_left _ _
  rw [htake, utf8Lossy_digits _ (natToBytes_digits n), parseUsize_natToBytes n hn]

/- ------------------------------------------------------------------ -/
/- Helper lemmas: a NotComplete result never consumes bytes.           -/
/- ------------------------------------------------------------------ -/

theorem simpleDecode_nc_snd (c : Nat) (buf : Bytes)
    (h : (simpleDecode c buf).1 = .error .NotComplete) :
    (simpleDecode c buf).2 = buf := by
  rw [simpleDecode] at h ⊢
  split at h
  · rfl
  · simp at h

theorem i64Decode_nc_snd (buf : Bytes)
    (h : (i64Decode buf).1 = .error .NotComplete) : (i64Decode buf).2 = buf := by
  rw [i64Decode] at h ⊢
  split at h
  · rfl
  · split at h <;> simp_all

theorem f64Decode_nc_snd (buf : Bytes)
    (h : (f64Decode buf).1 = .error .NotComplete) : (f64Decode buf).2 = buf := by
  rw [f64Decode] at h ⊢
  split at h
  · rfl
  · split at h <;> simp_all

theorem boolDecode_err_snd (buf : Bytes) (e : RespError)
    (h : (boolDecode buf).1 = .error e) : (boolDecode buf).2 = buf := by
  rw [boolDecode] at h ⊢
  split at h
  · simp at h
  · split at h
    · simp at h
    · rfl

theorem bulkStringDecode_err_snd (buf : Bytes) (e : RespError)
    (h : (bulkStringDecode buf).1 = .error e) : (bulkStringDecode buf).2 = buf := by
  rw [bulkStringDecode] at h ⊢
  split at h
  · rfl
  · split at h
    · next hc => rw [if_pos hc]
    · next hc => simp at h

theorem respArrayDecode_err_snd (dec : Bytes → DecRes RespFrame) (buf : Bytes)
    (e : RespError) (h : (respArrayDecode dec buf).1 = .error e) :
    (respArrayDecode dec buf).2 = buf := by
  rw [respArrayDecode] at h ⊢
  split at h
  · rfl
  · split at h
    · rfl
    · simp at h

theorem respSetDecode_err_snd (dec : Bytes → DecRes RespFrame) (buf : Bytes)
    (e : RespError) (h : (respSetDecode dec buf).1 = .error e) :
    (respSetDecode dec buf).2 = buf := by
  rw [respSetDecode] at h ⊢
  split at h
  · rfl
  · split at h
    · rfl
    · simp at h

theorem respMapDecode_err_snd (dec : Bytes → DecRes RespFrame) (buf : Bytes)
    (e : RespError) (h : (respMapDecode dec buf).1 = .error e) :
    (respMapDecode dec buf).2 = buf := by
  rw [respMapDecode] at h ⊢
  split at h
  · rfl
  · split at h
    · rfl
    · simp at h

theorem respFrameDecodeF_nc_snd (fuel : Nat) (buf : Bytes)
    (h : (respFrameDecodeF fuel buf).1 = .error .NotComplete) :
    (respFrameDecodeF fuel buf).2 = buf := by
  cases fuel with
  | zero => rfl
  | succ fuel =>
    rw [respFrameDecodeF] at h ⊢
    split at h
    · rfl
    · -- tag '+'
      split at h
      · next heq => simp at h
      · next s r heq =>
        have h2 : (simpleStringDecode buf).1 = .error .NotComplete := by
          rw [heq]
          simp_all
        have := simpleDecode_nc_snd 43 buf h2
        rw [simpleStringDecode] at heq
        rw [heq] at this
        simpa using this
    · -- tag '-'
      split at h
      · next heq => simp at h
      · next s r heq =>
        have h2 : (simpleErrorDecode buf).1 = .error .NotComplete := by
          rw [heq]
          simp_all
        have := simpleDecode_nc_snd 45 buf h2
        rw [simpleErrorDecode] at heq
        rw [heq] at this
        simpa using this
    · -- tag ':'
      split at h
      · next heq => simp at h
      · next s r heq =>
        have h2 : (i64Decode buf).1 = .error .NotComplete := by
          rw [heq]
          simp_all
        have := i64Decode_nc_snd buf h2
        rw [heq] at this
        simpa using this
    · -- tag '$'
      split at h
      · next heq => simp at h
      · rfl
      · next e1 hne1 hne2 heq =>
        split at h
        · next heq2 => simp at h
        · next e2 r heq2 =>
          have h2 : (bulkStringDecode buf).1 = .error e2 := by
            rw [heq2]
          have := bulkStringDecode_err_snd buf e2 h2
          rw [heq2] at this
          simpa using this
    · -- tag '*'
      split at h
      · next heq => simp at h
      · rfl
      · next e1 hne1 hne2 heq =>
        split at h
        · next heq2 => simp at h
        · next e2 r heq2 =>
          have h2 : (respArrayDecode (respFrameDecodeF fuel) buf).1 = .error e2 := by
            rw [heq2]
          have := respArrayDecode_err_snd _ buf e2 h2
          rw [heq2] at this
          simpa using this
    · -- tag '_'
      split at h
      · next heq => simp at h
      · rfl
    · -- tag '#'
      split at h
      · next heq => simp at h
      · next e2 r heq =>
        have h2 : (boolDecode buf).1 = .error e2 := by rw [heq]
        have := boolDecode_err_snd buf e2 h2
        rw [heq] at this
        simpa using this
    · -- tag ','
      split at h
      · next heq => simp at h
      · next e2 r heq =>
        have h2 : (f64Decode buf).1 = .error .NotComplete := by
          rw [heq]
          simp_all
        have := f64Decode_nc_snd buf h2
        rw [heq] at this
        simpa using this
    · -- tag '%'
      split at h
      · next heq => simp at h
      · next e2 r heq =>
        have h2 : (respMapDecode (respFrameDecodeF fuel) buf).1 = .error e2 := by
          rw [heq]
        have := respMapDecode_err_snd _ buf e2 h2
        rw [heq] at this
        simpa using this
    · -- tag '~'
      split at h
      · next heq => simp at h
      · next e2 r heq =>
        have h2 : (respSetDecode (respFrameDecodeF fuel) buf).1 = .error e2 := by
          rw [heq]
        have := respSetDecode_err_snd _ buf e2 h2
        rw [heq] at this
        simpa using this
    · -- unknown tag
      rfl

/- ------------------------------------------------------------------ -/
/- Helper lemmas: byte-lexicographic order and ordered insertion.      -/
/- ------------------------------------------------------------------ -/

theorem blt_irrefl : ∀ x : Bytes, blt x x = false
  | [] => rfl
  | a :: l => by
    simp only [blt, lt_irrefl, if_false]
    exact blt_irrefl l

theorem blt_asymm : ∀ x y : Bytes, blt x y = true → blt y x = false
  | [], [], h => by simp [blt] at h
  | [], _ :: _, _ => rfl
  | _ :: _, [], h => by simp [blt] at h
  | a :: l1, b :: l2, h => by
    simp only [blt] at h ⊢
    by_cases hab : a < b
    · have : ¬ b < a := by omega
      simp [this, show ¬ a < b → True from fun _ => trivial, hab]
    · simp only [hab, if_false] at h
      by_cases hba : b < a
      · simp [hba] at h
      · simp only [hba, if_false] at h ⊢
        simp only [hab, if_false]
        exact blt_asymm l1 l2 h

theorem blt_trans : ∀ x y z : Bytes, blt x y = true → blt y z = true → blt x z = true
  | [], [], _, h1, _ => by simp [blt] at h1
  | [], _ :: _, [], _, h2 => by simp [blt] at h2
  | [], _ :: _, _ :: _, _, _ => rfl
  | _ :: _, [], _, h1, _ => by simp [blt] at h1
  | _ :: _, _ :: _, [], _, h2 => by simp [blt] at h2
  | a :: l1, b :: l2, c :: l3, h1, h2 => by
    simp only [blt] at h1 h2 ⊢
    by_cases hab : a < b
    · by_cases hbc : b < c
      · simp [show a < c by omega]
      · simp only [hbc, if_false] at h2
        by_cases hcb : c < b
        · simp [hcb] at h2
        · simp [show a < c by omega]
    · simp only [hab, if_false] at h1
      by_cases hba : b < a
      · simp [hba] at h1
      · simp only [hba, if_false] at h1
        by_cases hbc : b < c
        · simp [show a < c by omega]
        · simp only [hbc, if_false] at h2
          by_cases hcb : c < b
          · simp [hcb] at h2
          · simp only [hcb, if_false] at h2
            have hac : ¬ a < c := by omega
            have hca : ¬ c < a := by omega
            simp only [hac, if_false, hca]
            exact blt_trans l1 l2 l3 h1 h2

theorem mapInsert_all_lt (m : List (Bytes × RespFrame)) (k : Bytes) (v : RespFrame)
    (h : ∀ p ∈ m, blt p.1 k = true) : mapInsert m k v = m ++ [(k, v)] := by
  induction m with
  | nil => rfl
  | cons p m ih =>
    obtain ⟨k0, v0⟩ := p
    have h0 : blt k0 k = true := h (k0, v0) (List.mem_cons_self _ _)
    rw [mapInsert, if_neg (by rw [blt_asymm k0 k h0]; exact fun h => nomatch h),
      if_pos h0, ih (fun p hp => h p (List.mem_cons_of_mem _ hp))]
    rfl

theorem sortedChain_cons (l : List Bytes) (a : Bytes)
    (h : sortedChain (a :: l) = true) :
    sortedChain l = true ∧ ∀ y ∈ l, blt a y = true := by
  induction l generalizing a with
  | nil => exact ⟨rfl, by intro y hy; cases hy⟩
  | cons b l ih =>
    rw [sortedChain, Bool.and_eq_true] at h
    obtain ⟨hab, hb⟩ := h
    obtain ⟨hl, hall⟩ := ih b hb
    refine ⟨hb, ?_⟩
    intro y hy
    rcases List.mem_cons.1 hy with rfl | hy
    · exact hab
    · exact blt_trans a b y hab (hall y hy)

theorem chain_append_pairs (l1 l2 : List Bytes) (a b : Bytes)
    (h : sortedChain (l1 ++ l2) = true) (ha : a ∈ l1) (hb : b ∈ l2) :
    blt a b = true := by
  induction l1 with
  | nil => cases ha
  | cons x l1 ih =>
    have hc := sortedChain_cons (l1 ++ l2) x (by simpa using h)
    rcases List.mem_cons.1 ha with rfl | ha
    · exact hc.2 b (List.mem_append.2 (Or.inr hb))
    · exact ih hc.1 ha

theorem insertAll_sorted :
    ∀ (es acc : List (Bytes × RespFrame)),
      sortedChain (acc.map Prod.fst ++ es.map Prod.fst) = true →
      insertAll acc es = acc ++ es := by
  intro es
  induction es with
  | nil => intro acc _; simp [insertAll]
  | cons p es ih =>
    intro acc h
    obtain ⟨k, v⟩ := p
    rw [insertAll]
    have hlt : ∀ q ∈ acc, blt q.1 k = true := by
      intro q hq
      exact chain_append_pairs (acc.map Prod.fst) ((k, v).1 :: es.map Prod.fst) q.1 k h
        (List.mem_map_of_mem Prod.fst hq) (List.mem_cons_self _ _)
    rw [mapInsert_all_lt acc k v hlt]
    have h2 : sortedChain ((acc ++ [(k, v)]).map Prod.fst ++ es.map Prod.fst) = true := by
      have : (acc ++ [(k, v)]).map Prod.fst ++ es.map Prod.fst
          = acc.map Prod.fst ++ ((k, v).1 :: es.map Prod.fst) := by simp
      rw [this]
      exact h
    rw [ih (acc ++ [(k, v)]) h2]
    simp

/- ------------------------------------------------------------------ -/
/- Helper lemmas: prefixes of encodings.                               -/
/- ------------------------------------------------------------------ -/

theorem prefix_append_cases {α : Type} (q a b : List α) (h : q <+: a ++ b) :
    q <+: a ∨ ∃ q2, q = a ++ q2 ∧ q2 <+: b := by
  induction a generalizing q with
  | nil =>
    right
    exact ⟨q, by simp, by simpa using h⟩
  | cons x a ih =>
    cases q with
    | nil => exact Or.inl (List.nil_prefix)
    | cons y q =>
      rw [List.cons_append, List.cons_prefix_cons] at h
      obtain ⟨rfl, hq⟩ := h
      rcases ih q hq with h1 | ⟨q2, rfl, h2⟩
      · exact Or.inl ((List.cons_prefix_cons).2 ⟨rfl, h1⟩)
      · exact Or.inr ⟨q2, by simp, h2⟩

theorem line_prefix_nc (c : Nat) (s q : Bytes) (hc : c ≠ 13) (hs : 13 ∉ s)
    (hq : q <+: s ++ [13, 10]) (hne : q ≠ s ++ [13, 10]) :
    crlfPos (c :: q) = none := by
  have hlen : q.length ≤ s.length + 2 := by
    have := hq.length_le
    simpa using this
  by_cases h1 : q.length ≤ s.length
  · have hqs : q <+: s := by
      refine List.prefix_of_prefix_length_le hq (List.prefix_append s [13, 10]) ?_
      simpa using h1
    have h13 : 13 ∉ c :: q := by
      intro hmem
      rcases List.mem_cons.1 hmem with h | h
      · exact hc h.symm
      · exact hs (hqs.sublist.subset h)
    exact crlfPos_missing_nil _ h13
  · by_cases h2 : q.length = s.length + 1
    · have hqe : q = s ++ [13] := by
        have := List.prefix_iff_eq_take.1 hq
        rw [this, h2]
        have hsplit : s ++ [13, 10] = (s ++ [13]) ++ [10] := by simp
        rw [hsplit]
        have hlen13 : (s ++ [13]).length = s.length + 1 := by simp
        rw [← hlen13, List.take_left]
      subst hqe
      have h13 : 13 ∉ c :: s := by
        intro hmem
        rcases List.mem_cons.1 hmem with h | h
        · exact hc h.symm
        · exact hs h
      have : c :: (s ++ [13]) = (c :: s) ++ [13] := by simp
      rw [this]
      exact crlfPos_missing_cr _ h13
    · exfalso
      have hfull : q.length = (s ++ [13, 10]).length := by
        simp only [List.length_append, List.length_cons, List.length_nil]
        omega
      exact hne (hq.eq_of_length hfull)

theorem rfd_nil (fuel : Nat) : respFrameDecodeF fuel [] = (.error .NotComplete, []) := by
  cases fuel <;> rfl

theorem encFrame_ne_nil (fmt : DoubleV → Bytes) (F : RespFrame) :
    encFrame fmt F ≠ [] := by
  cases F <;> simp [encFrame]

theorem encFrameList_cons_ne_nil (fmt : DoubleV → Bytes) (x : RespFrame)
    (t : List RespFrame) : encFrameList fmt (x :: t) ≠ [] := by
  rw [encFrameList]
  intro h
  rcases List.append_eq_nil.1 h with ⟨h1, _⟩
  exact encFrame_ne_nil fmt x h1

theorem wfText_parts (s : Bytes) (h : wfText s = true) :
    utf8Lossy s = s ∧ 13 ∉ s ∧ 10 ∉ s := by
  rw [wfText] at h
  simp only [Bool.and_eq_true, beq_iff_eq, Bool.not_eq_true', decide_eq_false_iff_not] at h
  exact ⟨h.1.1, h.1.2, h.2⟩

/- ------------------------------------------------------------------ -/
/- Helper lemmas: one dispatch step of RespFrame::decode per tag.      -/
/- ------------------------------------------------------------------ -/

theorem rfdStep_simpleString_ok (fuel : Nat) (l : Bytes) (s r : Bytes)
    (h : simpleStringDecode (43 :: l) = (.ok s, r)) :
    respFrameDecodeF (fuel + 1) (43 :: l) = (.ok (.SimpleString s), r) := by
  have h0 : respFrameDecodeF (fuel + 1) (43 :: l) =
      (match simpleStringDecode (43 :: l) with
       | (.ok s, r) => (.ok (.SimpleString s), r)
       | (.error e, r) => (.error e, r)) := rfl
  rw [h0, h]

theorem rfdStep_simpleString_err (fuel : Nat) (l : Bytes) (e : RespError) (r : Bytes)
    (h : simpleStringDecode (43 :: l) = (.error e, r)) :
    respFrameDecodeF (fuel + 1) (43 :: l) = (.error e, r) := by
  have h0 : respFrameDecodeF (fuel + 1) (43 :: l) =
      (match simpleStringDecode (43 :: l) with
       | (.ok s, r) => (.ok (.SimpleString s), r)
       | (.error e, r) => (.error e, r)) := rfl
  rw [h0, h]

theorem rfdStep_error_ok (fuel : Nat) (l : Bytes) (s r : Bytes)
    (h : simpleErrorDecode (45 :: l) = (.ok s, r)) :
    respFrameDecodeF (fuel + 1) (45 :: l) = (.ok (.Error s), r) := by
  have h0 : respFrameDecodeF (fuel + 1) (45 :: l) =
      (match simpleErrorDecode (45 :: l) with
       | (.ok s, r) => (.ok (.Error s), r)
       | (.error e, r) => (.error e, r)) := rfl
  rw [h0, h]

theorem rfdStep_error_err (fuel : Nat) (l : Bytes) (e : RespError) (r : Bytes)
    (h : simpleErrorDecode (45 :: l) = (.error e, r)) :
    respFrameDecodeF (fuel + 1) (45 :: l) = (.error e, r) := by
  have h0 : respFrameDecodeF (fuel + 1) (45 :: l) =
      (match simpleErrorDecode (45 :: l) with
       | (.ok s, r) => (.ok (.Error s), r)
       | (.error e, r) => (.error e, r)) := rfl
  rw [h0, h]

theorem rfdStep_integer_ok (fuel : Nat) (l : Bytes) (n : Int) (r : Bytes)
    (h : i64Decode (58 :: l) = (.ok n, r)) :
    respFrameDecodeF (fuel + 1) (58 :: l) = (.ok (.Integer n), r) := by
  have h0 : respFrameDecodeF (fuel + 1) (58 :: l) =
      (match i64Decode (58 :: l) with
       | (.ok n, r) => (.ok (.Integer n), r)
       | (.error e, r) => (.error e, r)) := rfl
  rw [h0, h]

theorem rfdStep_integer_err (fuel : Nat) (l : Bytes) (e : RespError) (r : Bytes)
    (h : i64Decode (58 :: l) = (.error e, r)) :
    respFrameDecodeF (fuel + 1) (58 :: l) = (.error e, r) := by
  have h0 : respFrameDecodeF (fuel + 1) (58 :: l) =
      (match i64Decode (58 :: l) with
       | (.ok n, r) => (.ok (.Integer n), r)
       | (.error e, r) => (.error e, r)) := rfl
  rw [h0, h]

theorem rfdStep_double_ok (fuel : Nat) (l : Bytes) (d : DoubleV) (r : Bytes)
    (h : f64Decode (44 :: l) = (.ok d, r)) :
    respFrameDecodeF (fuel + 1) (44 :: l) = (.ok (.Double d), r) := by
  have h0 : respFrameDecodeF (fuel + 1) (44 :: l) =
      (match f64Decode (44 :: l) with
       | (.ok d, r) => (.ok (.Double d), r)
       | (.error e, r) => (.error e, r)) := rfl
  rw [h0, h]

theorem rfdStep_double_err (fuel : Nat) (l : Bytes) (e : RespError) (r : Bytes)
    (h : f64Decode (44 :: l) = (.error e, r)) :
    respFrameDecodeF (fuel + 1) (44 :: l) = (.error e, r) := by
  have h0 : respFrameDecodeF (fuel + 1) (44 :: l) =
      (match f64Decode (44 :: l) with
       | (.ok d, r) => (.ok (.Double d), r)
       | (.error e, r) => (.error e, r)) := rfl
  rw [h0, h]

theorem rfdStep_bool_ok (fuel : Nat) (l : Bytes) (b : Bool) (r : Bytes)
    (h : boolDecode (35 :: l) = (.ok b, r)) :
    respFrameDecodeF (fuel + 1) (35 :: l) = (.ok (.Boolean b), r) := by
  have h0 : respFrameDecodeF (fuel + 1) (35 :: l) =
      (match boolDecode (35 :: l) with
       | (.ok b, r) => (.ok (.Boolean b), r)
       | (.error e, r) => (.error e, r)) := rfl
  rw [h0, h]

theorem rfdStep_bool_err (fuel : Nat) (l : Bytes) (e : RespError) (r : Bytes)
    (h : boolDecode (35 :: l) = (.error e, r)) :
    respFrameDecodeF (fuel + 1) (35 :: l) = (.error e, r) := by
  have h0 : respFrameDecodeF (fuel + 1) (35 :: l) =
      (match boolDecode (35 :: l) with
       | (.ok b, r) => (.ok (.Boolean b), r)
       | (.error e, r) => (.error e, r)) := rfl
  rw [h0, h]

theorem rfdStep_null_ok (fuel : Nat) (l : Bytes) (r : Bytes)
    (h : extractFixedData (95 :: l) [95, 13, 10] = (.ok (), r)) :
    respFrameDecodeF (fuel + 1) (95 :: l) = (.ok .Null, r) := by
  have h0 : respFrameDecodeF (fuel + 1) (95 :: l) =
      (match extractFixedData (95 :: l) [95, 13, 10] with
       | (.ok _, b1) => (.ok .Null, b1)
       | (.error e, _) => (.error e, 95 :: l)) := rfl
  rw [h0, h]

theorem rfdStep_null_err (fuel : Nat) (l : Bytes) (e : RespError) (r : Bytes)
    (h : extractFixedData (95 :: l) [95, 13, 10] = (.error e, r)) :
    respFrameDecodeF (fuel + 1) (95 :: l) = (.error e, 95 :: l) := by
  have h0 : respFrameDecodeF (fuel + 1) (95 :: l) =
      (match extractFixedData (95 :: l) [95, 13, 10] with
       | (.ok _, b1) => (.ok .Null, b1)
       | (.error e, _) => (.error e, 95 :: l)) := rfl
  rw [h0, h]

theorem rfdStep_nullBulk_ok (fuel : Nat) (l : Bytes) (r : Bytes)
    (h : extractFixedData (36 :: l) [36, 45, 49, 13, 10] = (.ok (), r)) :
    respFrameDecodeF (fuel + 1) (36 :: l) = (.ok .NullBulkString, r) := by
  have h0 : respFrameDecodeF (fuel + 1) (36 :: l) =
      (match extractFixedData (36 :: l) [36, 45, 49, 13, 10] with
       | (.ok _, b1) => (.ok .NullBulkString, b1)
       | (.error .NotComplete, _) => (.error .NotComplete, 36 :: l)
       | (.error _, _) =>
         match bulkStringDecode (36 :: l) with
         | (.ok b, r) => (.ok (.BulkString b), r)
         | (.error e, r) => (.error e, r)) := rfl
  rw [h0, h]

theorem rfdStep_dollar_nc (fuel : Nat) (l : Bytes) (r : Bytes)
    (h : extractFixedData (36 :: l) [36, 45, 49, 13, 10] = (.error .NotComplete, r)) :
    respFrameDecodeF (fuel + 1) (36 :: l) = (.error .NotComplete, 36 :: l) := by
  have h0 : respFrameDecodeF (fuel + 1) (36 :: l) =
      (match extractFixedData (36 :: l) [36, 45, 49, 13, 10] with
       | (.ok _, b1) => (.ok .NullBulkString, b1)
       | (.error .NotComplete, _) => (.error .NotComplete, 36 :: l)
       | (.error _, _) =>
         match bulkStringDecode (36 :: l) with
         | (.ok b, r) => (.ok (.BulkString b), r)
         | (.error e, r) => (.error e, r)) := rfl
  rw [h0, h]

theorem rfdStep_bulk_ok (fuel : Nat) (l : Bytes) (e1 : RespError) (r1 : Bytes)
    (b : Bytes) (r : Bytes)
    (hnull : extractFixedData (36 :: l) [36, 45, 49, 13, 10] = (.error e1, r1))
    (hne : e1 ≠ .NotComplete) (h : bulkStringDecode (36 :: l) = (.ok b, r)) :
    respFrameDecodeF (fuel + 1) (36 :: l) = (.ok (.BulkString b), r) := by
  have h0 : respFrameDecodeF (fuel + 1) (36 :: l) =
      (match extractFixedData (36 :: l) [36, 45, 49, 13, 10] with
       | (.ok _, b1) => (.ok .NullBulkString, b1)
       | (.error .NotComplete, _) => (.error .NotComplete, 36 :: l)
       | (.error _, _) =>
         match bulkStringDecode (36 :: l) with
         | (.ok b, r) => (.ok (.BulkString b), r)
         | (.error e, r) => (.error e, r)) := rfl
  cases e1 <;> first
    | exact absurd rfl hne
    | rw [h0, hnull, h]

theorem rfdStep_bulk_err (fuel : Nat) (l : Bytes) (e1 : RespError) (r1 : Bytes)
    (e : RespError) (r : Bytes)
    (hnull : extractFixedData (36 :: l) [36, 45, 49, 13, 10] = (.error e1, r1))
    (hne : e1 ≠ .NotComplete) (h : bulkStringDecode (36 :: l) = (.error e, r)) :
    respFrameDecodeF (fuel + 1) (36 :: l) = (.error e, r) := by
  have h0 : respFrameDecodeF (fuel + 1) (36 :: l) =
      (match extractFixedData (36 :: l) [36, 45, 49, 13, 10] with
       | (.ok _, b1) => (.ok .NullBulkString, b1)
       | (.error .NotComplete, _) => (.error .NotComplete, 36 :: l)
       | (.error _, _) =>
         match bulkStringDecode (36 :: l) with
         | (.ok b, r) => (.ok (.BulkString b), r)
         | (.error e, r) => (.error e, r)) := rfl
  cases e1 <;> first
    | exact absurd rfl hne
    | rw [h0, hnull, h]

theorem rfdStep_nullArray_ok (fuel : Nat) (l : Bytes) (r : Bytes)
    (h : extractFixedData (42 :: l) [42, 45, 49, 13, 10] = (.ok (), r)) :
    respFrameDecodeF (fuel + 1) (42 :: l) = (.ok .NullArray, r) := by
  have h0 : respFrameDecodeF (fuel + 1) (42 :: l) =
      (match extractFixedData (42 :: l) [42, 45, 49, 13, 10] with
       | (.ok _, b1) => (.ok .NullArray, b1)
       | (.error .NotComplete, _) => (.error .NotComplete, 42 :: l)
       | (.error _, _) =>
         match respArrayDecode (respFrameDecodeF fuel) (42 :: l) with
         | (.ok xs, r) => (.ok (.Array xs), r)
         | (.error e, r) => (.error e, r)) := rfl
  rw [h0, h]

theorem rfdStep_star_nc (fuel : Nat) (l : Bytes) (r : Bytes)
    (h : extractFixedData (42 :: l) [42, 45, 49, 13, 10] = (.error .NotComplete, r)) :
    respFrameDecodeF (fuel + 1) (42 :: l) = (.error .NotComplete, 42 :: l) := by
  have h0 : respFrameDecodeF (fuel + 1) (42 :: l) =
      (match extractFixedData (42 :: l) [42, 45, 49, 13, 10] with
       | (.ok _, b1) => (.ok .NullArray, b1)
       | (.error .NotComplete, _) => (.error .NotComplete, 42 :: l)
       | (.error _, _) =>
         match respArrayDecode (respFrameDecodeF fuel) (42 :: l) with
         | (.ok xs, r) => (.ok (.Array xs), r)
         | (.error e, r) => (.error e, r)) := rfl
  rw [h0, h]

theorem rfdStep_array_ok (fuel : Nat) (l : Bytes) (e1 : RespError) (r1 : Bytes)
    (xs : List RespFrame) (r : Bytes)
    (hnull : extractFixedData (42 :: l) [42, 45, 49, 13, 10] = (.error e1, r1))
    (hne : e1 ≠ .NotComplete)
    (h : respArrayDecode (respFrameDecodeF fuel) (42 :: l) = (.ok xs, r)) :
    respFrameDecodeF (fuel + 1) (42 :: l) = (.ok (.Array xs), r) := by
  have h0 : respFrameDecodeF (fuel + 1) (42 :: l) =
      (match extractFixedData (42 :: l) [42, 45, 49, 13, 10] with
       | (.ok _, b1) => (.ok .NullArray, b1)
       | (.error .NotComplete, _) => (.error .NotComplete, 42 :: l)
       | (.error _, _) =>
         match respArrayDecode (respFrameDecodeF fuel) (42 :: l) with
         | (.ok xs, r) => (.ok (.Array xs), r)
         | (.error e, r) => (.error e, r)) := rfl
  cases e1 <;> first
    | exact absurd rfl hne
    | rw [h0, hnull, h]

theorem rfdStep_array_err (fuel : Nat) (l : Bytes) (e1 : RespError) (r1 : Bytes)
    (e : RespError) (r : Bytes)
    (hnull : extractFixedData (42 :: l) [42, 45, 49, 13, 10] = (.error e1, r1))
    (hne : e1 ≠ .NotComplete)
    (h : respArrayDecode (respFrameDecodeF fuel) (42 :: l) = (.error e, r)) :
    respFrameDecodeF (fuel + 1) (42 :: l) = (.error e, r) := by
  have h0 : respFrameDecodeF (fuel + 1) (42 :: l) =
      (match extractFixedData (42 :: l) [42, 45, 49, 13, 10] with
       | (.ok _, b1) => (.ok .NullArray, b1)
       | (.error .NotComplete, _) => (.error .NotComplete, 42 :: l)
       | (.error _, _) =>
         match respArrayDecode (respFrameDecodeF fuel) (42 :: l) with
         | (.ok xs, r) => (.ok (.Array xs), r)
         | (.error e, r) => (.error e, r)) := rfl
  cases e1 <;> first
    | exact absurd rfl hne
    | rw [h0, hnull, h]

theorem rfdStep_map_ok (fuel : Nat) (l : Bytes) (m : List (Bytes × RespFrame))
    (r : Bytes) (h : respMapDecode (respFrameDecodeF fuel) (37 :: l) = (.ok m, r)) :
    respFrameDecodeF (fuel + 1) (37 :: l) = (.ok (.Map m), r) := by
  have h0 : respFrameDecodeF (fuel + 1) (37 :: l) =
      (match respMapDecode (respFrameDecodeF fuel) (37 :: l) with
       | (.ok m, r) => (.ok (.Map m), r)
       | (.error e, r) => (.error e, r)) := rfl
  rw [h0, h]

theorem rfdStep_map_err (fuel : Nat) (l : Bytes) (e : RespError) (r : Bytes)
    (h : respMapDecode (respFrameDecodeF fuel) (37 :: l) = (.error e, r)) :
    respFrameDecodeF (fuel + 1) (37 :: l) = (.error e, r) := by
  have h0 : respFrameDecodeF (fuel + 1) (37 :: l) =
      (match respMapDecode (respFrameDecodeF fuel) (37 :: l) with
       | (.ok m, r) => (.ok (.Map m), r)
       | (.error e, r) => (.error e, r)) := rfl
  rw [h0, h]

theorem rfdStep_set_ok (fuel : Nat) (l : Bytes) (xs : List RespFrame) (r : Bytes)
    (h : respSetDecode (respFrameDecodeF fuel) (126 :: l) = (.ok xs, r)) :
    respFrameDecodeF (fuel + 1) (126 :: l) = (.ok (.Set xs), r) := by
  have h0 : respFrameDecodeF (fuel + 1) (126 :: l) =
      (match respSetDecode (respFrameDecodeF fuel) (126 :: l) with
       | (.ok xs, r) => (.ok (.Set xs), r)
       | (.error e, r) => (.error e, r)) := rfl
  rw [h0, h]

theorem rfdStep_set_err (fuel : Nat) (l : Bytes) (e : RespError) (r : Bytes)
    (h : respSetDecode (respFrameDecodeF fuel) (126 :: l) = (.error e, r)) :
    respFrameDecodeF (fuel + 1) (126 :: l) = (.error e, r) := by
  have h0 : respFrameDecodeF (fuel + 1) (126 :: l) =
      (match respSetDecode (respFrameDecodeF fuel) (126 :: l) with
       | (.ok xs, r) => (.ok (.Set xs), r)
       | (.error e, r) => (.error e, r)) := rfl
  rw [h0, h]

/- ------------------------------------------------------------------ -/
/- Helper lemmas: composite decoders on their inputs.                  -/
/- ------------------------------------------------------------------ -/

theorem drop_len_sub (x rest : Bytes) :
    (x ++ rest).drop ((x ++ rest).length - rest.length) = rest := by
  have h : (x ++ rest).length - rest.length = x.length := by
    simp only [List.length_append]
    omega
  rw [h, List.drop_left]

theorem simpleDecode_pre (c : Nat) (q s : Bytes) (hc : c ≠ 13) (hs : 13 ∉ s)
    (hq : q <+: s ++ [13, 10]) (hne : q ≠ s ++ [13, 10]) :
    simpleDecode c (c :: q) = (.error .NotComplete, c :: q) := by
  have hcrlf := line_prefix_nc c s q hc hs hq hne
  have hesfd := esfd_nc_of_none (c :: q) [c] (isPrefixOf_cons_self c q) hcrlf
  rw [simpleDecode, hesfd]

theorem i64Decode_pre (q s : Bytes) (hs : 13 ∉ s)
    (hq : q <+: s ++ [13, 10]) (hne : q ≠ s ++ [13, 10]) :
    i64Decode (58 :: q) = (.error .NotComplete, 58 :: q) := by
  have hcrlf := line_prefix_nc 58 s q (by omega) hs hq hne
  have hesfd := esfd_nc_of_none (58 :: q) [58] (isPrefixOf_cons_self 58 q) hcrlf
  rw [i64Decode, hesfd]

theorem f64Decode_pre (q s : Bytes) (hs : 13 ∉ s)
    (hq : q <+: s ++ [13, 10]) (hne : q ≠ s ++ [13, 10]) :
    f64Decode (44 :: q) = (.error .NotComplete, 44 :: q) := by
  have hcrlf := line_prefix_nc 44 s q (by omega) hs hq hne
  have hesfd := esfd_nc_of_none (44 :: q) [44] (isPrefixOf_cons_self 44 q) hcrlf
  rw [f64Decode, hesfd]

theorem parseLength_nc (buf pfx : Bytes) (hp : pfx.isPrefixOf buf)
    (hcrlf : crlfPos buf = none) : parseLength buf pfx = .error .NotComplete := by
  rw [parseLength, esfd_nc_of_none buf pfx hp hcrlf]

theorem parseLength_nc_short (buf pfx : Bytes) (h3 : buf.length < 3) :
    parseLength buf pfx = .error .NotComplete := by
  rw [parseLength, esfd_nc_short buf pfx h3]

theorem bulk_nc (buf : Bytes) (e len : Nat)
    (hpl : parseLength buf [36] = .ok (e, len))
    (hshort : (buf.drop (e + 2)).length < len + 2) :
    bulkStringDecode buf = (.error .NotComplete, buf) := by
  rw [bulkStringDecode, hpl]
  show (if (buf.drop (e + 2)).length < len + 2 then
      ((.error .NotComplete : Except RespError Bytes), buf)
    else (.ok (((buf.drop (e + 2)).take (len + 2)).take len),
      (buf.drop (e + 2)).drop (len + 2))) = (.error .NotComplete, buf)
  rw [if_pos hshort]

theorem bulk_ok (len : Nat) (body : Bytes) (hlen : len < 2 ^ 64)
    (hbody : len + 2 ≤ body.length) :
    bulkStringDecode (36 :: (natToBytes len ++ 13 :: 10 :: body))
      = (.ok (body.take len), body.drop (len + 2)) := by
  rw [bulkStringDecode, parseLength_enc 36 len body (by omega) hlen]
  have hdrop : (36 :: (natToBytes len ++ 13 :: 10 :: body)).drop
      ((natToBytes len).length + 1 + 2) = body := drop_enc_line 36 _ body
  show (if ((36 :: (natToBytes len ++ 13 :: 10 :: body)).drop
        ((natToBytes len).length + 1 + 2)).length < len + 2 then
      ((.error .NotComplete : Except RespError Bytes),
        36 :: (natToBytes len ++ 13 :: 10 :: body))
    else (.ok ((((36 :: (natToBytes len ++ 13 :: 10 :: body)).drop
        ((natToBytes len).length + 1 + 2)).take (len + 2)).take len),
      ((36 :: (natToBytes len ++ 13 :: 10 :: body)).drop
        ((natToBytes len).length + 1 + 2)).drop (len + 2)))
    = (.ok (body.take len), body.drop (len + 2))
  rw [hdrop, if_neg (by omega)]
  rw [List.take_take, min_eq_left (by omega)]

theorem respArrayDecode_ok_of (dec : Bytes → DecRes RespFrame) (buf : Bytes)
    (e len : Nat) (frames : List RespFrame) (bend : Bytes)
    (hpl : parseLength buf [42] = .ok (e, len))
    (hdl : decodeList dec len (buf.drop (e + 2)) = .ok (frames, bend)) :
    respArrayDecode dec buf = (.ok frames, buf.drop (buf.length - bend.length)) := by
  rw [respArrayDecode, hpl]
  show (match decodeList dec len (buf.drop (e + 2)) with
    | .error e2 => ((.error e2 : Except RespError (List RespFrame)), buf)
    | .ok (frames, bend) => (.ok frames, buf.drop (buf.length - bend.length)))
    = (.ok frames, buf.drop (buf.length - bend.length))
  rw [hdl]

theorem respArrayDecode_dlerr (dec : Bytes → DecRes RespFrame) (buf : Bytes)
    (e len : Nat) (e2 : RespError)
    (hpl : parseLength buf [42] = .ok (e, len))
    (hdl : decodeList dec len (buf.drop (e + 2)) = .error e2) :
    respArrayDecode dec buf = (.error e2, buf) := by
  rw [respArrayDecode, hpl]
  show (match decodeList dec len (buf.drop (e + 2)) with
    | .error e2 => ((.error e2 : Except RespError (List RespFrame)), buf)
    | .ok (frames, bend) => (.ok frames, buf.drop (buf.length - bend.length)))
    = (.error e2, buf)
  rw [hdl]

theorem respArrayDecode_plerr (dec : Bytes → DecRes RespFrame) (buf : Bytes)
    (e : RespError) (hpl : parseLength buf [42] = .error e) :
    respArrayDecode dec buf = (.error e, buf) := by
  rw [respArrayDecode, hpl]

theorem respSetDecode_ok_of (dec : Bytes → DecRes RespFrame) (buf : Bytes)
    (e len : Nat) (frames : List RespFrame) (bend : Bytes)
    (hpl : parseLength buf [126] = .ok (e, len))
    (hdl : decodeList dec len (buf.drop (e + 2)) = .ok (frames, bend)) :
    respSetDecode dec buf = (.ok frames, buf.drop (buf.length - bend.length)) := by
  rw [respSetDecode, hpl]
  show (match decodeList dec len (buf.drop (e + 2)) with
    | .error e2 => ((.error e2 : Except RespError (List RespFrame)), buf)
    | .ok (frames, bend) => (.ok frames, buf.drop (buf.length - bend.length)))
    = (.ok frames, buf.drop (buf.length - bend.length))
  rw [hdl]

theorem respSetDecode_dlerr (dec : Bytes → DecRes RespFrame) (buf : Bytes)
    (e len : Nat) (e2 : RespError)
    (hpl : parseLength buf [126] = .ok (e, len))
    (hdl : decodeList dec len (buf.drop (e + 2)) = .error e2) :
    respSetDecode dec buf = (.error e2, buf) := by
  rw [respSetDecode, hpl]
  show (match decodeList dec len (buf.drop (e + 2)) with
    | .error e2 => ((.error e2 : Except RespError (List RespFrame)), buf)
    | .ok (frames, bend) => (.ok frames, buf.drop (buf.length - bend.length)))
    = (.error e2, buf)
  rw [hdl]

theorem respSetDecode_plerr (dec : Bytes → DecRes RespFrame) (buf : Bytes)
    (e : RespError) (hpl : parseLength buf [126] = .error e) :
    respSetDecode dec buf = (.error e, buf) := by
  rw [respSetDecode, hpl]

theorem respMapDecode_ok_of (dec : Bytes → DecRes RespFrame) (buf : Bytes)
    (e len : Nat) (m : List (Bytes × RespFrame)) (bend : Bytes)
    (hpl : parseLength buf [37] = .ok (e, len))
    (hdp : decodePairs dec len (buf.drop (e + 2)) [] = .ok (m, bend)) :
    respMapDecode dec buf = (.ok m, buf.drop (buf.length - bend.length)) := by
  rw [respMapDecode, hpl]
  show (match decodePairs dec len (buf.drop (e + 2)) [] with
    | .error e2 => ((.error e2 : Except RespError (List (Bytes × RespFrame))), buf)
    | .ok (m, bend) => (.ok m, buf.drop (buf.length - bend.length)))
    = (.ok m, buf.drop (buf.length - bend.length))
  rw [hdp]

theorem respMapDecode_dperr (dec : Bytes → DecRes RespFrame) (buf : Bytes)
    (e len : Nat) (e2 : RespError)
    (hpl : parseLength buf [37] = .ok (e, len))
    (hdp : decodePairs dec len (buf.drop (e + 2)) [] = .error e2) :
    respMapDecode dec buf = (.error e2, buf) := by
  rw [respMapDecode, hpl]
  show (match decodePairs dec len (buf.drop (e + 2)) [] with
    | .error e2 => ((.error e2 : Except RespError (List (Bytes × RespFrame))), buf)
    | .ok (m, bend) => (.ok m, buf.drop (buf.length - bend.length)))
    = (.error e2, buf)
  rw [hdp]

theorem respMapDecode_plerr (dec : Bytes → DecRes RespFrame) (buf : Bytes)
    (e : RespError) (hpl : parseLength buf [37] = .error e) :
    respMapDecode dec buf = (.error e, buf) := by
  rw [respMapDecode, hpl]

theorem decodeList_succ_ok (dec : Bytes → DecRes RespFrame) (n : Nat) (b : Bytes)
    (f : RespFrame) (b1 : Bytes) (h : dec b = (.ok f, b1)) :
    decodeList dec (n + 1) b =
      (match decodeList dec n b1 with
       | .ok (fs, b2) => .ok (f :: fs, b2)
       | .error e => .error e) := by
  rw [decodeList, h]

theorem decodeList_succ_err (dec : Bytes → DecRes RespFrame) (n : Nat) (b : Bytes)
    (e : RespError) (b1 : Bytes) (h : dec b = (.error e, b1)) :
    decodeList dec (n + 1) b = .error .NotComplete := by
  rw [decodeList, h]

theorem decodePairs_succ_ok (dec : Bytes → DecRes RespFrame) (n : Nat) (b : Bytes)
    (acc : List (Bytes × RespFrame)) (k : Bytes) (b1 : Bytes) (v : RespFrame)
    (b2 : Bytes) (hk : simpleStringDecode b = (.ok k, b1))
    (hv : dec b1 = (.ok v, b2)) :
    decodePairs dec (n + 1) b acc = decodePairs dec n b2 (mapInsert acc k v) := by
  rw [decodePairs, hk]
  show (match dec b1 with
    | (.ok v, b2) => decodePairs dec n b2 (mapInsert acc k v)
    | (.error _, _) => .error .NotComplete) = decodePairs dec n b2 (mapInsert acc k v)
  rw [hv]

theorem decodePairs_succ_kerr (dec : Bytes → DecRes RespFrame) (n : Nat) (b : Bytes)
    (acc : List (Bytes × RespFrame)) (e : RespError) (b1 : Bytes)
    (hk : simpleStringDecode b = (.error e, b1)) :
    decodePairs dec (n + 1) b acc = .error .NotComplete := by
  rw [decodePairs, hk]

theorem decodePairs_succ_verr (dec : Bytes → DecRes RespFrame) (n : Nat) (b : Bytes)
    (acc : List (Bytes × RespFrame)) (k : Bytes) (b1 : Bytes) (e : RespError)
    (b2 : Bytes) (hk : simpleStringDecode b = (.ok k, b1))
    (hv : dec b1 = (.error e, b2)) :
    decodePairs dec (n + 1) b acc = .error .NotComplete := by
  rw [decodePairs, hk]
  show (match dec b1 with
    | (.ok v, b2) => decodePairs dec n b2 (mapInsert acc k v)
    | (.error _, _) => .error .NotComplete) = .error .NotComplete
  rw [hv]

/- ------------------------------------------------------------------ -/
/- Helper lemmas: weights, well-formedness and trailing empty arrays.  -/
/- ------------------------------------------------------------------ -/

theorem wFrame_pos (F : RespFrame) : 1 ≤ wFrame F := by
  cases F <;> simp [wFrame]

theorem wFrameList_mem (xs : List RespFrame) (x : RespFrame) (hx : x ∈ xs) :
    wFrame x ≤ wFrameList xs := by
  induction xs with
  | nil => cases hx
  | cons y ys ih =>
    rw [wFrameList]
    rcases List.mem_cons.1 hx with rfl | hx
    · omega
    · have := ih hx
      omega

theorem wEntriesList_mem (es : List (Bytes × RespFrame)) (p : Bytes × RespFrame)
    (hp : p ∈ es) : wFrame p.2 ≤ wEntriesList es := by
  induction es with
  | nil => cases hp
  | cons q es ih =>
    obtain ⟨k, v⟩ := q
    rw [wEntriesList]
    rcases List.mem_cons.1 hp with rfl | hp
    · have hv : wFrame (k, v).2 = wFrame v := rfl
      omega
    · have := ih hp
      omega

theorem wfFrameList_mem (xs : List RespFrame) (h : wfFrameList xs = true)
    (x : RespFrame) (hx : x ∈ xs) : wfFrame x = true := by
  induction xs with
  | nil => cases hx
  | cons y ys ih =>
    rw [wfFrameList, Bool.and_eq_true] at h
    rcases List.mem_cons.1 hx with rfl | hx
    · exact h.1
    · exact ih h.2 hx

theorem wfEntriesList_mem (es : List (Bytes × RespFrame)) (h : wfEntriesList es = true)
    (p : Bytes × RespFrame) (hp : p ∈ es) : wfText p.1 = true ∧ wfFrame p.2 = true := by
  induction es with
  | nil => cases hp
  | cons q es ih =>
    obtain ⟨k, v⟩ := q
    rw [wfEntriesList, Bool.and_eq_true, Bool.and_eq_true] at h
    rcases List.mem_cons.1 hp with rfl | hp
    · exact ⟨h.1.1, h.1.2⟩
    · exact ih h.2 hp

theorem doublesInList_mem (xs : List RespFrame) (x : RespFrame) (hx : x ∈ xs) :
    ∀ d ∈ doublesIn x, d ∈ doublesInList xs := by
  induction xs with
  | nil => cases hx
  | cons y ys ih =>
    intro d hd
    rw [doublesInList]
    rcases List.mem_cons.1 hx with rfl | hx
    · exact List.mem_append.2 (Or.inl hd)
    · exact List.mem_append.2 (Or.inr (ih hx d hd))

theorem doublesInEntries_mem (es : List (Bytes × RespFrame)) (p : Bytes × RespFrame)
    (hp : p ∈ es) : ∀ d ∈ doublesIn p.2, d ∈ doublesInEntries es := by
  induction es with
  | nil => cases hp
  | cons q es ih =>
    obtain ⟨k, v⟩ := q
    intro d hd
    rw [doublesInEntries]
    rcases List.mem_cons.1 hp with rfl | hp
    · exact List.mem_append.2 (Or.inl hd)
    · exact List.mem_append.2 (Or.inr (ih hp d hd))

theorem FmtOkOn_array_mem (fmt : DoubleV → Bytes) (xs : List RespFrame)
    (h : FmtOkOn fmt (.Array xs)) (x : RespFrame) (hx : x ∈ xs) : FmtOkOn fmt x := by
  intro d hd
  exact h d (by rw [doublesIn]; exact doublesInList_mem xs x hx d hd)

theorem FmtOkOn_set_mem (fmt : DoubleV → Bytes) (xs : List RespFrame)
    (h : FmtOkOn fmt (.Set xs)) (x : RespFrame) (hx : x ∈ xs) : FmtOkOn fmt x := by
  intro d hd
  exact h d (by rw [doublesIn]; exact doublesInList_mem xs x hx d hd)

theorem FmtOkOn_map_mem (fmt : DoubleV → Bytes) (es : List (Bytes × RespFrame))
    (h : FmtOkOn fmt (.Map es)) (p : Bytes × RespFrame) (hp : p ∈ es) :
    FmtOkOn fmt p.2 := by
  intro d hd
  exact h d (by rw [doublesIn]; exact doublesInEntries_mem es p hp d hd)

theorem keyline_assoc (k Z : Bytes) :
    (43 :: (k ++ CRLF)) ++ Z = 43 :: (k ++ 13 :: 10 :: Z) := by simp [CRLF]

theorem simpleStringDecode_nil : simpleStringDecode [] = (.error .NotComplete, []) := rfl

theorem encEntries_cons_explode (fmt : DoubleV → Bytes) (k : Bytes) (v : RespFrame)
    (es : List (Bytes × RespFrame)) (rest : Bytes) :
    encEntries fmt ((k, v) :: es) ++ rest
      = (43 :: (k ++ CRLF)) ++ (encFrame fmt v ++ (encEntries fmt es ++ rest)) := by
  rw [encEntries]
  simp

theorem encEntries_cons_norest (fmt : DoubleV → Bytes) (k : Bytes) (v : RespFrame)
    (es : List (Bytes × RespFrame)) :
    encEntries fmt ((k, v) :: es)
      = (43 :: (k ++ CRLF)) ++ (encFrame fmt v ++ encEntries fmt es) := by
  rw [encEntries]
  simp

theorem encEntries_cons_ne_nil (fmt : DoubleV → Bytes) (p : Bytes × RespFrame)
    (es : List (Bytes × RespFrame)) : encEntries fmt (p :: es) ≠ [] := by
  obtain ⟨k, v⟩ := p
  rw [encEntries]
  simp

theorem teaLast_listTea (x : RespFrame) (t : List RespFrame) (ht : t ≠ []) :
    teaLast x t = listTea t := by
  cases t with
  | nil => exact absurd rfl ht
  | cons y ys => rw [teaLast, listTea]

theorem teaLastEntry_entriesTea (p : Bytes × RespFrame)
    (es : List (Bytes × RespFrame)) (hes : es ≠ []) :
    teaLastEntry p es = entriesTea es := by
  cases es with
  | nil => exact absurd rfl hes
  | cons q qs =>
    obtain ⟨a, b⟩ := p
    rw [teaLastEntry, entriesTea]

/- ------------------------------------------------------------------ -/
/- Helper lemmas: the element loop on encoded element lists.           -/
/- ------------------------------------------------------------------ -/

theorem decodeList_full (fmt : DoubleV → Bytes) (fuel : Nat) :
    ∀ (xs : List RespFrame) (rest : Bytes),
      (∀ x ∈ xs, DecProps fmt x) → (∀ x ∈ xs, wFrame x ≤ fuel) →
      (rest ≠ [] ∨ listTea xs = false) →
      decodeList (respFrameDecodeF fuel) xs.length (encFrameList fmt xs ++ rest)
        = .ok (xs, rest) := by
  intro xs
  induction xs with
  | nil =>
    intro rest _ _ _
    rw [encFrameList, List.nil_append]
    rfl
  | cons x t ih =>
    intro rest hIH hw hrest
    have hx : DecProps fmt x := hIH x (List.mem_cons_self _ _)
    rw [encFrameList, List.append_assoc, List.length_cons]
    by_cases ht : t = []
    · subst ht
      rw [encFrameList, List.nil_append]
      have hcond : rest ≠ [] ∨ teaFrame x = false := by
        rcases hrest with h | h
        · exact Or.inl h
        · right
          rw [listTea, teaLast] at h
          exact h
      have hdec := hx.2.1 fuel rest (hw x (List.mem_cons_self _ _)) hcond
      rw [decodeList_succ_ok _ _ _ _ _ hdec]
      rfl
    · have hne : encFrameList fmt t ++ rest ≠ [] := by
        intro h
        rcases List.append_eq_nil.1 h with ⟨h1, _⟩
        cases t with
        | nil => exact ht rfl
        | cons y ys => exact encFrameList_cons_ne_nil fmt y ys h1
      have hdec := hx.2.1 fuel (encFrameList fmt t ++ rest)
        (hw x (List.mem_cons_self _ _)) (Or.inl hne)
      rw [decodeList_succ_ok _ _ _ _ _ hdec]
      have hrest2 : rest ≠ [] ∨ listTea t = false := by
        rcases hrest with h | h
        · exact Or.inl h
        · right
          rw [listTea, teaLast_listTea x t ht] at h
          exact h
      rw [ih rest (fun y hy => hIH y (List.mem_cons_of_mem _ hy))
        (fun y hy => hw y (List.mem_cons_of_mem _ hy)) hrest2]

theorem decodeList_disj (fmt : DoubleV → Bytes) (fuel : Nat) :
    ∀ (xs : List RespFrame) (rest : Bytes),
      (∀ x ∈ xs, DecProps fmt x) →
      decodeList (respFrameDecodeF fuel) xs.length (encFrameList fmt xs ++ rest)
          = .ok (xs, rest)
        ∨ decodeList (respFrameDecodeF fuel) xs.length (encFrameList fmt xs ++ rest)
          = .error .NotComplete := by
  intro xs
  induction xs with
  | nil =>
    intro rest _
    left
    rw [encFrameList, List.nil_append]
    rfl
  | cons x t ih =>
    intro rest hIH
    have hx : DecProps fmt x := hIH x (List.mem_cons_self _ _)
    rw [encFrameList, List.append_assoc, List.length_cons]
    rcases hx.1 fuel (encFrameList fmt t ++ rest) with hok | hnc
    · rw [decodeList_succ_ok _ _ _ _ _ hok]
      rcases ih rest (fun y hy => hIH y (List.mem_cons_of_mem _ hy)) with h2 | h2
      · left
        rw [h2]
      · right
        rw [h2]
    · right
      rw [decodeList_succ_err _ _ _ _ _ hnc]

theorem decodeList_teaLemma (fmt : DoubleV → Bytes) (fuel : Nat) :
    ∀ (xs : List RespFrame),
      (∀ x ∈ xs, DecProps fmt x) → listTea xs = true →
      decodeList (respFrameDecodeF fuel) xs.length (encFrameList fmt xs)
        = .error .NotComplete := by
  intro xs
  induction xs with
  | nil => intro _ h; cases h
  | cons x t ih =>
    intro hIH ht
    have hx : DecProps fmt x := hIH x (List.mem_cons_self _ _)
    rw [encFrameList, List.length_cons]
    by_cases htnil : t = []
    · subst htnil
      rw [listTea, teaLast] at ht
      have hdec := hx.2.2.1 fuel ht
      rw [encFrameList, List.append_nil]
      rw [decodeList_succ_err _ _ _ _ _ hdec]
    · rcases hx.1 fuel (encFrameList fmt t) with hok | hnc
      · rw [decodeList_succ_ok _ _ _ _ _ hok]
        rw [listTea, teaLast_listTea x t htnil] at ht
        rw [ih (fun y hy => hIH y (List.mem_cons_of_mem _ hy)) ht]
      · rw [decodeList_succ_err _ _ _ _ _ hnc]

theorem decodeList_pre (fmt : DoubleV → Bytes) (fuel : Nat) :
    ∀ (xs : List RespFrame) (q : Bytes),
      (∀ x ∈ xs, DecProps fmt x) →
      q <+: encFrameList fmt xs → q ≠ encFrameList fmt xs →
      decodeList (respFrameDecodeF fuel) xs.length q = .error .NotComplete := by
  intro xs
  induction xs with
  | nil =>
    intro q _ hq hne
    rw [encFrameList] at hq hne
    exact absurd (List.prefix_nil.1 hq) hne
  | cons x t ih =>
    intro q hIH hq hne
    have hx : DecProps fmt x := hIH x (List.mem_cons_self _ _)
    rw [encFrameList] at hq hne
    rw [List.length_cons]
    rcases prefix_append_cases q (encFrame fmt x) (encFrameList fmt t) hq with h1 | ⟨q2, rfl, h2⟩
    · by_cases heq : q = encFrame fmt x
      · subst heq
        by_cases ht : t = []
        · subst ht
          rw [encFrameList, List.append_nil] at hne
          exact absurd rfl hne
        · have hx1 := hx.1 fuel []
          rw [List.append_nil] at hx1
          rcases hx1 with hok | hnc
          · rw [decodeList_succ_ok _ _ _ _ _ hok]
            cases t with
            | nil => exact absurd rfl ht
            | cons y ys =>
              rw [List.length_cons, decodeList_succ_err _ _ _ _ _ (rfd_nil fuel)]
          · rw [decodeList_succ_err _ _ _ _ _ hnc]
      · have hpre := hx.2.2.2 fuel q h1 heq
        rw [decodeList_succ_err _ _ _ _ _ hpre]
    · have hq2ne : q2 ≠ encFrameList fmt t := by
        intro h
        exact hne (by rw [h])
      rcases hx.1 fuel q2 with hok | hnc
      · rw [decodeList_succ_ok _ _ _ _ _ hok]
        rw [ih q2 (fun y hy => hIH y (List.mem_cons_of_mem _ hy)) h2 hq2ne]
      · rw [decodeList_succ_err _ _ _ _ _ hnc]

/- ------------------------------------------------------------------ -/
/- Helper lemmas: the pair loop on encoded entry lists.                -/
/- ------------------------------------------------------------------ -/

theorem keyDecode_ok (k Z : Bytes) (hk : wfText k = true) :
    simpleStringDecode ((43 :: (k ++ CRLF)) ++ Z) = (.ok k, Z) := by
  obtain ⟨hl, h13, _⟩ := wfText_parts k hk
  rw [keyline_assoc, simpleStringDecode, simpleDecode_enc 43 k Z (by omega) h13, hl]

theorem keyDecode_pre (k q : Bytes) (hk : wfText k = true)
    (hq : q <+: 43 :: (k ++ CRLF)) (hne : q ≠ 43 :: (k ++ CRLF)) :
    simpleStringDecode q = (.error .NotComplete, q) := by
  obtain ⟨hl, h13, _⟩ := wfText_parts k hk
  simp only [CRLF] at hq hne
  cases q with
  | nil => exact simpleStringDecode_nil
  | cons y q =>
    rw [List.cons_prefix_cons] at hq
    obtain ⟨rfl, hq⟩ := hq
    have hne2 : q ≠ k ++ [13, 10] := by
      intro h
      exact hne (by rw [h])
    exact simpleDecode_pre 43 q k (by omega) h13 hq hne2

theorem decodePairs_full (fmt : DoubleV → Bytes) (fuel : Nat) :
    ∀ (es : List (Bytes × RespFrame)) (rest : Bytes)
      (acc : List (Bytes × RespFrame)),
      (∀ p ∈ es, DecProps fmt p.2) → (∀ p ∈ es, wFrame p.2 ≤ fuel) →
      (∀ p ∈ es, wfText p.1 = true) →
      (rest ≠ [] ∨ entriesTea es = false) →
      decodePairs (respFrameDecodeF fuel) es.length (encEntries fmt es ++ rest) acc
        = .ok (insertAll acc es, rest) := by
  intro es
  induction es with
  | nil =>
    intro rest acc _ _ _ _
    rw [encEntries, List.nil_append, insertAll]
    rfl
  | cons p es ih =>
    intro rest acc hIH hw hkeys hrest
    obtain ⟨k, v⟩ := p
    have hv : DecProps fmt v := hIH (k, v) (List.mem_cons_self _ _)
    rw [encEntries_cons_explode, List.length_cons]
    have hkey := keyDecode_ok k (encFrame fmt v ++ (encEntries fmt es ++ rest))
      (hkeys (k, v) (List.mem_cons_self _ _))
    have hvcond : encEntries fmt es ++ rest ≠ [] ∨ teaFrame v = false := by
      cases es with
      | nil =>
        rw [encEntries, List.nil_append]
        rcases hrest with h | h
        · exact Or.inl h
        · right
          rw [entriesTea, teaLastEntry] at h
          exact h
      | cons q qs =>
        left
        intro hh
        rcases List.append_eq_nil.1 hh with ⟨h1, _⟩
        exact encEntries_cons_ne_nil fmt q qs h1
    have hvdec := hv.2.1 fuel (encEntries fmt es ++ rest)
      (hw (k, v) (List.mem_cons_self _ _)) hvcond
    rw [decodePairs_succ_ok _ _ _ _ _ _ _ _ hkey hvdec]
    have hrest2 : rest ≠ [] ∨ entriesTea es = false := by
      cases es with
      | nil => exact Or.inr rfl
      | cons q qs =>
        rcases hrest with h | h
        · exact Or.inl h
        · right
          rw [entriesTea, teaLastEntry_entriesTea (k, v) (q :: qs) (by simp)] at h
          exact h
    rw [ih rest (mapInsert acc k v)
      (fun y hy => hIH y (List.mem_cons_of_mem _ hy))
      (fun y hy => hw y (List.mem_cons_of_mem _ hy))
      (fun y hy => hkeys y (List.mem_cons_of_mem _ hy)) hrest2]
    rw [insertAll]

theorem decodePairs_disj (fmt : DoubleV → Bytes) (fuel : Nat) :
    ∀ (es : List (Bytes × RespFrame)) (rest : Bytes)
      (acc : List (Bytes × RespFrame)),
      (∀ p ∈ es, DecProps fmt p.2) → (∀ p ∈ es, wfText p.1 = true) →
      decodePairs (respFrameDecodeF fuel) es.length (encEntries fmt es ++ rest) acc
          = .ok (insertAll acc es, rest)
        ∨ decodePairs (respFrameDecodeF fuel) es.length (encEntries fmt es ++ rest) acc
          = .error .NotComplete := by
  intro es
  induction es with
  | nil =>
    intro rest acc _ _
    left
    rw [encEntries, List.nil_append, insertAll]
    rfl
  | cons p es ih =>
    intro rest acc hIH hkeys
    obtain ⟨k, v⟩ := p
    have hv : DecProps fmt v := hIH (k, v) (List.mem_cons_self _ _)
    rw [encEntries_cons_explode, List.length_cons]
    have hkey := keyDecode_ok k (encFrame fmt v ++ (encEntries fmt es ++ rest))
      (hkeys (k, v) (List.mem_cons_self _ _))
    rcases hv.1 fuel (encEntries fmt es ++ rest) with hok | hnc
    · rw [decodePairs_succ_ok _ _ _ _ _ _ _ _ hkey hok]
      rcases ih rest (mapInsert acc k v)
        (fun y hy => hIH y (List.mem_cons_of_mem _ hy))
        (fun y hy => hkeys y (List.mem_cons_of_mem _ hy)) with h2 | h2
      · left
        rw [h2, insertAll]
      · right
        rw [h2]
    · right
      rw [decodePairs_succ_verr _ _ _ _ _ _ _ _ hkey hnc]

theorem decodePairs_teaLemma (fmt : DoubleV → Bytes) (fuel : Nat) :
    ∀ (es : List (Bytes × RespFrame)) (acc : List (Bytes × RespFrame)),
      (∀ p ∈ es, DecProps fmt p.2) → (∀ p ∈ es, wfText p.1 = true) →
      entriesTea es = true →
      decodePairs (respFrameDecodeF fuel) es.length (encEntries fmt es) acc
        = .error .NotComplete := by
  intro es
  induction es with
  | nil => intro acc _ _ h; cases h
  | cons p es ih =>
    intro acc hIH hkeys ht
    obtain ⟨k, v⟩ := p
    have hv : DecProps fmt v := hIH (k, v) (List.mem_cons_self _ _)
    rw [encEntries_cons_norest, List.length_cons]
    have hkey := keyDecode_ok k (encFrame fmt v ++ encEntries fmt es)
      (hkeys (k, v) (List.mem_cons_self _ _))
    cases es with
    | nil =>
      rw [entriesTea, teaLastEntry] at ht
      rw [encEntries] at hkey ⊢
      rw [List.append_nil] at hkey ⊢
      have hvdec := hv.2.2.1 fuel ht
      rw [decodePairs_succ_verr _ _ _ _ _ _ _ _ hkey hvdec]
    | cons q qs =>
      rcases hv.1 fuel (encEntries fmt (q :: qs)) with hok | hnc
      · rw [decodePairs_succ_ok _ _ _ _ _ _ _ _ hkey hok]
        rw [entriesTea, teaLastEntry_entriesTea (k, v) (q :: qs) (by simp)] at ht
        rw [ih (mapInsert acc k v)
          (fun y hy => hIH y (List.mem_cons_of_mem _ hy))
          (fun y hy => hkeys y (List.mem_cons_of_mem _ hy)) ht]
      · rw [decodePairs_succ_verr _ _ _ _ _ _ _ _ hkey hnc]

theorem decodePairs_pre (fmt : DoubleV → Bytes) (fuel : Nat) :
    ∀ (es : List (Bytes × RespFrame)) (q : Bytes) (acc : List (Bytes × RespFrame)),
      (∀ p ∈ es, DecProps fmt p.2) → (∀ p ∈ es, wfText p.1 = true) →
      q <+: encEntries fmt es → q ≠ encEntries fmt es →
      decodePairs (respFrameDecodeF fuel) es.length q acc = .error .NotComplete := by
  intro es
  induction es with
  | nil =>
    intro q acc _ _ hq hne
    rw [encEntries] at hq hne
    exact absurd (List.prefix_nil.1 hq) hne
  | cons p es ih =>
    intro q acc hIH hkeys hq hne
    obtain ⟨k, v⟩ := p
    have hv : DecProps fmt v := hIH (k, v) (List.mem_cons_self _ _)
    have hk : wfText k = true := hkeys (k, v) (List.mem_cons_self _ _)
    rw [encEntries_cons_norest] at hq hne
    rw [List.length_cons]
    rcases prefix_append_cases q (43 :: (k ++ CRLF))
      (encFrame fmt v ++ encEntries fmt es) hq with h1 | ⟨q2, rfl, h2⟩
    · by_cases heq : q = 43 :: (k ++ CRLF)
      · subst heq
        have hkey := keyDecode_ok k [] hk
        rw [List.append_nil] at hkey
        rw [decodePairs_succ_verr _ _ _ _ _ _ _ _ hkey (rfd_nil fuel)]
      · have hkerr := keyDecode_pre k q hk h1 heq
        rw [decodePairs_succ_kerr _ _ _ _ _ _ hkerr]
    · have hkey := keyDecode_ok k q2 hk
      rcases prefix_append_cases q2 (encFrame fmt v) (encEntries fmt es) h2
        with h3 | ⟨q3, rfl, h4⟩
      · by_cases heq2 : q2 = encFrame fmt v
        · subst heq2
          have hes : es ≠ [] := by
            intro h
            subst h
            apply hne
            rw [encEntries, List.append_nil]
          have hx1 := hv.1 fuel []
          rw [List.append_nil] at hx1
          rcases hx1 with hok | hnc
          · rw [decodePairs_succ_ok _ _ _ _ _ _ _ _ hkey hok]
            cases es with
            | nil => exact absurd rfl hes
            | cons e2 es2 =>
              rw [List.length_cons,
                decodePairs_succ_kerr _ _ _ _ _ _ simpleStringDecode_nil]
          · rw [decodePairs_succ_verr _ _ _ _ _ _ _ _ hkey hnc]
        · have hvpre := hv.2.2.2 fuel q2 h3 heq2
          rw [decodePairs_succ_verr _ _ _ _ _ _ _ _ hkey hvpre]
      · have hq3ne : q3 ≠ encEntries fmt es := by
          intro h
          exact hne (by rw [h])
        rcases hv.1 fuel q3 with hok | hnc
        · rw [decodePairs_succ_ok _ _ _ _ _ _ _ _ hkey hok]
          exact ih q3 (mapInsert acc k v)
            (fun y hy => hIH y (List.mem_cons_of_mem _ hy))
            (fun y hy => hkeys y (List.mem_cons_of_mem _ hy)) h4 hq3ne
        · rw [decodePairs_succ_verr _ _ _ _ _ _ _ _ hkey hnc]

/- ------------------------------------------------------------------ -/
/- Helper lemmas: normal forms of the encodings.                       -/
/- ------------------------------------------------------------------ -/

theorem encSimpleString_explode (fmt : DoubleV → Bytes) (s rest : Bytes) :
    encFrame fmt (.SimpleString s) ++ rest = 43 :: (s ++ 13 :: 10 :: rest) := by
  rw [encFrame]; simp [CRLF]

theorem encSimpleString_norest (fmt : DoubleV → Bytes) (s : Bytes) :
    encFrame fmt (.SimpleString s) = 43 :: (s ++ [13, 10]) := by
  rw [encFrame]; simp [CRLF]

theorem encError_explode (fmt : DoubleV → Bytes) (s rest : Bytes) :
    encFrame fmt (.Error s) ++ rest = 45 :: (s ++ 13 :: 10 :: rest) := by
  rw [encFrame]; simp [CRLF]

theorem encError_norest (fmt : DoubleV → Bytes) (s : Bytes) :
    encFrame fmt (.Error s) = 45 :: (s ++ [13, 10]) := by
  rw [encFrame]; simp [CRLF]

theorem encInteger_explode (fmt : DoubleV → Bytes) (n : Int) (rest : Bytes) :
    encFrame fmt (.Integer n) ++ rest = 58 :: (intPayload n ++ 13 :: 10 :: rest) := by
  rw [encFrame]; simp [CRLF]

theorem encInteger_norest (fmt : DoubleV → Bytes) (n : Int) :
    encFrame fmt (.Integer n) = 58 :: (intPayload n ++ [13, 10]) := by
  rw [encFrame]; simp [CRLF]

theorem encDouble_explode (fmt : DoubleV → Bytes) (d : DoubleV) (rest : Bytes) :
    encFrame fmt (.Double d) ++ rest = 44 :: (fmt d ++ 13 :: 10 :: rest) := by
  rw [encFrame]; simp [CRLF]

theorem encDouble_norest (fmt : DoubleV → Bytes) (d : DoubleV) :
    encFrame fmt (.Double d) = 44 :: (fmt d ++ [13, 10]) := by
  rw [encFrame]; simp [CRLF]

theorem encBulk_explode (fmt : DoubleV → Bytes) (b rest : Bytes) :
    encFrame fmt (.BulkString b) ++ rest
      = 36 :: (natToBytes b.length ++ 13 :: 10 :: (b ++ 13 :: 10 :: rest)) := by
  rw [encFrame]; simp [CRLF]

theorem encBulk_norest (fmt : DoubleV → Bytes) (b : Bytes) :
    encFrame fmt (.BulkString b)
      = 36 :: (natToBytes b.length ++ 13 :: 10 :: (b ++ [13, 10])) := by
  rw [encFrame]; simp [CRLF]

theorem encArray_explode (fmt : DoubleV → Bytes) (xs : List RespFrame) (rest : Bytes) :
    encFrame fmt (.Array xs) ++ rest
      = 42 :: (natToBytes xs.length ++ 13 :: 10 :: (encFrameList fmt xs ++ rest)) := by
  rw [encFrame]; simp [CRLF]

theorem encArray_norest (fmt : DoubleV → Bytes) (xs : List RespFrame) :
    encFrame fmt (.Array xs)
      = 42 :: (natToBytes xs.length ++ 13 :: 10 :: encFrameList fmt xs) := by
  rw [encFrame]; simp [CRLF]

theorem encSet_explode (fmt : DoubleV → Bytes) (xs : List RespFrame) (rest : Bytes) :
    encFrame fmt (.Set xs) ++ rest
      = 126 :: (natToBytes xs.length ++ 13 :: 10 :: (encFrameList fmt xs ++ rest)) := by
  rw [encFrame]; simp [CRLF]

theorem encSet_norest (fmt : DoubleV → Bytes) (xs : List RespFrame) :
    encFrame fmt (.Set xs)
      = 126 :: (natToBytes xs.length ++ 13 :: 10 :: encFrameList fmt xs) := by
  rw [encFrame]; simp [CRLF]

theorem encMap_explode (fmt : DoubleV → Bytes) (es : List (Bytes × RespFrame))
    (rest : Bytes) :
    encFrame fmt (.Map es) ++ rest
      = 37 :: (natToBytes es.length ++ 13 :: 10 :: (encEntries fmt es ++ rest)) := by
  rw [encFrame]; simp [CRLF]

theorem encMap_norest (fmt : DoubleV → Bytes) (es : List (Bytes × RespFrame)) :
    encFrame fmt (.Map es)
      = 37 :: (natToBytes es.length ++ 13 :: 10 :: encEntries fmt es) := by
  rw [encFrame]; simp [CRLF]

theorem encNullBulk_eq (fmt : DoubleV → Bytes) :
    encFrame fmt .NullBulkString = [36, 45, 49, 13, 10] := by rw [encFrame]

theorem encNullArray_eq (fmt : DoubleV → Bytes) :
    encFrame fmt .NullArray = [42, 45, 49, 13, 10] := by rw [encFrame]

theorem encNull_eq (fmt : DoubleV → Bytes) :
    encFrame fmt .Null = [95, 13, 10] := by rw [encFrame]

theorem encBoolean_eq (fmt : DoubleV → Bytes) (b : Bool) :
    encFrame fmt (.Boolean b) = [35, if b then 116 else 102, 13, 10] := by
  rw [encFrame]
  cases b <;> rfl

/- ------------------------------------------------------------------ -/
/- DecProps case lemmas: line-frame leaves.                            -/
/- ------------------------------------------------------------------ -/

theorem prefix_cons_cases {α : Type} (p : List α) (c : α) (l : List α)
    (h : p <+: c :: l) : p = [] ∨ ∃ q, p = c :: q ∧ q <+: l := by
  cases p with
  | nil => exact Or.inl rfl
  | cons y q =>
    rw [List.cons_prefix_cons] at h
    exact Or.inr ⟨q, by rw [h.1], h.2⟩

theorem decProps_simpleString (fmt : DoubleV → Bytes) (s : Bytes)
    (hs : wfText s = true) : DecProps fmt (.SimpleString s) := by
  obtain ⟨hl, h13, _⟩ := wfText_parts s hs
  have hok : ∀ fuel rest, respFrameDecodeF (fuel + 1)
      (encFrame fmt (.SimpleString s) ++ rest) = (.ok (.SimpleString s), rest) := by
    intro fuel rest
    rw [encSimpleString_explode]
    exact rfdStep_simpleString_ok fuel _ s rest
      (by rw [simpleStringDecode, simpleDecode_enc 43 s rest (by omega) h13, hl])
  refine ⟨?_, ?_, ?_, ?_⟩
  · intro fuel rest
    cases fuel with
    | zero => exact Or.inr rfl
    | succ f => exact Or.inl (hok f rest)
  · intro fuel rest hw _
    cases fuel with
    | zero => exact absurd hw (by have := wFrame_pos (.SimpleString s); omega)
    | succ f => exact hok f rest
  · intro fuel ht
    simp [teaFrame] at ht
  · intro fuel p hp hne
    rw [encSimpleString_norest] at hp hne
    rcases prefix_cons_cases p 43 (s ++ [13, 10]) hp with rfl | ⟨q, rfl, hq⟩
    · exact rfd_nil fuel
    · cases fuel with
      | zero => rfl
      | succ f =>
        have hqne : q ≠ s ++ [13, 10] := fun h => hne (by rw [h])
        exact rfdStep_simpleString_err f q .NotComplete _
          (by rw [simpleStringDecode]
              exact simpleDecode_pre 43 q s (by omega) h13 hq hqne)

theorem decProps_error (fmt : DoubleV → Bytes) (s : Bytes)
    (hs : wfText s = true) : DecProps fmt (.Error s) := by
  obtain ⟨hl, h13, _⟩ := wfText_parts s hs
  have hok : ∀ fuel rest, respFrameDecodeF (fuel + 1)
      (encFrame fmt (.Error s) ++ rest) = (.ok (.Error s), rest) := by
    intro fuel rest
    rw [encError_explode]
    exact rfdStep_error_ok fuel _ s rest
      (by rw [simpleErrorDecode, simpleDecode_enc 45 s rest (by omega) h13, hl])
  refine ⟨?_, ?_, ?_, ?_⟩
  · intro fuel rest
    cases fuel with
    | zero => exact Or.inr rfl
    | succ f => exact Or.inl (hok f rest)
  · intro fuel rest hw _
    cases fuel with
    | zero => exact absurd hw (by have := wFrame_pos (.Error s); omega)
    | succ f => exact hok f rest
  · intro fuel ht
    simp [teaFrame] at ht
  · intro fuel p hp hne
    rw [encError_norest] at hp hne
    rcases prefix_cons_cases p 45 (s ++ [13, 10]) hp with rfl | ⟨q, rfl, hq⟩
    · exact rfd_nil fuel
    · cases fuel with
      | zero => rfl
      | succ f =>
        have hqne : q ≠ s ++ [13, 10] := fun h => hne (by rw [h])
        exact rfdStep_error_err f q .NotComplete _
          (by rw [simpleErrorDecode]
              exact simpleDecode_pre 45 q s (by omega) h13 hq hqne)

theorem decProps_integer (fmt : DoubleV → Bytes) (n : Int)
    (h1 : -(2 ^ 63) ≤ n) (h2 : n < 2 ^ 63) : DecProps fmt (.Integer n) := by
  have h13 := intPayload_not13 n
  have hok : ∀ fuel rest, respFrameDecodeF (fuel + 1)
      (encFrame fmt (.Integer n) ++ rest) = (.ok (.Integer n), rest) := by
    intro fuel rest
    rw [encInteger_explode]
    refine rfdStep_integer_ok fuel _ n rest ?_
    refine i64Decode_enc (intPayload n) rest n h13 ?_
    rw [utf8Lossy_ascii _ (intPayload_ascii n), parseI64_intPayload n h1 h2]
  refine ⟨?_, ?_, ?_, ?_⟩
  · intro fuel rest
    cases fuel with
    | zero => exact Or.inr rfl
    | succ f => exact Or.inl (hok f rest)
  · intro fuel rest hw _
    cases fuel with
    | zero => exact absurd hw (by have := wFrame_pos (.Integer n); omega)
    | succ f => exact hok f rest
  · intro fuel ht
    simp [teaFrame] at ht
  · intro fuel p hp hne
    rw [encInteger_norest] at hp hne
    rcases prefix_cons_cases p 58 (intPayload n ++ [13, 10]) hp with rfl | ⟨q, rfl, hq⟩
    · exact rfd_nil fuel
    · cases fuel with
      | zero => rfl
      | succ f =>
        have hqne : q ≠ intPayload n ++ [13, 10] := fun h => hne (by rw [h])
        exact rfdStep_integer_err f q .NotComplete _
          (i64Decode_pre q (intPayload n) h13 hq hqne)

theorem decProps_double (fmt : DoubleV → Bytes) (d : DoubleV)
    (hf13 : 13 ∉ fmt d) (hfp : parseF64 (utf8Lossy (fmt d)) = some d) :
    DecProps fmt (.Double d) := by
  have hok : ∀ fuel rest, respFrameDecodeF (fuel + 1)
      (encFrame fmt (.Double d) ++ rest) = (.ok (.Double d), rest) := by
    intro fuel rest
    rw [encDouble_explode]
    exact rfdStep_double_ok fuel _ d rest (f64Decode_enc (fmt d) rest d hf13 hfp)
  refine ⟨?_, ?_, ?_, ?_⟩
  · intro fuel rest
    cases fuel with
    | zero => exact Or.inr rfl
    | succ f => exact Or.inl (hok f rest)
  · intro fuel rest hw _
    cases fuel with
    | zero => exact absurd hw (by have := wFrame_pos (.Double d); omega)
    | succ f => exact hok f rest
  · intro fuel ht
    simp [teaFrame] at ht
  · intro fuel p hp hne
    rw [encDouble_norest] at hp hne
    rcases prefix_cons_cases p 44 (fmt d ++ [13, 10]) hp with rfl | ⟨q, rfl, hq⟩
    · exact rfd_nil fuel
    · cases fuel with
      | zero => rfl
      | succ f =>
        have hqne : q ≠ fmt d ++ [13, 10] := fun h => hne (by rw [h])
        exact rfdStep_double_err f q .NotComplete _
          (f64Decode_pre q (fmt d) hf13 hq hqne)

/- ------------------------------------------------------------------ -/
/- DecProps case lemmas: fixed-literal frames.                         -/
/- ------------------------------------------------------------------ -/

theorem boolDecode_true (rest : Bytes) :
    boolDecode ([35, 116, 13, 10] ++ rest) = (.ok true, rest) := by
  rw [boolDecode, extractFixedData_ok]

theorem boolDecode_false (rest : Bytes) :
    boolDecode ([35, 102, 13, 10] ++ rest) = (.ok false, rest) := by
  have h1 : extractFixedData ([35, 102, 13, 10] ++ rest) [35, 116, 13, 10]
      = (.error .InvalidFrame, [35, 102, 13, 10] ++ rest) := by
    refine extractFixedData_mismatch _ _ (by simp) (fun h => ?_)
    have h2 : ([35, 102, 13, 10] : Bytes) = [35, 116, 13, 10] := h
    exact absurd h2 (by decide)
  rw [boolDecode, h1, extractFixedData_ok]

theorem boolDecode_short (p : Bytes) (h : p.length < 4) :
    boolDecode p = (.error .NotComplete, p) := by
  have h1 := extractFixedData_short p [35, 116, 13, 10] (by simpa using h)
  have h2 := extractFixedData_short p [35, 102, 13, 10] (by simpa using h)
  rw [boolDecode, h1, h2]

theorem decProps_boolean (fmt : DoubleV → Bytes) (b : Bool) :
    DecProps fmt (.Boolean b) := by
  have hok : ∀ fuel rest, respFrameDecodeF (fuel + 1)
      (encFrame fmt (.Boolean b) ++ rest) = (.ok (.Boolean b), rest) := by
    intro fuel rest
    rw [encBoolean_eq]
    cases b
    · exact rfdStep_bool_ok fuel _ false rest (boolDecode_false rest)
    · exact rfdStep_bool_ok fuel _ true rest (boolDecode_true rest)
  refine ⟨?_, ?_, ?_, ?_⟩
  · intro fuel rest
    cases fuel with
    | zero => exact Or.inr rfl
    | succ f => exact Or.inl (hok f rest)
  · intro fuel rest hw _
    cases fuel with
    | zero => exact absurd hw (by have := wFrame_pos (.Boolean b); omega)
    | succ f => exact hok f rest
  · intro fuel ht
    simp [teaFrame] at ht
  · intro fuel p hp hne
    rw [encBoolean_eq] at hp hne
    rcases prefix_cons_cases p 35 [if b then 116 else 102, 13, 10] hp
      with rfl | ⟨q, rfl, hq⟩
    · exact rfd_nil fuel
    · cases fuel with
      | zero => rfl
      | succ f =>
        have hlen : q.length ≤ 3 := by simpa using hq.length_le
        have hq3 : q.length ≠ 3 := by
          intro h3
          exact hne (by rw [hq.eq_of_length (by simpa using h3)])
        exact rfdStep_bool_err f q .NotComplete _
          (boolDecode_short (35 :: q) (by simp only [List.length_cons]; omega))

theorem decProps_nullV (fmt : DoubleV → Bytes) : DecProps fmt .Null := by
  have hok : ∀ fuel rest, respFrameDecodeF (fuel + 1)
      (encFrame fmt .Null ++ rest) = (.ok .Null, rest) := by
    intro fuel rest
    rw [encNull_eq]
    exact rfdStep_null_ok fuel _ rest (extractFixedData_ok [95, 13, 10] rest)
  refine ⟨?_, ?_, ?_, ?_⟩
  · intro fuel rest
    cases fuel with
    | zero => exact Or.inr rfl
    | succ f => exact Or.inl (hok f rest)
  · intro fuel rest hw _
    cases fuel with
    | zero => exact absurd hw (by have := wFrame_pos .Null; omega)
    | succ f => exact hok f rest
  · intro fuel ht
    simp [teaFrame] at ht
  · intro fuel p hp hne
    rw [encNull_eq] at hp hne
    rcases prefix_cons_cases p 95 [13, 10] hp with rfl | ⟨q, rfl, hq⟩
    · exact rfd_nil fuel
    · cases fuel with
      | zero => rfl
      | succ f =>
        have hlen : q.length ≤ 2 := by simpa using hq.length_le
        have hq2 : q.length ≠ 2 := by
          intro h2
          exact hne (by rw [hq.eq_of_length (by simpa using h2)])
        exact rfdStep_null_err f q .NotComplete _
          (extractFixedData_short (95 :: q) [95, 13, 10]
            (by simp only [List.length_cons]; simp; omega))

theorem decProps_nullBulk (fmt : DoubleV → Bytes) : DecProps fmt .NullBulkString := by
  have hok : ∀ fuel rest, respFrameDecodeF (fuel + 1)
      (encFrame fmt .NullBulkString ++ rest) = (.ok .NullBulkString, rest) := by
    intro fuel rest
    rw [encNullBulk_eq]
    exact rfdStep_nullBulk_ok fuel _ rest
      (extractFixedData_ok [36, 45, 49, 13, 10] rest)
  refine ⟨?_, ?_, ?_, ?_⟩
  · intro fuel rest
    cases fuel with
    | zero => exact Or.inr rfl
    | succ f => exact Or.inl (hok f rest)
  · intro fuel rest hw _
    cases fuel with
    | zero => exact absurd hw (by have := wFrame_pos .NullBulkString; omega)
    | succ f => exact hok f rest
  · intro fuel ht
    simp [teaFrame] at ht
  · intro fuel p hp hne
    rw [encNullBulk_eq] at hp hne
    rcases prefix_cons_cases p 36 [45, 49, 13, 10] hp with rfl | ⟨q, rfl, hq⟩
    · exact rfd_nil fuel
    · cases fuel with
      | zero => rfl
      | succ f =>
        have hlen : q.length ≤ 4 := by simpa using hq.length_le
        have hq4 : q.length ≠ 4 := by
          intro h4
          exact hne (by rw [hq.eq_of_length (by simpa using h4)])
        exact rfdStep_dollar_nc f q _
          (extractFixedData_short (36 :: q) [36, 45, 49, 13, 10]
            (by simp only [List.length_cons]; simp; omega))

theorem decProps_nullArray (fmt : DoubleV → Bytes) : DecProps fmt .NullArray := by
  have hok : ∀ fuel rest, respFrameDecodeF (fuel + 1)
      (encFrame fmt .NullArray ++ rest) = (.ok .NullArray, rest) := by
    intro fuel rest
    rw [encNullArray_eq]
    exact rfdStep_nullArray_ok fuel _ rest
      (extractFixedData_ok [42, 45, 49, 13, 10] rest)
  refine ⟨?_, ?_, ?_, ?_⟩
  · intro fuel rest
    cases fuel with
    | zero => exact Or.inr rfl
    | succ f => exact Or.inl (hok f rest)
  · intro fuel rest hw _
    cases fuel with
    | zero => exact absurd hw (by have := wFrame_pos .NullArray; omega)
    | succ f => exact hok f rest
  · intro fuel ht
    simp [teaFrame] at ht
  · intro fuel p hp hne
    rw [encNullArray_eq] at hp hne
    rcases prefix_cons_cases p 42 [45, 49, 13, 10] hp with rfl | ⟨q, rfl, hq⟩
    · exact rfd_nil fuel
    · cases fuel with
      | zero => rfl
      | succ f =>
        have hlen : q.length ≤ 4 := by simpa using hq.length_le
        have hq4 : q.length ≠ 4 := by
          intro h4
          exact hne (by rw [hq.eq_of_length (by simpa using h4)])
        exact rfdStep_star_nc f q _
          (extractFixedData_short (42 :: q) [42, 45, 49, 13, 10]
            (by simp only [List.length_cons]; simp; omega))

/- ------------------------------------------------------------------ -/
/- The null-literal pre-check of the dollar and star branches never    -/
/- matches a buffer whose length line starts with a decimal digit.     -/
/- ------------------------------------------------------------------ -/

theorem prefix_digits_cons (m : Nat) (z q : Bytes) (hq : q <+: natToBytes m ++ z)
    (hne : q ≠ []) : ∃ d q2, q = d :: q2 ∧ 48 ≤ d ∧ d ≤ 57 := by
  obtain ⟨d, ds, hd⟩ : ∃ d ds, natToBytes m = d :: ds := by
    cases hnb : natToBytes m with
    | nil => exact absurd hnb (natToBytes_ne_nil m)
    | cons d ds => exact ⟨d, ds, rfl⟩
  rw [hd] at hq
  cases q with
  | nil => exact absurd rfl hne
  | cons y q2 =>
    have hq2 : y :: q2 <+: d :: (ds ++ z) := hq
    rw [List.cons_prefix_cons] at hq2
    have hdig := natToBytes_digits m d (hd ▸ List.mem_cons_self d ds)
    exact ⟨d, q2, by rw [hq2.1], hdig.1, hdig.2⟩

theorem nullLit_mismatch_pre (c m : Nat) (z q : Bytes)
    (hq : q <+: natToBytes m ++ z) (hlen5 : ¬ (c :: q).length < 5) :
    extractFixedData (c :: q) [c, 45, 49, 13, 10]
      = (.error .InvalidFrame, c :: q) := by
  refine extractFixedData_mismatch _ _ (by simpa using hlen5) (fun h => ?_)
  obtain ⟨d, q2, hdq, hd48, _⟩ := prefix_digits_cons m z q hq
    (by intro h0; rw [h0] at hlen5; simp at hlen5)
  subst hdq
  have h2 : c :: d :: (q2.take 3) = [c, 45, 49, 13, 10] := h
  injection h2 with _ h3
  injection h3 with h4 _
  omega

/- ------------------------------------------------------------------ -/
/- DecProps case lemma: BulkString.                                    -/
/- ------------------------------------------------------------------ -/

theorem decProps_bulk (fmt : DoubleV → Bytes) (b : Bytes)
    (hlen : b.length < 2 ^ 64) : DecProps fmt (.BulkString b) := by
  have hok : ∀ fuel rest, respFrameDecodeF (fuel + 1)
      (encFrame fmt (.BulkString b) ++ rest) = (.ok (.BulkString b), rest) := by
    intro fuel rest
    rw [encBulk_explode]
    have hd := List.length_pos.2 (natToBytes_ne_nil b.length)
    have hnull := nullLit_mismatch_pre 36 b.length
      (13 :: 10 :: (b ++ 13 :: 10 :: rest)) _ (List.prefix_refl _)
      (by simp only [List.length_cons, List.length_append]; omega)
    have hbulk : bulkStringDecode
        (36 :: (natToBytes b.length ++ 13 :: 10 :: (b ++ 13 :: 10 :: rest)))
        = (.ok b, rest) := by
      have h2 := bulk_ok b.length (b ++ 13 :: 10 :: rest) hlen
        (by simp only [List.length_append, List.length_cons]; omega)
      have h3 : (b ++ 13 :: 10 :: rest).drop (b.length + 2) = rest := by
        have h4 : b ++ 13 :: 10 :: rest = (b ++ [13, 10]) ++ rest := by simp
        have h5 : b.length + 2 = (b ++ [13, 10]).length := by simp
        rw [h4, h5, List.drop_left]
      rw [List.take_left, h3] at h2
      exact h2
    exact rfdStep_bulk_ok fuel _ .InvalidFrame _ b rest hnull (by decide) hbulk
  refine ⟨?_, ?_, ?_, ?_⟩
  · intro fuel rest
    cases fuel with
    | zero => exact Or.inr rfl
    | succ f => exact Or.inl (hok f rest)
  · intro fuel rest hw _
    cases fuel with
    | zero => exact absurd hw (by have := wFrame_pos (.BulkString b); omega)
    | succ f => exact hok f rest
  · intro fuel ht
    simp [teaFrame] at ht
  · intro fuel p hp hne
    rw [encBulk_norest] at hp hne
    rcases prefix_cons_cases p 36
      (natToBytes b.length ++ 13 :: 10 :: (b ++ [13, 10])) hp with rfl | ⟨q, rfl, hq⟩
    · exact rfd_nil fuel
    · cases fuel with
      | zero => rfl
      | succ f =>
        by_cases h5 : (36 :: q).length < 5
        · exact rfdStep_dollar_nc f q _
            (extractFixedData_short _ _ (by simpa using h5))
        · have hnull := nullLit_mismatch_pre 36 b.length
            (13 :: 10 :: (b ++ [13, 10])) q hq h5
          refine rfdStep_bulk_err f q .InvalidFrame _ .NotComplete _ hnull
            (by decide) ?_
          have hsplit : natToBytes b.length ++ 13 :: 10 :: (b ++ [13, 10])
              = (natToBytes b.length ++ [13, 10]) ++ (b ++ [13, 10]) := by simp
          rw [hsplit] at hq hne
          rcases prefix_append_cases q _ _ hq with hq1 | ⟨q2, rfl, hq2⟩
          · by_cases heq : q = natToBytes b.length ++ [13, 10]
            · subst heq
              refine bulk_nc _ ((natToBytes b.length).length + 1) b.length
                (parseLength_enc 36 b.length [] (by omega) hlen) ?_
              rw [drop_enc_line 36 (natToBytes b.length) []]
              simp only [List.length_nil]
              omega
            · have hcrlf := line_prefix_nc 36 (natToBytes b.length) q (by omega)
                (natToBytes_not13 b.length) hq1 heq
              have hpl := parseLength_nc (36 :: q) [36]
                (isPrefixOf_cons_self 36 q) hcrlf
              rw [bulkStringDecode, hpl]
          · have hassoc : 36 :: ((natToBytes b.length ++ [13, 10]) ++ q2)
                = 36 :: (natToBytes b.length ++ 13 :: 10 :: q2) := by simp
            rw [hassoc]
            refine bulk_nc _ ((natToBytes b.length).length + 1) b.length
              (parseLength_enc 36 b.length q2 (by omega) hlen) ?_
            rw [drop_enc_line]
            have hlq := hq2.length_le
            by_cases heq2 : q2.length = (b ++ [13, 10]).length
            · exact absurd (by rw [hq2.eq_of_length heq2]) hne
            · simp only [List.length_append, List.length_cons,
                List.length_nil] at hlq heq2
              omega

/- ------------------------------------------------------------------ -/
/- DecProps case lemma: Array.                                         -/
/- ------------------------------------------------------------------ -/

theorem decProps_array (fmt : DoubleV → Bytes) (xs : List RespFrame)
    (hlen : xs.length < 2 ^ 64) (hIH : ∀ x ∈ xs, DecProps fmt x) :
    DecProps fmt (.Array xs) := by
  refine ⟨?_, ?_, ?_, ?_⟩
  · -- decode of encoding ++ rest: success or NotComplete with untouched buffer
    intro fuel rest
    cases fuel with
    | zero => exact Or.inr rfl
    | succ f =>
      by_cases h5 : (42 :: (natToBytes xs.length
          ++ 13 :: 10 :: (encFrameList fmt xs ++ rest))).length < 5
      · refine Or.inr ?_
        rw [encArray_explode]
        exact rfdStep_star_nc f _ _
          (extractFixedData_short _ _ (by simpa using h5))
      · have hnull := nullLit_mismatch_pre 42 xs.length
          (13 :: 10 :: (encFrameList fmt xs ++ rest)) _ (List.prefix_refl _) h5
        have hpl := parseLength_enc 42 xs.length (encFrameList fmt xs ++ rest)
          (by omega) hlen
        rcases decodeList_disj fmt f xs rest hIH with hdl | hdl
        · refine Or.inl ?_
          rw [encArray_explode]
          have harr := respArrayDecode_ok_of (respFrameDecodeF f) _
            ((natToBytes xs.length).length + 1) xs.length xs rest hpl
            (by rw [drop_enc_line]; exact hdl)
          have hdd : (42 :: (natToBytes xs.length
              ++ 13 :: 10 :: (encFrameList fmt xs ++ rest))).drop
              ((42 :: (natToBytes xs.length
                ++ 13 :: 10 :: (encFrameList fmt xs ++ rest))).length
                - rest.length) = rest := by
            rw [← encArray_explode fmt xs rest]
            exact drop_len_sub _ rest
          rw [hdd] at harr
          exact rfdStep_array_ok f _ .InvalidFrame _ xs rest hnull
            (by decide) harr
        · refine Or.inr ?_
          rw [encArray_explode]
          exact rfdStep_array_err f _ .InvalidFrame _ .NotComplete _ hnull
            (by decide)
            (respArrayDecode_dlerr (respFrameDecodeF f) _
              ((natToBytes xs.length).length + 1) xs.length .NotComplete hpl
              (by rw [drop_enc_line]; exact hdl))
  · -- with enough fuel and no trailing empty array, success
    intro fuel rest hw hcond
    cases fuel with
    | zero => exact absurd hw (by have := wFrame_pos (.Array xs); omega)
    | succ f =>
      rw [wFrame] at hw
      have hwl : ∀ x ∈ xs, wFrame x ≤ f := by
        intro x hx
        have h1 := wFrameList_mem xs x hx
        omega
      have hcond2 : rest ≠ [] ∨ listTea xs = false := by
        cases xs with
        | nil =>
          rcases hcond with h | h
          · exact Or.inl h
          · simp [teaFrame] at h
        | cons y ys =>
          rcases hcond with h | h
          · exact Or.inl h
          · rw [teaFrame] at h
            rw [listTea]
            exact Or.inr h
      have hz : encFrameList fmt xs ++ rest ≠ [] := by
        cases xs with
        | nil =>
          simp only [encFrameList, List.nil_append]
          rcases hcond with h | h
          · exact h
          · simp [teaFrame] at h
        | cons y ys =>
          intro h0
          exact encFrameList_cons_ne_nil fmt y ys (List.append_eq_nil.1 h0).1
      have h5 : ¬ (42 :: (natToBytes xs.length
          ++ 13 :: 10 :: (encFrameList fmt xs ++ rest))).length < 5 := by
        have hd := List.length_pos.2 (natToBytes_ne_nil xs.length)
        have hz2 := List.length_pos.2 hz
        simp only [List.length_append] at hz2
        simp only [List.length_cons, List.length_append]
        omega
      have hnull := nullLit_mismatch_pre 42 xs.length
        (13 :: 10 :: (encFrameList fmt xs ++ rest)) _ (List.prefix_refl _) h5
      have hpl := parseLength_enc 42 xs.length (encFrameList fmt xs ++ rest)
        (by omega) hlen
      have hdl := decodeList_full fmt f xs rest hIH hwl hcond2
      rw [encArray_explode]
      have harr := respArrayDecode_ok_of (respFrameDecodeF f) _
        ((natToBytes xs.length).length + 1) xs.length xs rest hpl
        (by rw [drop_enc_line]; exact hdl)
      have hdd : (42 :: (natToBytes xs.length
          ++ 13 :: 10 :: (encFrameList fmt xs ++ rest))).drop
          ((42 :: (natToBytes xs.length
            ++ 13 :: 10 :: (encFrameList fmt xs ++ rest))).length
            - rest.length) = rest := by
        rw [← encArray_explode fmt xs rest]
        exact drop_len_sub _ rest
      rw [hdd] at harr
      exact rfdStep_array_ok f _ .InvalidFrame _ xs rest hnull (by decide) harr
  · -- trailing empty array: NotComplete on the bare encoding
    intro fuel ht
    cases xs with
    | nil =>
      cases fuel with
      | zero => rfl
      | succ f =>
        have he : encFrame fmt (.Array []) = [42, 48, 13, 10] := by
          rw [encArray_norest,
            show encFrameList fmt ([] : List RespFrame) = [] from by
              rw [encFrameList]]
          rfl
        rw [he]
        exact rfdStep_star_nc f _ _ (extractFixedData_short _ _ (by simp))
    | cons y ys =>
      have hlt : listTea (y :: ys) = true := by
        rw [teaFrame] at ht
        rw [listTea]
        exact ht
      cases fuel with
      | zero => rfl
      | succ f =>
        rw [encArray_norest]
        have hz : encFrameList fmt (y :: ys) ≠ [] := encFrameList_cons_ne_nil fmt y ys
        have h5 : ¬ (42 :: (natToBytes (y :: ys).length
            ++ 13 :: 10 :: encFrameList fmt (y :: ys))).length < 5 := by
          have hd := List.length_pos.2 (natToBytes_ne_nil (y :: ys).length)
          have hz2 := List.length_pos.2 hz
          simp only [List.length_cons] at hd
          simp only [List.length_cons, List.length_append]
          omega
        have hnull := nullLit_mismatch_pre 42 (y :: ys).length
          (13 :: 10 :: encFrameList fmt (y :: ys)) _ (List.prefix_refl _) h5
        have hpl := parseLength_enc 42 (y :: ys).length
          (encFrameList fmt (y :: ys)) (by omega) hlen
        have hdl := decodeList_teaLemma fmt f (y :: ys) hIH hlt
        exact rfdStep_array_err f _ .InvalidFrame _ .NotComplete _ hnull
          (by decide)
          (respArrayDecode_dlerr (respFrameDecodeF f) _
            ((natToBytes (y :: ys).length).length + 1) (y :: ys).length
            .NotComplete hpl (by rw [drop_enc_line]; exact hdl))
  · -- every strict prefix decodes to NotComplete with untouched buffer
    intro fuel p hp hne
    rw [encArray_norest] at hp hne
    rcases prefix_cons_cases p 42
      (natToBytes xs.length ++ 13 :: 10 :: encFrameList fmt xs) hp
      with rfl | ⟨q, rfl, hq⟩
    · exact rfd_nil fuel
    · cases fuel with
      | zero => rfl
      | succ f =>
        by_cases h5 : (42 :: q).length < 5
        · exact rfdStep_star_nc f q _
            (extractFixedData_short _ _ (by simpa using h5))
        · have hnull := nullLit_mismatch_pre 42 xs.length
            (13 :: 10 :: encFrameList fmt xs) q hq h5
          refine rfdStep_array_err f q .InvalidFrame _ .NotComplete _ hnull
            (by decide) ?_
          have hsplit : natToBytes xs.length ++ 13 :: 10 :: encFrameList fmt xs
              = (natToBytes xs.length ++ [13, 10]) ++ encFrameList fmt xs := by
            simp
          rw [hsplit] at hq hne
          rcases prefix_append_cases q _ _ hq with hq1 | ⟨q2, rfl, hq2⟩
          · by_cases heq : q = natToBytes xs.length ++ [13, 10]
            · subst heq
              cases xs with
              | nil =>
                refine absurd ?_ hne
                rw [show encFrameList fmt ([] : List RespFrame) = [] from by
                  rw [encFrameList]]
                simp
              | cons y ys =>
                have hpl := parseLength_enc 42 (y :: ys).length [] (by omega) hlen
                refine respArrayDecode_dlerr _ _
                  ((natToBytes (y :: ys).length).length + 1) (y :: ys).length
                  .NotComplete hpl ?_
                rw [drop_enc_line 42 (natToBytes (y :: ys).length) []]
                exact decodeList_succ_err _ ys.length [] .NotComplete [] (rfd_nil f)
            · have hcrlf := line_prefix_nc 42 (natToBytes xs.length) q (by omega)
                (natToBytes_not13 xs.length) hq1 heq
              exact respArrayDecode_plerr _ _ .NotComplete
                (parseLength_nc (42 :: q) [42] (isPrefixOf_cons_self 42 q) hcrlf)
          · have hassoc : 42 :: ((natToBytes xs.length ++ [13, 10]) ++ q2)
                = 42 :: (natToBytes xs.length ++ 13 :: 10 :: q2) := by simp
            rw [hassoc]
            have hne2 : q2 ≠ encFrameList fmt xs := by
              intro h0
              exact hne (by rw [h0])
            refine respArrayDecode_dlerr _ _
              ((natToBytes xs.length).length + 1) xs.length .NotComplete
              (parseLength_enc 42 xs.length q2 (by omega) hlen) ?_
            rw [drop_enc_line]
            exact decodeList_pre fmt f xs q2 hIH hq2 hne2

/- ------------------------------------------------------------------ -/
/- DecProps case lemma: Set.                                           -/
/- ------------------------------------------------------------------ -/

theorem decProps_set (fmt : DoubleV → Bytes) (xs : List RespFrame)
    (hlen : xs.length < 2 ^ 64) (hIH : ∀ x ∈ xs, DecProps fmt x) :
    DecProps fmt (.Set xs) := by
  refine ⟨?_, ?_, ?_, ?_⟩
  · intro fuel rest
    cases fuel with
    | zero => exact Or.inr rfl
    | succ f =>
      have hpl := parseLength_enc 126 xs.length (encFrameList fmt xs ++ rest)
        (by omega) hlen
      rcases decodeList_disj fmt f xs rest hIH with hdl | hdl
      · refine Or.inl ?_
        rw [encSet_explode]
        have hset := respSetDecode_ok_of (respFrameDecodeF f) _
          ((natToBytes xs.length).length + 1) xs.length xs rest hpl
          (by rw [drop_enc_line]; exact hdl)
        have hdd : (126 :: (natToBytes xs.length
            ++ 13 :: 10 :: (encFrameList fmt xs ++ rest))).drop
            ((126 :: (natToBytes xs.length
              ++ 13 :: 10 :: (encFrameList fmt xs ++ rest))).length
              - rest.length) = rest := by
          rw [← encSet_explode fmt xs rest]
          exact drop_len_sub _ rest
        rw [hdd] at hset
        exact rfdStep_set_ok f _ xs rest hset
      · refine Or.inr ?_
        rw [encSet_explode]
        exact rfdStep_set_err f _ .NotComplete _
          (respSetDecode_dlerr (respFrameDecodeF f) _
            ((natToBytes xs.length).length + 1) xs.length .NotComplete hpl
            (by rw [drop_enc_line]; exact hdl))
  · intro fuel rest hw hcond
    cases fuel with
    | zero => exact absurd hw (by have := wFrame_pos (.Set xs); omega)
    | succ f =>
      rw [wFrame] at hw
      have hwl : ∀ x ∈ xs, wFrame x ≤ f := by
        intro x hx
        have h1 := wFrameList_mem xs x hx
        omega
      have hcond2 : rest ≠ [] ∨ listTea xs = false := by
        cases xs with
        | nil => exact Or.inr rfl
        | cons y ys =>
          rcases hcond with h | h
          · exact Or.inl h
          · rw [teaFrame] at h
            rw [listTea]
            exact Or.inr h
      have hpl := parseLength_enc 126 xs.length (encFrameList fmt xs ++ rest)
        (by omega) hlen
      have hdl := decodeList_full fmt f xs rest hIH hwl hcond2
      rw [encSet_explode]
      have hset := respSetDecode_ok_of (respFrameDecodeF f) _
        ((natToBytes xs.length).length + 1) xs.length xs rest hpl
        (by rw [drop_enc_line]; exact hdl)
      have hdd : (126 :: (natToBytes xs.length
          ++ 13 :: 10 :: (encFrameList fmt xs ++ rest))).drop
          ((126 :: (natToBytes xs.length
            ++ 13 :: 10 :: (encFrameList fmt xs ++ rest))).length
            - rest.length) = rest := by
        rw [← encSet_explode fmt xs rest]
        exact drop_len_sub _ rest
      rw [hdd] at hset
      exact rfdStep_set_ok f _ xs rest hset
  · intro fuel ht
    cases xs with
    | nil => simp [teaFrame] at ht
    | cons y ys =>
      have hlt : listTea (y :: ys) = true := by
        rw [teaFrame] at ht
        rw [listTea]
        exact ht
      cases fuel with
      | zero => rfl
      | succ f =>
        rw [encSet_norest]
        have hpl := parseLength_enc 126 (y :: ys).length
          (encFrameList fmt (y :: ys)) (by omega) hlen
        have hdl := decodeList_teaLemma fmt f (y :: ys) hIH hlt
        exact rfdStep_set_err f _ .NotComplete _
          (respSetDecode_dlerr (respFrameDecodeF f) _
            ((natToBytes (y :: ys).length).length + 1) (y :: ys).length
            .NotComplete hpl (by rw [drop_enc_line]; exact hdl))
  · intro fuel p hp hne
    rw [encSet_norest] at hp hne
    rcases prefix_cons_cases p 126
      (natToBytes xs.length ++ 13 :: 10 :: encFrameList fmt xs) hp
      with rfl | ⟨q, rfl, hq⟩
    · exact rfd_nil fuel
    · cases fuel with
      | zero => rfl
      | succ f =>
        refine rfdStep_set_err f q .NotComplete _ ?_
        have hsplit : natToBytes xs.length ++ 13 :: 10 :: encFrameList fmt xs
            = (natToBytes xs.length ++ [13, 10]) ++ encFrameList fmt xs := by
          simp
        rw [hsplit] at hq hne
        rcases prefix_append_cases q _ _ hq with hq1 | ⟨q2, rfl, hq2⟩
        · by_cases heq : q = natToBytes xs.length ++ [13, 10]
          · subst heq
            cases xs with
            | nil =>
              refine absurd ?_ hne
              rw [show encFrameList fmt ([] : List RespFrame) = [] from by
                rw [encFrameList]]
              simp
            | cons y ys =>
              have hpl := parseLength_enc 126 (y :: ys).length [] (by omega) hlen
              refine respSetDecode_dlerr _ _
                ((natToBytes (y :: ys).length).length + 1) (y :: ys).length
                .NotComplete hpl ?_
              rw [drop_enc_line 126 (natToBytes (y :: ys).length) []]
              exact decodeList_succ_err _ ys.length [] .NotComplete [] (rfd_nil f)
          · have hcrlf := line_prefix_nc 126 (natToBytes xs.length) q (by omega)
              (natToBytes_not13 xs.length) hq1 heq
            exact respSetDecode_plerr _ _ .NotComplete
              (parseLength_nc (126 :: q) [126] (isPrefixOf_cons_self 126 q) hcrlf)
        · have hassoc : 126 :: ((natToBytes xs.length ++ [13, 10]) ++ q2)
              = 126 :: (natToBytes xs.length ++ 13 :: 10 :: q2) := by simp
          rw [hassoc]
          have hne2 : q2 ≠ encFrameList fmt xs := by
            intro h0
            exact hne (by rw [h0])
          refine respSetDecode_dlerr _ _
            ((natToBytes xs.length).length + 1) xs.length .NotComplete
            (parseLength_enc 126 xs.length q2 (by omega) hlen) ?_
          rw [drop_enc_line]
          exact decodeList_pre fmt f xs q2 hIH hq2 hne2

/- ------------------------------------------------------------------ -/
/- DecProps case lemma: Map.                                           -/
/- ------------------------------------------------------------------ -/

theorem decProps_map (fmt : DoubleV → Bytes) (es : List (Bytes × RespFrame))
    (hlen : es.length < 2 ^ 64) (hsort : sortedChain (es.map Prod.fst) = true)
    (hwfe : wfEntriesList es = true) (hIH : ∀ p ∈ es, DecProps fmt p.2) :
    DecProps fmt (.Map es) := by
  have hkeys : ∀ p ∈ es, wfText p.1 = true :=
    fun p hp => (wfEntriesList_mem es hwfe p hp).1
  have hins : insertAll [] es = es := by
    have h1 := insertAll_sorted es [] (by simpa using hsort)
    simpa using h1
  refine ⟨?_, ?_, ?_, ?_⟩
  · intro fuel rest
    cases fuel with
    | zero => exact Or.inr rfl
    | succ f =>
      have hpl := parseLength_enc 37 es.length (encEntries fmt es ++ rest)
        (by omega) hlen
      rcases decodePairs_disj fmt f es rest [] hIH hkeys with hdp | hdp
      · refine Or.inl ?_
        rw [encMap_explode]
        rw [hins] at hdp
        have hmap := respMapDecode_ok_of (respFrameDecodeF f) _
          ((natToBytes es.length).length + 1) es.length es rest hpl
          (by rw [drop_enc_line]; exact hdp)
        have hdd : (37 :: (natToBytes es.length
            ++ 13 :: 10 :: (encEntries fmt es ++ rest))).drop
            ((37 :: (natToBytes es.length
              ++ 13 :: 10 :: (encEntries fmt es ++ rest))).length
              - rest.length) = rest := by
          rw [← encMap_explode fmt es rest]
          exact drop_len_sub _ rest
        rw [hdd] at hmap
        exact rfdStep_map_ok f _ es rest hmap
      · refine Or.inr ?_
        rw [encMap_explode]
        exact rfdStep_map_err f _ .NotComplete _
          (respMapDecode_dperr (respFrameDecodeF f) _
            ((natToBytes es.length).length + 1) es.length .NotComplete hpl
            (by rw [drop_enc_line]; exact hdp))
  · intro fuel rest hw hcond
    cases fuel with
    | zero => exact absurd hw (by have := wFrame_pos (.Map es); omega)
    | succ f =>
      rw [wFrame] at hw
      have hwl : ∀ p ∈ es, wFrame p.2 ≤ f := by
        intro p hp
        have h1 := wEntriesList_mem es p hp
        omega
      have hcond2 : rest ≠ [] ∨ entriesTea es = false := by
        cases es with
        | nil => exact Or.inr rfl
        | cons e es2 =>
          rcases hcond with h | h
          · exact Or.inl h
          · rw [teaFrame] at h
            rw [entriesTea]
            exact Or.inr h
      have hpl := parseLength_enc 37 es.length (encEntries fmt es ++ rest)
        (by omega) hlen
      have hdp := decodePairs_full fmt f es rest [] hIH hwl hkeys hcond2
      rw [hins] at hdp
      rw [encMap_explode]
      have hmap := respMapDecode_ok_of (respFrameDecodeF f) _
        ((natToBytes es.length).length + 1) es.length es rest hpl
        (by rw [drop_enc_line]; exact hdp)
      have hdd : (37 :: (natToBytes es.length
          ++ 13 :: 10 :: (encEntries fmt es ++ rest))).drop
          ((37 :: (natToBytes es.length
            ++ 13 :: 10 :: (encEntries fmt es ++ rest))).length
            - rest.length) = rest := by
        rw [← encMap_explode fmt es rest]
        exact drop_len_sub _ rest
      rw [hdd] at hmap
      exact rfdStep_map_ok f _ es rest hmap
  · intro fuel ht
    cases es with
    | nil => simp [teaFrame] at ht
    | cons e es2 =>
      have hlt : entriesTea (e :: es2) = true := by
        rw [teaFrame] at ht
        rw [entriesTea]
        exact ht
      cases fuel with
      | zero => rfl
      | succ f =>
        rw [encMap_norest]
        have hpl := parseLength_enc 37 (e :: es2).length
          (encEntries fmt (e :: es2)) (by omega) hlen
        have hdp := decodePairs_teaLemma fmt f (e :: es2) [] hIH hkeys hlt
        exact rfdStep_map_err f _ .NotComplete _
          (respMapDecode_dperr (respFrameDecodeF f) _
            ((natToBytes (e :: es2).length).length + 1) (e :: es2).length
            .NotComplete hpl (by rw [drop_enc_line]; exact hdp))
  · intro fuel p hp hne
    rw [encMap_norest] at hp hne
    rcases prefix_cons_cases p 37
      (natToBytes es.length ++ 13 :: 10 :: encEntries fmt es) hp
      with rfl | ⟨q, rfl, hq⟩
    · exact rfd_nil fuel
    · cases fuel with
      | zero => rfl
      | succ f =>
        refine rfdStep_map_err f q .NotComplete _ ?_
        have hsplit : natToBytes es.length ++ 13 :: 10 :: encEntries fmt es
            = (natToBytes es.length ++ [13, 10]) ++ encEntries fmt es := by
          simp
        rw [hsplit] at hq hne
        rcases prefix_append_cases q _ _ hq with hq1 | ⟨q2, rfl, hq2⟩
        · by_cases heq : q = natToBytes es.length ++ [13, 10]
          · subst heq
            cases es with
            | nil =>
              refine absurd ?_ hne
              rw [show encEntries fmt ([] : List (Bytes × RespFrame)) = [] from by
                rw [encEntries]]
              simp
            | cons e es2 =>
              have hpl := parseLength_enc 37 (e :: es2).length [] (by omega) hlen
              refine respMapDecode_dperr _ _
                ((natToBytes (e :: es2).length).length + 1) (e :: es2).length
                .NotComplete hpl ?_
              rw [drop_enc_line 37 (natToBytes (e :: es2).length) []]
              exact decodePairs_succ_kerr _ es2.length [] [] .NotComplete []
                simpleStringDecode_nil
          · have hcrlf := line_prefix_nc 37 (natToBytes es.length) q (by omega)
              (natToBytes_not13 es.length) hq1 heq
            exact respMapDecode_plerr _ _ .NotComplete
              (parseLength_nc (37 :: q) [37] (isPrefixOf_cons_self 37 q) hcrlf)
        · have hassoc : 37 :: ((natToBytes es.length ++ [13, 10]) ++ q2)
              = 37 :: (natToBytes es.length ++ 13 :: 10 :: q2) := by simp
          rw [hassoc]
          have hne2 : q2 ≠ encEntries fmt es := by
            intro h0
            exact hne (by rw [h0])
          refine respMapDecode_dperr _ _
            ((natToBytes es.length).length + 1) es.length .NotComplete
            (parseLength_enc 37 es.length q2 (by omega) hlen) ?_
          rw [drop_enc_line]
          exact decodePairs_pre fmt f es q2 [] hIH hkeys hq2 hne2

/- ------------------------------------------------------------------ -/
/- The main decoding theorem: every well-formed frame enjoys DecProps. -/
/- ------------------------------------------------------------------ -/

theorem decMain (N : Nat) : ∀ (F : RespFrame) (fmt : DoubleV → Bytes),
    wFrame F ≤ N → wfFrame F = true → FmtOkOn fmt F → DecProps fmt F := by
  induction N with
  | zero =>
    intro F fmt hw _ _
    exact absurd hw (by have := wFrame_pos F; omega)
  | succ n ih =>
    intro F fmt hw hwf hfmt
    cases F with
    | SimpleString s =>
      rw [wfFrame] at hwf
      exact decProps_simpleString fmt s hwf
    | Error s =>
      rw [wfFrame] at hwf
      exact decProps_error fmt s hwf
    | Integer m =>
      rw [wfFrame] at hwf
      have h := of_decide_eq_true hwf
      exact decProps_integer fmt m h.1 h.2
    | BulkString b =>
      rw [wfFrame] at hwf
      exact decProps_bulk fmt b (of_decide_eq_true hwf)
    | Boolean b => exact decProps_boolean fmt b
    | Null => exact decProps_nullV fmt
    | NullBulkString => exact decProps_nullBulk fmt
    | NullArray => exact decProps_nullArray fmt
    | Double d =>
      have hd := hfmt d (by rw [doublesIn]; exact List.mem_singleton_self d)
      exact decProps_double fmt d hd.1 hd.2
    | Array xs =>
      rw [wfFrame, Bool.and_eq_true] at hwf
      rw [wFrame] at hw
      refine decProps_array fmt xs (of_decide_eq_true hwf.1) (fun x hx => ?_)
      have h1 := wFrameList_mem xs x hx
      exact ih x fmt (by omega) (wfFrameList_mem xs hwf.2 x hx)
        (FmtOkOn_array_mem fmt xs hfmt x hx)
    | Set xs =>
      rw [wfFrame, Bool.and_eq_true] at hwf
      rw [wFrame] at hw
      refine decProps_set fmt xs (of_decide_eq_true hwf.1) (fun x hx => ?_)
      have h1 := wFrameList_mem xs x hx
      exact ih x fmt (by omega) (wfFrameList_mem xs hwf.2 x hx)
        (FmtOkOn_set_mem fmt xs hfmt x hx)
    | Map es =>
      rw [wfFrame, Bool.and_eq_true, Bool.and_eq_true] at hwf
      rw [wFrame] at hw
      refine decProps_map fmt es (of_decide_eq_true hwf.1.1) hwf.1.2 hwf.2
        (fun p hp => ?_)
      have h1 := wEntriesList_mem es p hp
      exact ih p.2 fmt (by omega) (wfEntriesList_mem es hwf.2 p hp).2
        (FmtOkOn_map_mem fmt es hfmt p hp)

theorem decProps_of_wf (fmt : DoubleV → Bytes) (F : RespFrame)
    (hwf : wfFrame F = true) (hfmt : FmtOkOn fmt F) : DecProps fmt F :=
  decMain (wFrame F) F fmt le_rfl hwf hfmt

/- ------------------------------------------------------------------ -/
/- The weight never exceeds the encoding length, so the fuel           -/
/- `buf.length + 1` of `respFrameDecode` always suffices.              -/
/- ------------------------------------------------------------------ -/

theorem wFrame_le_encLen (N : Nat) : ∀ (F : RespFrame) (fmt : DoubleV → Bytes),
    wFrame F ≤ N → wFrame F ≤ (encFrame fmt F).length := by
  induction N with
  | zero =>
    intro F fmt hw
    exact absurd hw (by have := wFrame_pos F; omega)
  | succ n ih =>
    intro F fmt hw
    have hlist : ∀ ys : List RespFrame, (∀ y ∈ ys, wFrame y ≤ n) →
        wFrameList ys ≤ (encFrameList fmt ys).length := by
      intro ys
      induction ys with
      | nil =>
        intro _
        rw [wFrameList, encFrameList]
        simp
      | cons y t iht =>
        intro hb
        rw [wFrameList, encFrameList]
        simp only [List.length_append]
        have h1 := ih y fmt (hb y (List.mem_cons_self y t))
        have h2 := iht (fun z hz => hb z (List.mem_cons_of_mem y hz))
        omega
    have hents : ∀ zs : List (Bytes × RespFrame), (∀ p ∈ zs, wFrame p.2 ≤ n) →
        wEntriesList zs ≤ (encEntries fmt zs).length := by
      intro zs
      induction zs with
      | nil =>
        intro _
        rw [wEntriesList, encEntries]
        simp
      | cons p t iht =>
        intro hb
        obtain ⟨k, v⟩ := p
        rw [wEntriesList, encEntries]
        simp only [List.length_append, List.length_cons]
        have h1 := ih v fmt (hb (k, v) (List.mem_cons_self (k, v) t))
        have h2 := iht (fun z hz => hb z (List.mem_cons_of_mem (k, v) hz))
        omega
    cases F with
    | Array xs =>
      rw [wFrame] at hw ⊢
      rw [encArray_norest]
      simp only [List.length_cons, List.length_append]
      have hl := hlist xs (fun y hy => by
        have := wFrameList_mem xs y hy
        omega)
      omega
    | Set xs =>
      rw [wFrame] at hw ⊢
      rw [encSet_norest]
      simp only [List.length_cons, List.length_append]
      have hl := hlist xs (fun y hy => by
        have := wFrameList_mem xs y hy
        omega)
      omega
    | Map es =>
      rw [wFrame] at hw ⊢
      rw [encMap_norest]
      simp only [List.length_cons, List.length_append]
      have hl := hents es (fun p hp => by
        have := wEntriesList_mem es p hp
        omega)
      omega
    | SimpleString s =>
      simp only [wFrame]
      exact List.length_pos.2 (encFrame_ne_nil fmt _)
    | Error s =>
      simp only [wFrame]
      exact List.length_pos.2 (encFrame_ne_nil fmt _)
    | Integer m =>
      simp only [wFrame]
      exact List.length_pos.2 (encFrame_ne_nil fmt _)
    | BulkString b =>
      simp only [wFrame]
      exact List.length_pos.2 (encFrame_ne_nil fmt _)
    | Boolean b =>
      simp only [wFrame]
      exact List.length_pos.2 (encFrame_ne_nil fmt _)
    | Null =>
      simp only [wFrame]
      exact List.length_pos.2 (encFrame_ne_nil fmt _)
    | NullBulkString =>
      simp only [wFrame]
      exact List.length_pos.2 (encFrame_ne_nil fmt _)
    | NullArray =>
      simp only [wFrame]
      exact List.length_pos.2 (encFrame_ne_nil fmt _)
    | Double d =>
      simp only [wFrame]
      exact List.length_pos.2 (encFrame_ne_nil fmt _)

/-- Full-encoding success of the public decoder: a well-formed frame whose
doubles the formatter round-trips decodes back exactly, provided either some
residue follows or no trailing empty Array ends the encoding. -/
theorem respFrameDecode_full (fmt : DoubleV → Bytes) (F : RespFrame)
    (rest : Bytes) (hwf : wfFrame F = true) (hfmt : FmtOkOn fmt F)
    (hcond : rest ≠ [] ∨ teaFrame F = false) :
    respFrameDecode (encFrame fmt F ++ rest) = (.ok F, rest) := by
  have hd := decProps_of_wf fmt F hwf hfmt
  refine hd.2.1 ((encFrame fmt F ++ rest).length + 1) rest ?_ hcond
  have hb := wFrame_le_encLen (wFrame F) F fmt le_rfl
  simp only [List.length_append]
  omega

/- ------------------------------------------------------------------ -/
/- Remaining helper lemmas for the claim theorems.                     -/
/- ------------------------------------------------------------------ -/

theorem alistGet_put_self {α : Type} (l : List (Bytes × α)) (k : Bytes) (v : α) :
    alistGet (alistPut l k v) k = some v := by
  induction l with
  | nil => simp [alistPut, alistGet]
  | cons p rest ih =>
    obtain ⟨k0, v0⟩ := p
    rw [alistPut]
    by_cases h : k0 = k
    · rw [if_pos h, alistGet, if_pos h]
    · rw [if_neg h, alistGet, if_neg h]
      exact ih

theorem decodeList_err_nc (dec : Bytes → DecRes RespFrame) :
    ∀ (n : Nat) (b : Bytes) (e : RespError),
      decodeList dec n b = .error e → e = .NotComplete := by
  intro n
  induction n with
  | zero =>
    intro b e h
    rw [decodeList] at h
    exact Except.noConfusion h
  | succ n ih =>
    intro b e h
    rw [decodeList] at h
    cases hd : dec b with
    | mk r b1 =>
      rw [hd] at h
      cases r with
      | ok f =>
        have h2 : (match decodeList dec n b1 with
            | .ok (fs, b2) =>
              (.ok (f :: fs, b2) : Except RespError (List RespFrame × Bytes))
            | .error e2 => .error e2) = .error e := h
        cases hdl : decodeList dec n b1 with
        | ok p =>
          obtain ⟨fs, b2⟩ := p
          rw [hdl] at h2
          exact Except.noConfusion h2
        | error e2 =>
          rw [hdl] at h2
          injection h2 with h3
          rw [← h3]
          exact ih b1 e2 hdl
      | error e1 =>
        have h2 : (.error .NotComplete
            : Except RespError (List RespFrame × Bytes)) = .error e := h
        injection h2 with h3
        rw [← h3]

theorem decodePairs_err_nc (dec : Bytes → DecRes RespFrame) :
    ∀ (n : Nat) (b : Bytes) (acc : List (Bytes × RespFrame)) (e : RespError),
      decodePairs dec n b acc = .error e → e = .NotComplete := by
  intro n
  induction n with
  | zero =>
    intro b acc e h
    rw [decodePairs] at h
    exact Except.noConfusion h
  | succ n ih =>
    intro b acc e h
    rw [decodePairs] at h
    cases hk : simpleStringDecode b with
    | mk rk b1 =>
      rw [hk] at h
      cases rk with
      | ok k =>
        have h2 : (match dec b1 with
            | (.ok v, b2) => decodePairs dec n b2 (mapInsert acc k v)
            | (.error _, _) =>
              (.error .NotComplete
                : Except RespError (List (Bytes × RespFrame) × Bytes))) = .error e := h
        cases hv : dec b1 with
        | mk rv b2 =>
          rw [hv] at h2
          cases rv with
          | ok v => exact ih b2 (mapInsert acc k v) e h2
          | error e2 =>
            injection h2 with h3
            rw [← h3]
      | error e1 =>
        have h2 : (.error .NotComplete
            : Except RespError (List (Bytes × RespFrame) × Bytes)) = .error e := h
        injection h2 with h3
        rw [← h3]

theorem encArrayNil_bytes (fmt : DoubleV → Bytes) :
    encFrame fmt (.Array []) = [42, 48, 13, 10] := by
  rw [encArray_norest, show encFrameList fmt ([] : List RespFrame) = [] from by
    rw [encFrameList]]
  rfl

/- ------------------------------------------------------------------ -/
/- The claims.                                                         -/
/- ------------------------------------------------------------------ -/

/-- C1: a decode attempt that returns `NotComplete` leaves the buffer
byte-identical to its pre-call state, and on every strict prefix of the
encoding of a valid frame (well-formed, doubles faithfully formatted)
`RespFrame::decode` returns `NotComplete` without consuming anything. -/
theorem c1_notcomplete_atomicity :
    (∀ buf : Bytes, (respFrameDecode buf).1 = .error .NotComplete →
      (respFrameDecode buf).2 = buf)
    ∧ (∀ (fmt : DoubleV → Bytes) (F : RespFrame) (p : Bytes),
        wfFrame F = true → FmtOkOn fmt F →
        p <+: encFrame fmt F → p ≠ encFrame fmt F →
        respFrameDecode p = (.error .NotComplete, p)) := by
  constructor
  · intro buf h
    exact respFrameDecodeF_nc_snd (buf.length + 1) buf h
  · intro fmt F p hwf hfmt hp hne
    exact (decProps_of_wf fmt F hwf hfmt).2.2.2 (p.length + 1) p hp hne

/-- C1 witness: the two-byte strict prefix `:+` of the encoding of
`Integer 5` decodes to `NotComplete` with the buffer untouched, and the
consumed-bytes count on that NotComplete result is zero. -/
theorem c1_notcomplete_atomicity_witness :
    (respFrameDecode [58, 43]).2 = [58, 43]
    ∧ respFrameDecode [58, 43] = (.error .NotComplete, [58, 43]) := by
  constructor
  · exact c1_notcomplete_atomicity.1 [58, 43] rfl
  · exact c1_notcomplete_atomicity.2 (fun _ => []) (.Integer 5) [58, 43]
      (by rw [wfFrame]; decide)
      (by intro d hd; simp [doublesIn] at hd)
      (by rw [encInteger_norest]; decide)
      (by rw [encInteger_norest]; decide)

/-- C2 counterexample: the empty Array is a frame without NaN or CR/LF in
Simple* payloads (it is well-formed), yet decoding its four-byte encoding
`*0\r\n` does not yield the frame back: the null-array pre-check demands
five buffered bytes and reports `NotComplete`. -/
theorem c2_counterexample :
    wfFrame (.Array []) = true
    ∧ encFrame (fun _ => []) (.Array []) = [42, 48, 13, 10]
    ∧ respFrameDecode [42, 48, 13, 10]
      = (.error .NotComplete, [42, 48, 13, 10]) := by
  refine ⟨?_, encArrayNil_bytes (fun _ => []), rfl⟩
  rw [wfFrame, wfFrameList]
  decide

/-- C2 (corrected): the round-trip law holds for every well-formed frame
whose doubles the formatter round-trips, unless the encoding ends (through
trailing composite positions) with an empty Array and nothing follows it;
in that case decode reports `NotComplete` and consumes nothing. -/
theorem c2_roundtrip_corrected :
    (∀ (fmt : DoubleV → Bytes) (F : RespFrame) (rest : Bytes),
        wfFrame F = true → FmtOkOn fmt F →
        (rest ≠ [] ∨ teaFrame F = false) →
        respFrameDecode (encFrame fmt F ++ rest) = (.ok F, rest))
    ∧ (∀ (fmt : DoubleV → Bytes) (F : RespFrame),
        wfFrame F = true → FmtOkOn fmt F → teaFrame F = true →
        respFrameDecode (encFrame fmt F)
          = (.error .NotComplete, encFrame fmt F)) := by
  constructor
  · exact respFrameDecode_full
  · intro fmt F hwf hfmt ht
    exact (decProps_of_wf fmt F hwf hfmt).2.2.1
      ((encFrame fmt F).length + 1) ht

/-- C2 witness: the round-trip at `Integer 5` (encoding `:+5\r\n`, decoding
back exactly with empty residue), and the NotComplete half at `Array []`. -/
theorem c2_roundtrip_corrected_witness :
    respFrameDecode [58, 43, 53, 13, 10] = (.ok (.Integer 5), [])
    ∧ respFrameDecode [42, 48, 13, 10]
      = (.error .NotComplete, [42, 48, 13, 10]) := by
  constructor
  · have h := c2_roundtrip_corrected.1 (fun _ => []) (.Integer 5) []
      (by rw [wfFrame]; decide)
      (by intro d hd; simp [doublesIn] at hd)
      (Or.inr (by simp [teaFrame]))
    rwa [show encFrame (fun _ => []) (.Integer 5) ++ [] = [58, 43, 53, 13, 10] from by
      rw [encInteger_norest]; decide] at h
  · have h := c2_roundtrip_corrected.2 (fun _ => []) (.Array [])
      (by rw [wfFrame, wfFrameList]; decide)
      (by intro d hd; simp [doublesIn, doublesInList] at hd)
      (by rw [teaFrame])
    rwa [encArrayNil_bytes (fun _ => [])] at h

/-- C3 counterexample: a zero length prefix is accepted for bulk strings,
sets and maps, but `*0\r\n` alone does NOT decode to the empty Array: the
null-array pre-check wants five bytes and the decoder reports
`NotComplete`, consuming nothing. -/
theorem c3_counterexample :
    respFrameDecode [36, 48, 13, 10, 13, 10] = (.ok (.BulkString []), [])
    ∧ respFrameDecode [126, 48, 13, 10] = (.ok (.Set []), [])
    ∧ respFrameDecode [37, 48, 13, 10] = (.ok (.Map []), [])
    ∧ respFrameDecode [42, 48, 13, 10]
      = (.error .NotComplete, [42, 48, 13, 10]) :=
  ⟨rfl, rfl, rfl, rfl⟩

/-- C3 (corrected): `$0\r\n\r\n`, `~0\r\n` and `%0\r\n` decode to the empty
BulkString, Set and Map consuming the whole input, but `*0\r\n` alone gives
`NotComplete`; the empty Array is only produced once at least one further
byte is buffered after its four encoding bytes, and then exactly the four
bytes are consumed. -/
theorem c3_zero_length_corrected :
    respFrameDecode [36, 48, 13, 10, 13, 10] = (.ok (.BulkString []), [])
    ∧ respFrameDecode [126, 48, 13, 10] = (.ok (.Set []), [])
    ∧ respFrameDecode [37, 48, 13, 10] = (.ok (.Map []), [])
    ∧ respFrameDecode [42, 48, 13, 10]
      = (.error .NotComplete, [42, 48, 13, 10])
    ∧ (∀ rest : Bytes, rest ≠ [] →
        respFrameDecode ([42, 48, 13, 10] ++ rest) = (.ok (.Array []), rest)) := by
  refine ⟨rfl, rfl, rfl, rfl, ?_⟩
  intro rest hrest
  have h := respFrameDecode_full (fun _ => []) (.Array []) rest
    (by rw [wfFrame, wfFrameList]; decide)
    (by intro d hd; simp [doublesIn, doublesInList] at hd)
    (Or.inl hrest)
  rwa [encArrayNil_bytes (fun _ => [])] at h

/-- C3 witness: one extra buffered byte `X` lets `*0\r\n` decode to the
empty Array with exactly that byte left over. -/
theorem c3_zero_length_corrected_witness :
    respFrameDecode [42, 48, 13, 10, 88] = (.ok (.Array []), [88]) := by
  have h := c3_zero_length_corrected.2.2.2.2 [88] (by decide)
  simpa using h

/-- C4 counterexample: the request `["GET", "k"]` with the command name in
upper case and the correct argument shape converts to `Unrecognized`, not to
the Get command: the dispatch in `TryFrom<RespArray> for Command` compares
the name bytes case-sensitively against the lower-case literals. -/
theorem c4_counterexample :
    tryFromCommand [.BulkString [71, 69, 84], .BulkString [107]]
      = .ok .Unrecognized := rfl

/-- C4 (corrected): command recognition is case-sensitive.  Exactly the
lower-case spellings `get`, `set`, `hget`, `hset`, `hgetall` with the
correct argument shape (and UTF-8-valid key/field bytes) convert to their
commands; every other first-element byte string converts to `Unrecognized`;
and the recognized commands execute with the documented store semantics
(set-then-get and hset-then-hget return the stored value). -/
theorem c4_command_case_corrected :
    (∀ key : Bytes, utf8Lossy key = key →
      tryFromCommand [.BulkString [103, 101, 116], .BulkString key]
        = .ok (.Get key))
    ∧ (∀ (key : Bytes) (v : RespFrame), utf8Lossy key = key →
      tryFromCommand [.BulkString [115, 101, 116], .BulkString key, v]
        = .ok (.Set key v))
    ∧ (∀ key f : Bytes, utf8Lossy key = key → utf8Lossy f = f →
      tryFromCommand [.BulkString [104, 103, 101, 116], .BulkString key,
        .BulkString f] = .ok (.HGet key f))
    ∧ (∀ (key f : Bytes) (v : RespFrame), utf8Lossy key = key → utf8Lossy f = f →
      tryFromCommand [.BulkString [104, 115, 101, 116], .BulkString key,
        .BulkString f, v] = .ok (.HSet key f v))
    ∧ (∀ key : Bytes, utf8Lossy key = key →
      tryFromCommand [.BulkString [104, 103, 101, 116, 97, 108, 108],
        .BulkString key] = .ok (.HGetAll key false))
    ∧ (∀ (cmd : Bytes) (rest : List RespFrame),
        cmd ≠ [103, 101, 116] → cmd ≠ [115, 101, 116] →
        cmd ≠ [104, 103, 101, 116] → cmd ≠ [104, 115, 101, 116] →
        cmd ≠ [104, 103, 101, 116, 97, 108, 108] →
        tryFromCommand (.BulkString cmd :: rest) = .ok .Unrecognized)
    ∧ (∀ (b : Backend) (key f : Bytes) (v : RespFrame),
        executeCommand (.Set key v) b = (RESPOK, backendSet b key v)
        ∧ (executeCommand (.Get key) (backendSet b key v)).1 = v
        ∧ (executeCommand (.HGet key f) (backendHSet b key f v)).1 = v) := by
  refine ⟨?_, ?_, ?_, ?_, ?_, ?_, ?_⟩
  · intro key hk
    have h1 : parseUtf8Key key = .ok key := by simp [parseUtf8Key, hk]
    show (parseUtf8Key key).map Command.Get = .ok (.Get key)
    rw [h1]
    rfl
  · intro key v hk
    have h1 : parseUtf8Key key = .ok key := by simp [parseUtf8Key, hk]
    show (parseUtf8Key key).map (fun k => Command.Set k v) = .ok (.Set key v)
    rw [h1]
    rfl
  · intro key f hk hf
    have h1 : parseUtf8Key key = .ok key := by simp [parseUtf8Key, hk]
    have h2 : parseUtf8Key f = .ok f := by simp [parseUtf8Key, hf]
    show (match parseUtf8Key key with
      | .error e => (.error e : Except CommandError Command)
      | .ok k =>
        match parseUtf8Key f with
        | .error e => .error e
        | .ok fd => .ok (.HGet k fd)) = .ok (.HGet key f)
    rw [h1]
    show (match parseUtf8Key f with
      | .error e => (.error e : Except CommandError Command)
      | .ok fd => .ok (.HGet key fd)) = .ok (.HGet key f)
    rw [h2]
  · intro key f v hk hf
    have h1 : parseUtf8Key key = .ok key := by simp [parseUtf8Key, hk]
    have h2 : parseUtf8Key f = .ok f := by simp [parseUtf8Key, hf]
    show (match parseUtf8Key key with
      | .error e => (.error e : Except CommandError Command)
      | .ok k =>
        match parseUtf8Key f with
        | .error e => .error e
        | .ok fd => .ok (.HSet k fd v)) = .ok (.HSet key f v)
    rw [h1]
    show (match parseUtf8Key f with
      | .error e => (.error e : Except CommandError Command)
      | .ok fd => .ok (.HSet key fd v)) = .ok (.HSet key f v)
    rw [h2]
  · intro key hk
    have h1 : parseUtf8Key key = .ok key := by simp [parseUtf8Key, hk]
    show (parseUtf8Key key).map (fun k => Command.HGetAll k false)
      = .ok (.HGetAll key false)
    rw [h1]
    rfl
  · intro cmd rest h1 h2 h3 h4 h5
    show (if cmd = [103, 101, 116] then getTryFrom (.BulkString cmd :: rest)
      else if cmd = [115, 101, 116] then setTryFrom (.BulkString cmd :: rest)
      else if cmd = [104, 103, 101, 116] then hgetTryFrom (.BulkString cmd :: rest)
      else if cmd = [104, 115, 101, 116] then hsetTryFrom (.BulkString cmd :: rest)
      else if cmd = [104, 103, 101, 116, 97, 108, 108] then
        hgetallTryFrom (.BulkString cmd :: rest)
      else .ok .Unrecognized) = .ok .Unrecognized
    rw [if_neg h1, if_neg h2, if_neg h3, if_neg h4, if_neg h5]
  · intro b key f v
    refine ⟨rfl, ?_, ?_⟩
    · show (alistGet (alistPut b.kv key v) key).getD .Null = v
      rw [alistGet_put_self b.kv key v]
      rfl
    · show ((alistGet (alistPut b.hmap key
          (alistPut ((alistGet b.hmap key).getD []) f v)) key).bind
          (fun m => alistGet m f)).getD .Null = v
      rw [alistGet_put_self b.hmap key
        (alistPut ((alistGet b.hmap key).getD []) f v)]
      show (alistGet (alistPut ((alistGet b.hmap key).getD []) f v) f).getD .Null = v
      rw [alistGet_put_self ((alistGet b.hmap key).getD []) f v]
      rfl

/-- C4 witness: lower-case `get` with key `k` converts to the Get command,
an unknown name `ping` converts to `Unrecognized`, and get-after-set
returns the stored frame. -/
theorem c4_command_case_corrected_witness :
    tryFromCommand [.BulkString [103, 101, 116], .BulkString [107]]
      = .ok (.Get [107])
    ∧ tryFromCommand [.BulkString [112, 105, 110, 103]] = .ok .Unrecognized
    ∧ (executeCommand (.Get [107])
        (backendSet Backend.empty [107] (.Integer 1))).1 = .Integer 1 := by
  refine ⟨?_, ?_, ?_⟩
  · exact c4_command_case_corrected.1 [107] (utf8Lossy_ascii [107] (by decide))
  · exact c4_command_case_corrected.2.2.2.2.2.1 [112, 105, 110, 103] []
      (by decide) (by decide) (by decide) (by decide) (by decide)
  · exact (c4_command_case_corrected.2.2.2.2.2.2 Backend.empty [107] [102]
      (.Integer 1)).2.1

/-- C5 counterexample: the buffer `%1\r\n:1\r\n+v\r\n` holds a complete
%-frame whose key position carries an Integer frame, yet `RespFrame::decode`
reports `NotComplete` rather than a typed parse error: the pair loop of
`RespMap::decode` converts the key error into `NotComplete`. -/
theorem c5_counterexample :
    respFrameDecode [37, 49, 13, 10, 58, 49, 13, 10, 43, 118, 13, 10]
      = (.error .NotComplete,
         [37, 49, 13, 10, 58, 49, 13, 10, 43, 118, 13, 10]) := rfl

/-- C5 (corrected): when a map key position does not decode as a
SimpleString, `RespMap::decode` returns `NotComplete` (not the underlying
typed error), leaving the buffer untouched: any failure of the key decode
inside the pair loop is converted to `NotComplete`. -/
theorem c5_map_key_corrected :
    ∀ (dec : Bytes → DecRes RespFrame) (buf : Bytes) (e len : Nat)
      (eK : RespError) (b1 : Bytes),
      parseLength buf [37] = .ok (e, len + 1) →
      simpleStringDecode (buf.drop (e + 2)) = (.error eK, b1) →
      respMapDecode dec buf = (.error .NotComplete, buf) := by
  intro dec buf e len eK b1 hpl hk
  exact respMapDecode_dperr dec buf e (len + 1) .NotComplete hpl
    (decodePairs_succ_kerr dec len (buf.drop (e + 2)) [] eK b1 hk)

/-- C5 witness: the map body `%1\r\n:1\r\n` whose single key position holds
an Integer tag makes `RespMap::decode` report `NotComplete`. -/
theorem c5_map_key_corrected_witness :
    respMapDecode (respFrameDecodeF 1) [37, 49, 13, 10, 58, 49, 13, 10]
      = (.error .NotComplete, [37, 49, 13, 10, 58, 49, 13, 10]) :=
  c5_map_key_corrected (respFrameDecodeF 1) [37, 49, 13, 10, 58, 49, 13, 10]
    2 0 .InvalidFrameType [58, 49, 13, 10] rfl rfl

/-- C6 counterexample: the +-frame `+\xFF\r\n` carries the invalid UTF-8
payload byte 0xFF, yet decode succeeds, producing the SimpleString whose
payload is the U+FFFD replacement character: the decoder goes through
`String::from_utf8_lossy` and never rejects invalid UTF-8. -/
theorem c6_counterexample :
    respFrameDecode [43, 255, 13, 10]
      = (.ok (.SimpleString [239, 191, 189]), []) := rfl

/-- C6 (corrected): SimpleString and SimpleError payload bytes are decoded
lossily, never rejected: for every CR-free payload the decoded frame
carries `from_utf8_lossy` of the raw bytes (the identity on valid UTF-8,
U+FFFD replacements otherwise), and the line is consumed. -/
theorem c6_lossy_corrected :
    (∀ (s rest : Bytes) (fuel : Nat), 13 ∉ s →
      respFrameDecodeF (fuel + 1) (43 :: (s ++ 13 :: 10 :: rest))
        = (.ok (.SimpleString (utf8Lossy s)), rest))
    ∧ (∀ (s rest : Bytes) (fuel : Nat), 13 ∉ s →
      respFrameDecodeF (fuel + 1) (45 :: (s ++ 13 :: 10 :: rest))
        = (.ok (.Error (utf8Lossy s)), rest)) := by
  constructor
  · intro s rest fuel hs
    exact rfdStep_simpleString_ok fuel _ (utf8Lossy s) rest
      (by rw [simpleStringDecode]; exact simpleDecode_enc 43 s rest (by omega) hs)
  · intro s rest fuel hs
    exact rfdStep_error_ok fuel _ (utf8Lossy s) rest
      (by rw [simpleErrorDecode]; exact simpleDecode_enc 45 s rest (by omega) hs)

/-- C6 witness: the lone invalid byte 0xC8 in a +-frame decodes to the
U+FFFD replacement rather than an error. -/
theorem c6_lossy_corrected_witness :
    respFrameDecodeF 1 (43 :: ([200] ++ 13 :: 10 :: []))
      = (.ok (.SimpleString (utf8Lossy [200])), []) :=
  c6_lossy_corrected.1 [200] [] 0 (by decide)

/-- C7 counterexample: at x = 0.0 the encoder's branch condition
`|x| > 1e8 || |x| < 1e-8` is true (0 < 1e-8), so zero is formatted with the
exponential `{:+e}` form, producing `,+0e0\r\n`; the spec's canonical form
demands `0 < |x|` for the exponential branch and the bytes `,+0\r\n`. -/
theorem c7_counterexample :
    usesExpForm 0 = true ∧ specUsesExpForm 0 = false := by
  constructor
  · rw [usesExpForm, f64E8, f64Em8]
    norm_num
  · rw [specUsesExpForm, f64E8, f64Em8]
    norm_num

/-- C7 (corrected): the encoder's exponential-form branch condition agrees
with the spec's canonical rule at every nonzero double, but disagrees at
zero: the code sends zero through the exponential form because
`|0| < 1e-8`, while the spec places zero in the decimal branch (`+0`). -/
theorem c7_double_branch_corrected :
    (∀ q : ℚ, q ≠ 0 → usesExpForm q = specUsesExpForm q)
    ∧ usesExpForm 0 = true
    ∧ specUsesExpForm 0 = false := by
  refine ⟨?_, ?_, ?_⟩
  · intro q hq
    have h0 : (0 : ℚ) < |q| := abs_pos.2 hq
    simp [usesExpForm, specUsesExpForm, h0]
  · rw [usesExpForm, f64E8, f64Em8]
    norm_num
  · rw [specUsesExpForm, f64E8, f64Em8]
    norm_num

/-- C7 witness: at the nonzero double 1.0 the code's branch condition and
the spec's canonical rule agree. -/
theorem c7_double_branch_corrected_witness :
    (1 : ℚ) ≠ 0 ∧ usesExpForm 1 = specUsesExpForm 1 :=
  ⟨by norm_num, c7_double_branch_corrected.1 1 (by norm_num)⟩

/-- C8: a first-element BulkString that matches none of the five dispatch
byte literals converts successfully to `Unrecognized` (not an error), and
executing `Unrecognized` returns the `SimpleString "OK"` constant and hands
back the backend unchanged (backend semantics modelled from the spec, the
backend source file not being under `src/`). -/
theorem c8_unrecognized_ok :
    (∀ (cmd : Bytes) (rest : List RespFrame),
      cmd ≠ [103, 101, 116] → cmd ≠ [115, 101, 116] →
      cmd ≠ [104, 103, 101, 116] → cmd ≠ [104, 115, 101, 116] →
      cmd ≠ [104, 103, 101, 116, 97, 108, 108] →
      tryFromCommand (.BulkString cmd :: rest) = .ok .Unrecognized)
    ∧ (∀ b : Backend, executeCommand .Unrecognized b = (RESPOK, b)) := by
  constructor
  · intro cmd rest h1 h2 h3 h4 h5
    show (if cmd = [103, 101, 116] then getTryFrom (.BulkString cmd :: rest)
      else if cmd = [115, 101, 116] then setTryFrom (.BulkString cmd :: rest)
      else if cmd = [104, 103, 101, 116] then hgetTryFrom (.BulkString cmd :: rest)
      else if cmd = [104, 115, 101, 116] then hsetTryFrom (.BulkString cmd :: rest)
      else if cmd = [104, 103, 101, 116, 97, 108, 108] then
        hgetallTryFrom (.BulkString cmd :: rest)
      else .ok .Unrecognized) = .ok .Unrecognized
    rw [if_neg h1, if_neg h2, if_neg h3, if_neg h4, if_neg h5]
  · intro b
    rfl

/-- C8 witness: the unknown command name `echo` converts to `Unrecognized`
and executes to the `OK` reply on the empty backend, unchanged. -/
theorem c8_unrecognized_ok_witness :
    tryFromCommand [.BulkString [101, 99, 104, 111]] = .ok .Unrecognized
    ∧ executeCommand .Unrecognized Backend.empty = (RESPOK, Backend.empty) :=
  ⟨c8_unrecognized_ok.1 [101, 99, 104, 111] [] (by decide) (by decide)
    (by decide) (by decide) (by decide),
   c8_unrecognized_ok.2 Backend.empty⟩

/-- C9: inside the element loops of Array/Set decoding and the pair loop of
Map decoding, every inner element error — whatever its kind — is converted
to `NotComplete`; in particular the buffer `*1\r\nX` with a corrupt inner
tag yields `NotComplete` from the outer decode, not a typed error. -/
theorem c9_inner_error_coercion :
    (∀ (dec : Bytes → DecRes RespFrame) (n : Nat) (b : Bytes) (e : RespError),
      decodeList dec n b = .error e → e = .NotComplete)
    ∧ (∀ (dec : Bytes → DecRes RespFrame) (n : Nat) (b : Bytes)
        (acc : List (Bytes × RespFrame)) (e : RespError),
      decodePairs dec n b acc = .error e → e = .NotComplete)
    ∧ respFrameDecode [42, 49, 13, 10, 88]
      = (.error .NotComplete, [42, 49, 13, 10, 88]) :=
  ⟨fun dec => decodeList_err_nc dec, fun dec => decodePairs_err_nc dec, rfl⟩

/-- C9 witness: one element whose inner decode fails with `ParseIntError`
(the body `:a\r\n`) makes the element loop report `NotComplete`. -/
theorem c9_inner_error_coercion_witness :
    decodeList (respFrameDecodeF 2) 1 [58, 97, 13, 10] = .error .NotComplete
    ∧ RespError.NotComplete = .NotComplete :=
  ⟨rfl, c9_inner_error_coercion.1 (respFrameDecodeF 2) 1 [58, 97, 13, 10]
    .NotComplete rfl⟩

/-- C10: `BulkString::decode` never inspects the two bytes after the
declared payload: once the length line parses and `len + 2` body bytes are
buffered it returns the first `len` bytes and consumes `len + 2`, whatever
the two trailing bytes are; the same holds through the `RespFrame::decode`
dispatch. -/
theorem c10_bulk_ignores_trailer :
    (∀ (len : Nat) (body : Bytes), len < 2 ^ 64 → len + 2 ≤ body.length →
      bulkStringDecode (36 :: (natToBytes len ++ 13 :: 10 :: body))
        = (.ok (body.take len), body.drop (len + 2)))
    ∧ (∀ (fuel len : Nat) (body : Bytes), len < 2 ^ 64 → len + 2 ≤ body.length →
      respFrameDecodeF (fuel + 1) (36 :: (natToBytes len ++ 13 :: 10 :: body))
        = (.ok (.BulkString (body.take len)), body.drop (len + 2))) := by
  constructor
  · exact bulk_ok
  · intro fuel len body h1 h2
    have hd := List.length_pos.2 (natToBytes_ne_nil len)
    have hnull := nullLit_mismatch_pre 36 len (13 :: 10 :: body) _
      (List.prefix_refl _)
      (by simp only [List.length_cons, List.length_append]; omega)
    exact rfdStep_bulk_ok fuel _ .InvalidFrame _ (body.take len)
      (body.drop (len + 2)) hnull (by decide) (bulk_ok len body h1 h2)

/-- C10 witness: `$2\r\nabXY` decodes to the BulkString `ab` consuming all
four body bytes although the trailer is `XY`, not CRLF. -/
theorem c10_bulk_ignores_trailer_witness :
    bulkStringDecode (36 :: (natToBytes 2 ++ 13 :: 10 :: [97, 98, 88, 89]))
      = (.ok [97, 98], [])
    ∧ respFrameDecodeF 1 (36 :: (natToBytes 2 ++ 13 :: 10 :: [97, 98, 88, 89]))
      = (.ok (.BulkString [97, 98]), []) :=
  ⟨c10_bulk_ignores_trailer.1 2 [97, 98, 88, 89] (by decide) (by decide),
   c10_bulk_ignores_trailer.2 0 2 [97, 98, 88, 89] (by decide) (by decide)⟩

end SimpleRedis
